import Mathlib

/-! LambTrak mobile: a shallow embedding of `lambtrak_mobile.js`.

The development models the client-side record keeping of `lambtrak_mobile.js`:
the lambing form, the Dexie (IndexedDB) tables, the yearly totals, the calendar,
the CSV export, the JSON backup and restore, and the upload loop.

Conventions of the embedding:

* JavaScript strings are lists of characters (`Str`).
* JavaScript numbers that the program handles are integral; such a Number is
  represented by the integer that it is (`Int`), `NaN` being `none` in
  `Option Int`. A double holds every integer of absolute value up to `2 ^ 53`
  exactly; where the program reads, adds and prints counts, the rounding to the
  nearest double (`toDouble`) and the text of `Number::toString`
  (`numberToString`) are explicit. Keys of the object store are integers below
  `2 ^ 53`, whose text is their decimal text (`numToString`).
* The local time zone is a parameter of the functions that read a date in local
  time (`TimeZone`, and the offset function of `getFullYear`).
* The built-ins used by the source (`parseInt`, `String.prototype.trim`,
  `String(n)`, `padStart`, the `Date` algorithms of ECMA-262, the IndexedDB
  object store behind Dexie) are modelled after their specifications.
-/

namespace LambTrak

/-! ## JavaScript strings and numbers -/

/-- JavaScript strings, as lists of characters. -/
abbrev Str := List Char

/-- The code points that ECMA-262 calls `WhiteSpace` or `LineTerminator`; both
`String.prototype.trim` and `parseInt` strip them. -/
def isStrWhiteSpace (c : Char) : Bool :=
  let n := c.toNat
  n = 9 || n = 10 || n = 11 || n = 12 || n = 13 || n = 32 || n = 160 || n = 5760 ||
  (8192 ≤ n && n ≤ 8202) || n = 8232 || n = 8233 || n = 8239 || n = 8287 ||
  n = 12288 || n = 65279

/-- The method `String.prototype.trim`. -/
def jsTrim (s : Str) : Str :=
  ((s.dropWhile isStrWhiteSpace).reverse.dropWhile isStrWhiteSpace).reverse

/-- The value of a character as a digit in some radix up to 36. -/
def digitValue (c : Char) : Option Nat :=
  let n := c.toNat
  if 48 ≤ n ∧ n ≤ 57 then some (n - 48)
  else if 97 ≤ n ∧ n ≤ 122 then some (n - 87)
  else if 65 ≤ n ∧ n ≤ 90 then some (n - 55)
  else none

/-- Whether a character is a digit of radix `R`. -/
def isRadixDigit (R : Nat) (c : Char) : Bool :=
  match digitValue c with
  | some v => decide (v < R)
  | none => false

/-- The mathematical value of a run of radix-`R` digits. -/
def digitsValue (R : Nat) (z : Str) : Nat :=
  z.foldl (fun acc c => acc * R + (digitValue c).getD 0) 0

/-- The sign that `parseInt` reads off the trimmed input. -/
def parseIntSign (s : Str) : Int :=
  match s with
  | c :: _ => if c = '-' then -1 else 1
  | [] => 1

/-- The input of `parseInt` with a leading `+` or `-` removed. -/
def parseIntDropSign (s : Str) : Str :=
  match s with
  | c :: r => if c = '-' ∨ c = '+' then r else c :: r
  | [] => []

/-- Whether the unsigned input of `parseInt` starts with `0x` or `0X`. -/
def hasHexPrefix (s : Str) : Bool :=
  match s with
  | a :: b :: _ => a = '0' && (b = 'x' || b = 'X')
  | _ => false

/-- The global function `parseInt(string)` called without a radix: leading white
space is skipped, a sign is read, a `0x` prefix selects radix 16 (radix 10
otherwise), and the longest run of digits is converted; `NaN` (`none`) when there
is no digit. The result here is the mathematical integer that the digits spell
(`sign × mathInt` in ECMA-262); the built-in returns its Number value, which is
the same integer up to `2 ^ 53` and is given by `parseIntNumber` below. -/
def parseInt (s : Str) : Option Int :=
  let s1 := s.dropWhile isStrWhiteSpace
  let sign := parseIntSign s1
  let s2 := parseIntDropSign s1
  let R := if hasHexPrefix s2 then 16 else 10
  let s3 := if hasHexPrefix s2 then s2.drop 2 else s2
  let z := s3.takeWhile (isRadixDigit R)
  if z.isEmpty then none else some (sign * (digitsValue R z : Int))

/-- The expression `x || 0` for a number `x`: `NaN` and `0` give `0`. -/
def orZero (x : Option Int) : Int :=
  match x with
  | some n => n
  | none => 0

/-- The decimal digit character of `d < 10`. -/
def digitChar (d : Nat) : Char := Char.ofNat (48 + d)

/-- The decimal digits of a natural number, most significant first; `fuel` bounds
the number of digits. -/
def natDigitsAux : Nat → Nat → Str
  | 0, n => [digitChar (n % 10)]
  | fuel + 1, n => if n < 10 then [digitChar n] else natDigitsAux fuel (n / 10) ++ [digitChar (n % 10)]

/-- The decimal representation of a natural number. -/
def natToString (n : Nat) : Str := natDigitsAux n n

/-- The decimal text of an integer. It is the conversion `String(n)` of a Number
`n` of absolute value up to `2 ^ 53` (`numberToString_of_safe`); the conversion of
every integral Number is `numberToString` below. -/
def numToString (n : Int) : Str :=
  if n < 0 then '-' :: natToString n.natAbs else natToString n.natAbs

/-- The decimal digit characters. -/
def IsDigitChar (c : Char) : Prop := ∃ d, d < 10 ∧ c = digitChar d

/-! ### Numbers as doubles

The counts of the form are Numbers: `parseInt` returns the double nearest to the
integer that it reads, `+` rounds the exact sum to the nearest double, and a
template string writes a Number with `Number::toString`. An integral Number is
represented by the integer that it is, and the rounding is made explicit. A
magnitude of `2 ^ 1024` or more, which a double holds as `Infinity`, is not
represented; the theorems on counts carry bounds far below it. -/

/-- The number of low bits that do not fit into the 53-bit significand of a
double: the least `e` with `a / 2 ^ e < 2 ^ 53`; `fuel` bounds the search. -/
def dropBits : Nat → Nat → Nat
  | 0, _ => 0
  | fuel + 1, a => if a < 2 ^ 53 then 0 else dropBits fuel (a / 2) + 1

/-- The natural number nearest to `a` among those that a double holds (53
significant bits); of two that are equally near, the one with the even
significand is taken (round to nearest, ties to even). -/
def roundNat (a : Nat) : Nat :=
  let e := dropBits a a
  let q := a / 2 ^ e
  let r := a % 2 ^ e
  if 2 ^ e < 2 * r ∨ (2 * r = 2 ^ e ∧ q % 2 = 1) then (q + 1) * 2 ^ e else q * 2 ^ e

/-- The Number value of a mathematical integer: the nearest double. -/
def toDouble (n : Int) : Int :=
  if n < 0 then -(roundNat n.natAbs : Int) else (roundNat n.natAbs : Int)

/-- The sum `a + b` of two integral Numbers: the exact sum, rounded to the nearest
double. -/
def addNum (a b : Int) : Int := toDouble (a + b)

/-- The Number that the built-in `parseInt(string)` returns: the Number value of
the integer read (`parseInt` above), `NaN` (`none`) when there is no digit.
ECMA-262 allows an implementation to read the decimal digits after the 20th
significant one as zeros; here every digit counts. -/
def parseIntNumber (s : Str) : Option Int := (parseInt s).map toDouble

/-- One round of the search for the shortest decimal digits of `Number::toString`:
with `k` digits, the two candidates are the multiples `lo ≤ x < hi` of
`10 ^ (n - k)` next to `x`, where `n` is the number of decimal digits of `x`. A
candidate counts when the double nearest to it is `x`; of two that count, the one
nearer to `x` is taken, and the one with the even digits when they are equally
near. When neither counts, the search goes on with `k + 1` digits. -/
def shortestAux (x n : Nat) : Nat → Nat → Nat
  | 0, _ => x
  | fuel + 1, k =>
    let p := 10 ^ (n - k)
    let lo := x / p * p
    let hi := lo + p
    if roundNat lo = x then
      if roundNat hi = x then
        (if x - lo < hi - x then lo else if hi - x < x - lo then hi
         else if x / p % 2 = 0 then lo else hi)
      else lo
    else if roundNat hi = x then hi
    else shortestAux x n fuel (k + 1)

/-- The number `s × 10 ^ (n - k)` of `Number::toString` for an integral Number
`x`: the number with the fewest significant digits `k` whose Number value is `x`. -/
def shortestNat (x : Nat) : Nat :=
  let n := (natToString x).length
  shortestAux x n n 1

/-- The text of `Number::toString` for a Number that is a natural number: the
decimal digits of `shortestNat` when they are at most 21, and else the form
`d.ddde+n` with the exponent `n`, one less than the number of digits. -/
def natNumberText (x : Nat) : Str :=
  let digits := natToString (shortestNat x)
  if digits.length ≤ 21 then digits
  else
    let e := natToString (digits.length - 1)
    match (digits.reverse.dropWhile (fun c => decide (c = '0'))).reverse with
    | [] => digits
    | [d] => d :: 'e' :: '+' :: e
    | d :: rest => d :: '.' :: rest ++ 'e' :: '+' :: e

/-- The conversion of an integral Number to a string, as a template string or the
assignment to the `value` of an input performs it (`Number::toString`). -/
def numberToString (n : Int) : Str :=
  if n < 0 then '-' :: natNumberText n.natAbs else natNumberText n.natAbs

/-- The call `String(n).padStart(2, '0')`. -/
def pad2 (n : Int) : Str :=
  let s := numberToString n
  List.replicate (2 - s.length) '0' ++ s

/-! ## Data model -/

/-- The binary content of an image file (a `Blob`). -/
structure Blob where
  bytes : List Nat
  deriving DecidableEq, Repr

/-- The values the `imageBlob` property of a stored record takes: a real `Blob`
(the file chosen in the form), or a plain object without properties, which is what
the JSON text of a backup carries in its place. Both are truthy. -/
inductive ImageVal where
  | blob (b : Blob)
  | plainObject
  deriving DecidableEq, Repr

/-- One element of the array that `lamb_ids` holds as JSON text. -/
structure LambEntry where
  id : Str
  weight : Str
  sex : Str
  deriving DecidableEq, Repr

/-- A lambing record, the `data` object of `handleLambingSubmit`. The property
`lamb_ids` is JSON text in the source; it is represented by the array it denotes
(`JSON.parse (JSON.stringify a) = a` for arrays of objects with string members).
`id` is `none` while the property is absent, `imageBlob` likewise. -/
structure LambingRecord where
  id : Option Int
  date : Str
  ewe_id : Str
  lambs_born : Int
  male_lambs : Int
  female_lambs : Int
  scanned_count : Int
  sex_distribution : Str
  assistance : Str
  id_mark : Str
  comments : Str
  deaths : Int
  sire_id : Str
  lamb_ids : List LambEntry
  imageBlob : Option ImageVal
  deriving DecidableEq, Repr

/-- An entry of the `sheep` table; a flag is `none` when the object has no such
property. -/
structure Sheep where
  id : Str
  is_ewe : Option Int
  is_ram : Option Int
  deriving DecidableEq, Repr

/-! ## The IndexedDB object stores behind Dexie -/

/-- Insertion into a list kept in increasing key order; an element with the same
key is replaced. This is how an object store keeps its records. -/
def insertByKey {α κ : Type} [LinearOrder κ] (key : α → κ) (x : α) : List α → List α
  | [] => [x]
  | y :: ys =>
    if key x < key y then x :: y :: ys
    else if key y < key x then y :: insertByKey key x ys
    else x :: ys

/-- The table `lambing_records` with schema `++id`: its records in primary key
order, and the current number of the key generator. -/
structure Table where
  rows : List LambingRecord
  nextKey : Int
  deriving DecidableEq, Repr

/-- The key under which a stored record lies. -/
def recKey (r : LambingRecord) : Int := r.id.getD 0

/-- The empty table of a fresh database; the key generator starts at 1. -/
def Table.empty : Table := { rows := [], nextKey := 1 }

/-- The call `db.lambing_records.toArray()`. -/
def Table.toArray (t : Table) : List LambingRecord := t.rows

/-- The call `db.lambing_records.get(k)`. -/
def Table.get (t : Table) (k : Int) : Option LambingRecord :=
  t.rows.find? (fun r => decide (r.id = some k))

/-- The call `db.lambing_records.put(r)`: a record without `id` gets the next
generated key; a record with `id` is stored under it, replacing the record that
lies there, and the key generator is moved past an explicit key that reaches it. -/
def Table.put (t : Table) (r : LambingRecord) : Table :=
  match r.id with
  | none =>
    { rows := insertByKey recKey { r with id := some t.nextKey } t.rows, nextKey := t.nextKey + 1 }
  | some k =>
    { rows := insertByKey recKey r t.rows, nextKey := if t.nextKey ≤ k then k + 1 else t.nextKey }

/-- The call `db.lambing_records.add(r)`: as `put`, but a record whose explicit
key is taken is refused (`ConstraintError`). -/
def Table.add (t : Table) (r : LambingRecord) : Option Table :=
  match r.id with
  | none => some (t.put r)
  | some k => if (t.get k).isSome then none else some (t.put r)

/-- The call `db.lambing_records.delete(k)`. -/
def Table.delete (t : Table) (k : Int) : Table :=
  { t with rows := t.rows.filter (fun r => decide (r.id ≠ some k)) }

/-- The call `db.lambing_records.bulkPut(rs)`: the records are put one by one, in
array order. -/
def Table.bulkPut (t : Table) (rs : List LambingRecord) : Table :=
  rs.foldl Table.put t

/-- The states a table can be in: every record has a key, the keys increase
strictly along the rows, and the key generator is past every key. -/
def Table.WF (t : Table) : Prop :=
  (∀ r ∈ t.rows, ∃ k, r.id = some k ∧ k < t.nextKey) ∧ (t.rows.map recKey).Pairwise (· < ·)

/-- The key under which `put` stores a record: its `id`, or the generated key. -/
def Table.putKey (t : Table) (r : LambingRecord) : Int :=
  match r.id with
  | none => t.nextKey
  | some k => k

/-- The record as `put` stores it: the generated key is written into `id`. -/
def Table.storedAs (t : Table) (r : LambingRecord) : LambingRecord :=
  match r.id with
  | none => { r with id := some t.nextKey }
  | some _ => r

/-- The call `db.sheep.put(s)` on the table `sheep` with primary key `id`. -/
def sheepPut (sheep : List Sheep) (s : Sheep) : List Sheep :=
  insertByKey Sheep.id s sheep

/-- The local database: the two tables that the claims are about. -/
structure DB where
  lambing_records : Table
  sheep : List Sheep
  deriving DecidableEq, Repr

/-- A fresh database. -/
def emptyDB : DB := { lambing_records := Table.empty, sheep := [] }

/-! ## The lambing form -/

/-- A row `.lamb-data-row` of the lamb details list: the values of its two inputs,
its `data-sex` attribute, the text of its first label, and the default values of
the two inputs (their `value` attributes, to which `form.reset()` returns them). -/
structure LambRow where
  idValue : Str
  weightValue : Str
  sex : Str
  label : Str
  idDefault : Str
  weightDefault : Str
  deriving DecidableEq, Repr

/-- The state of the form `lambing-form` that the handlers read and write: the
`value` of each input, the chosen image file, the `data-edit-id` attribute and the
lamb rows present in the document. -/
structure Form where
  lambingMale : Str
  lambingFemale : Str
  lambingDead : Str
  lambingBorn : Str
  lambingScanned : Str
  lambingDate : Str
  lambingEwe : Str
  lambingAssistance : Str
  lambingMark : Str
  lambingComments : Str
  lambingSire : Str
  lambingImage : Option Blob
  editId : Option Str
  lambRows : List LambRow
  deriving DecidableEq, Repr

/-- The function `getLambDataFromUI`: one entry per lamb row, in document order. -/
def getLambDataFromUI (rows : List LambRow) : List LambEntry :=
  rows.map (fun row => { id := jsTrim row.idValue, weight := row.weightValue, sex := row.sex })

/-- The function `calculateFormTotal`: the total field receives the text of the
sum of the three counts, added from left to right as Numbers. -/
def calculateFormTotal (form : Form) : Form :=
  let male := orZero (parseIntNumber form.lambingMale)
  let female := orZero (parseIntNumber form.lambingFemale)
  let dead := orZero (parseIntNumber form.lambingDead)
  { form with lambingBorn := numberToString (addNum (addNum male female) dead) }

/-- The object `data` that `handleLambingSubmit` builds from the form (lines
138 to 156 of the source), before the image and the id are attached. -/
def formData (form : Form) : LambingRecord :=
  let male := orZero (parseIntNumber form.lambingMale)
  let female := orZero (parseIntNumber form.lambingFemale)
  let dead := orZero (parseIntNumber form.lambingDead)
  { id := none
    date := form.lambingDate
    ewe_id := jsTrim form.lambingEwe
    lambs_born := addNum (addNum male female) dead
    male_lambs := male
    female_lambs := female
    scanned_count := orZero (parseIntNumber form.lambingScanned)
    sex_distribution := numberToString male ++ 'M' :: ' ' :: numberToString female ++ ['F']
    assistance := form.lambingAssistance
    id_mark := jsTrim form.lambingMark
    comments := jsTrim form.lambingComments
    deaths := dead
    sire_id := jsTrim form.lambingSire
    lamb_ids := getLambDataFromUI form.lambRows
    imageBlob := none }

/-- The object `data` after the image step: the chosen file, if any, becomes
`imageBlob`. -/
def withFormImage (form : Form) (data : LambingRecord) : LambingRecord :=
  match form.lambingImage with
  | some file => { data with imageBlob := some (ImageVal.blob file) }
  | none => data

/-- The edit branch keeps the image of the record being replaced when the form
supplied none. -/
def preserveImage (t : Table) (data : LambingRecord) : LambingRecord :=
  match data.imageBlob with
  | some _ => data
  | none =>
    match t.get (recKey data) with
    | some oldRecord =>
      match oldRecord.imageBlob with
      | some img => { data with imageBlob := some img }
      | none => data
    | none => data

/-- The loop that saves the lamb ids of a new record in the `sheep` table. -/
def saveLambIds (sheep : List Sheep) (lambData : List LambEntry) : List Sheep :=
  lambData.foldl
    (fun acc lamb => if lamb.id = [] then acc else sheepPut acc { id := lamb.id, is_ewe := some 0, is_ram := some 0 })
    sheep

/-- What a submission ends in: the alert that the required fields are missing, the
alert of the `catch` block, or the saved database. -/
inductive SubmitResult where
  | rejected
  | error
  | saved (db : DB)
  deriving DecidableEq, Repr

/-- The function `handleLambingSubmit`. -/
def handleLambingSubmit (form : Form) (db : DB) : SubmitResult :=
  let data := formData form
  if data.ewe_id = [] ∨ data.date = [] then SubmitResult.rejected
  else
    let data := withFormImage form data
    match form.editId with
    | some (c :: cs) =>
      -- `data.id = parseInt(editId)`; a key that is `NaN` makes `put` throw. The
      -- edit id is the text of a key of the store, which `parseInt` reads exactly.
      match parseInt (c :: cs) with
      | none => SubmitResult.error
      | some k =>
        let data := preserveImage db.lambing_records { data with id := some k }
        SubmitResult.saved { db with lambing_records := db.lambing_records.put data }
    | _ =>
      match db.lambing_records.add data with
      | none => SubmitResult.error
      | some t =>
        let sheep := sheepPut db.sheep { id := data.ewe_id, is_ewe := some 1, is_ram := none }
        let sheep :=
          if data.sire_id = [] then sheep
          else sheepPut sheep { id := data.sire_id, is_ewe := none, is_ram := some 1 }
        SubmitResult.saved { lambing_records := t, sheep := saveLambIds sheep data.lamb_ids }

/-- The database after a submission: the saved database, or the old one when the
handler ended in an alert. -/
def SubmitResult.dbAfter (res : SubmitResult) (db : DB) : DB :=
  match res with
  | SubmitResult.saved db1 => db1
  | _ => db

/-- The record that an edit of the record `old` stores under key `k`: the form
data with that id, and as image the chosen file or else the image of `old`. -/
def editedRecord (form : Form) (k : Int) (old : LambingRecord) : LambingRecord :=
  { formData form with
    id := some k
    imageBlob := match form.lambingImage with
      | some file => some (ImageVal.blob file)
      | none => old.imageBlob }

/-! ## Dates (ECMA-262, section "Date objects") -/

/-- The number of milliseconds in a day. -/
def msPerDay : Int := 86400000

/-- The abstract operation `Day(t)`. -/
def day (t : Int) : Int := t / msPerDay

/-- The abstract operation `DaysInYear(y)`. -/
def daysInYear (y : Int) : Int :=
  if y % 4 ≠ 0 then 365 else if y % 100 ≠ 0 then 366 else if y % 400 ≠ 0 then 365 else 366

/-- The abstract operation `DayFromYear(y)`: the day number of 1 January of `y`. -/
def dayFromYear (y : Int) : Int :=
  365 * (y - 1970) + (y - 1969) / 4 - (y - 1901) / 100 + (y - 1601) / 400

/-- The year of a day number: the largest `y` with `DayFromYear(y) ≤ d`. It is
found next to the estimate that the 400-year cycle of 146097 days gives (see
`yearFromDay_spec` and `yearFromDay_unique`). -/
def yearFromDay (d : Int) : Int :=
  let y := 1970 + (400 * d) / 146097
  if dayFromYear (y + 1) ≤ d then y + 1 else if dayFromYear y ≤ d then y else y - 1

/-- The abstract operation `YearFromTime(t)`. -/
def yearFromTime (t : Int) : Int := yearFromDay (day t)

/-- The leap day count of a year: `1` in a leap year, `0` otherwise (`InLeapYear`). -/
def leapOfYear (y : Int) : Int := if daysInYear y = 366 then 1 else 0

/-- The abstract operation `InLeapYear(t)`. -/
def inLeapYear (t : Int) : Int := leapOfYear (yearFromTime t)

/-- The abstract operation `DayWithinYear(t)`. -/
def dayWithinYear (t : Int) : Int := day t - dayFromYear (yearFromTime t)

/-- The abstract operation `MonthFromTime(t)`, with January as month 0. -/
def monthFromTime (t : Int) : Int :=
  let w := dayWithinYear t
  let l := inLeapYear t
  if w < 31 then 0 else if w < 59 + l then 1 else if w < 90 + l then 2
  else if w < 120 + l then 3 else if w < 151 + l then 4 else if w < 181 + l then 5
  else if w < 212 + l then 6 else if w < 243 + l then 7 else if w < 273 + l then 8
  else if w < 304 + l then 9 else if w < 334 + l then 10 else 11

/-- The abstract operation `DateFromTime(t)`: the day of the month, from 1. -/
def dateFromTime (t : Int) : Int :=
  let w := dayWithinYear t
  let l := inLeapYear t
  let m := monthFromTime t
  if m = 0 then w + 1 else if m = 1 then w - 30 else if m = 2 then w - 58 - l
  else if m = 3 then w - 89 - l else if m = 4 then w - 119 - l else if m = 5 then w - 150 - l
  else if m = 6 then w - 180 - l else if m = 7 then w - 211 - l else if m = 8 then w - 242 - l
  else if m = 9 then w - 272 - l else if m = 10 then w - 303 - l else w - 333 - l

/-- The abstract operation `WeekDay(t)`, Sunday being 0; day 0 (1 January 1970)
is a Thursday. -/
def weekDay (t : Int) : Int := (day t + 4) % 7

/-- The day within the year on which month `mn` (0 to 11) starts, for leap day
count `l`. -/
def monthStart (mn l : Int) : Int :=
  if mn = 0 then 0 else if mn = 1 then 31 else if mn = 2 then 59 + l
  else if mn = 3 then 90 + l else if mn = 4 then 120 + l else if mn = 5 then 151 + l
  else if mn = 6 then 181 + l else if mn = 7 then 212 + l else if mn = 8 then 243 + l
  else if mn = 9 then 273 + l else if mn = 10 then 304 + l else 334 + l

/-- The abstract operation `MakeDay(year, month, date)`: months outside 0 to 11
carry into the year, and `date` counts on from the first of the month (`0` is the
last day of the month before). -/
def makeDay (year month date : Int) : Int :=
  let ym := year + month / 12
  let mn := month % 12
  dayFromYear ym + monthStart mn (leapOfYear ym) + date - 1

/-- The abstract operation `MakeDate(day, time)`. -/
def makeDate (d time : Int) : Int := d * msPerDay + time

/-- The local time zone of the browser, as the abstract operation `LocalTZA`
gives it: the offset of local time from UTC in milliseconds, at a UTC time value
(`LocalTZA(t, true)`) and at a local time value (`LocalTZA(t, false)`). A local
time that a transition of the zone skips is read with the offset before the
transition. -/
structure TimeZone where
  offsetAtUTC : Int → Int
  offsetAtLocal : Int → Int

/-- The abstract operation `LocalTime(t)`. -/
def localTime (zone : TimeZone) (t : Int) : Int := t + zone.offsetAtUTC t

/-- The abstract operation `UTC(t)`. -/
def utc (zone : TimeZone) (t : Int) : Int := t - zone.offsetAtLocal t

/-- The abstract operation `TimeClip(time)`: a time more than 8.64e15 milliseconds
from the epoch is no time value (`NaN`, here `none`). -/
def timeClip (time : Int) : Option Int :=
  if time < -8640000000000000 ∨ 8640000000000000 < time then none else some time

/-- The local time `finalDate` that the constructor call
`new Date(year, month, date)` computes from its arguments: midnight of that day;
a year from 0 to 99 stands for 1900 + year. -/
def finalDate (year month date : Int) : Int :=
  let yr := if 0 ≤ year ∧ year ≤ 99 then 1900 + year else year
  makeDate (makeDay yr month date) 0

/-- The constructor call `new Date(year, month, date)`: the time value of the date
object, which is `TimeClip(UTC(finalDate))`; `none` is an invalid date. -/
def newDateLocal (zone : TimeZone) (year month date : Int) : Option Int :=
  timeClip (utc zone (finalDate year month date))

/-- The method `getDate`: the day of the month in local time, `NaN` (`none`) for
an invalid date. -/
def getDate (zone : TimeZone) (tv : Option Int) : Option Int :=
  tv.map (fun t => dateFromTime (localTime zone t))

/-- The method `getDay`: the day of the week in local time, `NaN` (`none`) for an
invalid date. -/
def getDay (zone : TimeZone) (tv : Option Int) : Option Int :=
  tv.map (fun t => weekDay (localTime zone t))

/-- The value of a decimal digit character. -/
def decDigit (c : Char) : Option Int :=
  if 48 ≤ c.toNat ∧ c.toNat ≤ 57 then some ((c.toNat : Int) - 48) else none

/-- The constructor call `new Date(string)` on a date-only string `YYYY-MM-DD`,
which ECMA-262 reads as midnight UTC of that day; the result is the UTC time
value, `none` standing for an invalid date. Strings of another shape are not
produced by the date input of the form and count as invalid here. -/
def newDateString (s : Str) : Option Int :=
  match s with
  | [y1, y2, y3, y4, a, m1, m2, b, d1, d2] =>
    if a = '-' ∧ b = '-' then
      match decDigit y1, decDigit y2, decDigit y3, decDigit y4, decDigit m1, decDigit m2,
        decDigit d1, decDigit d2 with
      | some a1, some a2, some a3, some a4, some b1, some b2, some c1, some c2 =>
        let y := 1000 * a1 + 100 * a2 + 10 * a3 + a4
        let m := 10 * b1 + b2
        let d := 10 * c1 + c2
        if 1 ≤ m ∧ m ≤ 12 ∧ 1 ≤ d ∧ d ≤ 31 then some (makeDate (makeDay y (m - 1) d) 0) else none
      | _, _, _, _, _, _, _, _ => none
    else none
  | _ => none

/-- The method `getFullYear` of a date with UTC time value `t`: the year of the
local time `t + LocalTZA(t)`; `tza` is the offset of the local time zone in
milliseconds (negative west of Greenwich). -/
def getFullYear (tza : Int → Int) (t : Int) : Int := yearFromTime (t + tza t)

/-! ## Yearly totals -/

/-- The counts that `updateTotals` writes into the totals panel. -/
structure Totals where
  totalLambs : Int
  totalDeaths : Int
  totalAssisted : Nat
  totalLiving : Int
  totalEwes : Nat
  totalsYear : Int
  deriving DecidableEq, Repr

/-- The records that `updateTotals(year)` keeps:
`new Date(r.date).getFullYear() === year`. -/
def recordsOfYear (tza : Int → Int) (lambingRecordsData : List LambingRecord) (year : Int) :
    List LambingRecord :=
  lambingRecordsData.filter (fun r =>
    match newDateString r.date with
    | some t => decide (getFullYear tza t = year)
    | none => false)

/-- The function `updateTotals` (the counts; the percentages derived from them
are formatted floating point numbers and are left out). The counts of the records
and their sums are taken as integers up to `2 ^ 53`, which `parseInt(n)` reads back
from the text of `n` and which `+` adds exactly. -/
def updateTotals (tza : Int → Int) (lambingRecordsData : List LambingRecord) (year : Int) : Totals :=
  let records := recordsOfYear tza lambingRecordsData year
  let totalLambs := records.foldl (fun sum r => sum + orZero (parseInt (numToString r.lambs_born))) 0
  let totalDeaths := records.foldl (fun sum r => sum + orZero (parseInt (numToString r.deaths))) 0
  let totalAssisted :=
    (records.filter (fun r => decide (r.assistance ≠ [] ∧ r.assistance ≠ "None".toList))).length
  { totalLambs := totalLambs
    totalDeaths := totalDeaths
    totalAssisted := totalAssisted
    totalLiving := totalLambs - totalDeaths
    totalEwes := records.length
    totalsYear := year }

/-! ## CSV export -/

/-- The double quote character. -/
def dquote : Char := Char.ofNat 34

/-- The comma character. -/
def comma : Char := Char.ofNat 44

/-- The line feed character. -/
def newline : Char := Char.ofNat 10

/-- The values a property read `row[fieldName]` yields in the export. -/
inductive JSVal where
  | undefined
  | null
  | num (n : Int)
  | str (s : Str)
  deriving DecidableEq, Repr

/-- The conversion `String(val)`. -/
def jsToString (val : JSVal) : Str :=
  match val with
  | JSVal.undefined => "undefined".toList
  | JSVal.null => "null".toList
  | JSVal.num n => numberToString n
  | JSVal.str s => s

/-- The replacement `val.replace(/"/g, '""')`. -/
def doubleQuotes : Str → Str
  | [] => []
  | c :: cs => if c = dquote then dquote :: dquote :: doubleQuotes cs else c :: doubleQuotes cs

/-- The cell that `exportLambingCSV` writes for one property value. -/
def csvCell (val : JSVal) : Str :=
  let val := match val with
    | JSVal.null => JSVal.str []
    | JSVal.undefined => JSVal.str []
    | v => v
  let s := doubleQuotes (jsToString val)
  if comma ∈ s ∨ newline ∈ s then dquote :: s ++ [dquote] else s

/-- The method `Array.prototype.join` with a one-character separator. -/
def joinWith (sep : Char) : List Str → Str
  | [] => []
  | [x] => x
  | x :: y :: rest => x ++ sep :: joinWith sep (y :: rest)

/-- The fixed column list of the export. -/
def headers : List Str :=
  ["id".toList, "date".toList, "ewe_id".toList, "lambs_born".toList, "scanned_count".toList,
   "sex_distribution".toList, "assistance".toList, "deaths".toList, "id_mark".toList,
   "comments".toList]

/-- One line of the export; the row is given by its property read. -/
def csvRow (row : Str → JSVal) : Str :=
  joinWith comma (headers.map (fun fieldName => csvCell (row fieldName)))

/-- The text `csvContent` of `exportLambingCSV`; `none` when there is nothing to
export (the alert). -/
def exportLambingCSV (data : List (Str → JSVal)) : Option Str :=
  if data.isEmpty then none
  else some (joinWith newline (joinWith comma headers :: data.map csvRow))

/-- The property read `r[fieldName]` on a lambing record, for the exported
columns. -/
def LambingRecord.prop (r : LambingRecord) (fieldName : Str) : JSVal :=
  if fieldName = "id".toList then (match r.id with | some k => JSVal.num k | none => JSVal.undefined)
  else if fieldName = "date".toList then JSVal.str r.date
  else if fieldName = "ewe_id".toList then JSVal.str r.ewe_id
  else if fieldName = "lambs_born".toList then JSVal.num r.lambs_born
  else if fieldName = "scanned_count".toList then JSVal.num r.scanned_count
  else if fieldName = "sex_distribution".toList then JSVal.str r.sex_distribution
  else if fieldName = "assistance".toList then JSVal.str r.assistance
  else if fieldName = "deaths".toList then JSVal.num r.deaths
  else if fieldName = "id_mark".toList then JSVal.str r.id_mark
  else if fieldName = "comments".toList then JSVal.str r.comments
  else JSVal.undefined

/-- A CSV reader for one cell: a cell that begins with a double quote runs to the
matching quote, a doubled quote inside standing for one quote; `none` when the
quoted cell is not closed at its end. The argument is the text after the opening
quote. -/
def readQuoted : Str → Option Str
  | [] => none
  | [c] => if c = dquote then some [] else none
  | c :: d :: rest =>
    if c = dquote then
      if d = dquote then (readQuoted rest).map (fun s => dquote :: s) else none
    else (readQuoted (d :: rest)).map (fun s => c :: s)

/-- A CSV reader for one cell: quoted cells are unescaped, any other cell is
taken literally. -/
def readCell (cell : Str) : Option Str :=
  match cell with
  | [] => some []
  | c :: rest => if c = dquote then readQuoted rest else some (c :: rest)

/-- Puts a character in front of the first piece of a split. -/
def consHead (c : Char) (pieces : List Str) : List Str :=
  match pieces with
  | [] => [[c]]
  | h :: t => (c :: h) :: t

/-- Splits CSV text at the separators that lie outside double-quoted sections; the
flag tells whether the text starts inside a quoted section. -/
def splitOutside (sep : Char) : Bool → Str → List Str
  | _, [] => [[]]
  | q, c :: cs =>
    if c = dquote then consHead c (splitOutside sep (!q) cs)
    else if c = sep ∧ q = false then [] :: splitOutside sep q cs
    else consHead c (splitOutside sep q cs)

/-- The number of separators of a CSV text that lie outside double-quoted
sections. -/
def countOutside (sep : Char) : Bool → Str → Nat
  | _, [] => 0
  | q, c :: cs =>
    if c = dquote then countOutside sep (!q) cs
    else if c = sep ∧ q = false then countOutside sep q cs + 1
    else countOutside sep q cs

/-- Puts a text in front of the first piece of a split. -/
def prependHead (s : Str) (pieces : List Str) : List Str :=
  match pieces with
  | [] => [s]
  | h :: t => (s ++ h) :: t

/-- The header line of the export. -/
def headerLine : Str := "id,date,ewe_id,lambs_born,scanned_count,sex_distribution,assistance,deaths,id_mark,comments".toList

/-! ## Calendar -/

/-- A cell of the calendar grid: an empty cell before the first day, or a day
cell with its number, the `today` mark and the badge (present when the day has
records). -/
inductive CalendarCell where
  | empty
  | dayCell (number : Int) (today : Bool) (badge : Option Nat)
  deriving DecidableEq, Repr

/-- The template string `dateStr` of a day cell. -/
def dateStr (year month d : Int) : Str :=
  numberToString year ++ '-' :: pad2 (month + 1) ++ '-' :: pad2 d

/-- One day cell of `renderCalendar`. The triple `today` is the year, month and
date of `new Date()`. -/
def dayCellOf (lambingRecordsData : List LambingRecord) (today : Int × Int × Int)
    (year month d : Int) : CalendarCell :=
  let recordsForDay := lambingRecordsData.filter (fun r => decide (r.date = dateStr year month d))
  CalendarCell.dayCell d (decide (d = today.2.2 ∧ month = today.2.1 ∧ year = today.1))
    (if recordsForDay.length > 0 then some recordsForDay.length else none)

/-- The number of turns of a loop that counts up to `bound`
(`for (let i = 0; i < bound; i++)` and `for (let d = 1; d <= bound; d++)`): none
when the bound is `NaN`. -/
def loopTurns (bound : Option Int) : Nat :=
  match bound with
  | some n => n.toNat
  | none => 0

/-- The function `renderCalendar`, called in the time zone `zone` on a date whose
`getFullYear()` is `year` and whose `getMonth()` is `month`: the cells appended to
the grid. -/
def renderCalendar (zone : TimeZone) (lambingRecordsData : List LambingRecord)
    (today : Int × Int × Int) (year month : Int) : List CalendarCell :=
  let firstDay := newDateLocal zone year month 1
  let lastDay := newDateLocal zone year (month + 1) 0
  let daysInMonth := getDate zone lastDay
  let startDayOfWeek := getDay zone firstDay
  List.replicate (loopTurns startDayOfWeek) CalendarCell.empty ++
    (List.range (loopTurns daysInMonth)).map
      (fun (i : Nat) => dayCellOf lambingRecordsData today year month ((i : Int) + 1))

/-! ## Upload -/

/-- How one `fetch` call ends: a response with `ok` set, a response without, or a
thrown network error. -/
inductive Outcome where
  | ok
  | notOk
  | networkError
  deriving DecidableEq, Repr

/-- One request `POST {serverUrl}/api/lambing_records`: the record sent as the
`data` part (its `id` and `imageBlob` deleted) and the `image` part with its file
name, if any. -/
structure Request where
  url : Str
  data : LambingRecord
  image : Option (Blob × Str)
  deriving DecidableEq, Repr

/-- What `uploadToServer` ends in, with the requests issued so far in order: the
alert for a missing URL, the alert for an empty store, the report of the two
counts, or the alert of the outer `catch` block. -/
inductive UploadResult where
  | noUrl
  | noRecords
  | syncComplete (requests : List Request) (successCount failCount : Nat)
  | syncError (requests : List Request)
  deriving DecidableEq, Repr

/-- The copy `cleanRecord` of a record, without `id` and `imageBlob`. -/
def cleanRecord (record : LambingRecord) : LambingRecord :=
  { record with id := none, imageBlob := none }

/-- The file name given to the image part. -/
def imageFileName (record : LambingRecord) : Str :=
  "lambing_".toList ++ record.ewe_id ++ '_' :: record.date ++ ".jpg".toList

/-- The loop of `uploadToServer` over the records. `net i` is the outcome of the
`fetch` call number `i`. `FormData.append` with a file name accepts only a `Blob`:
an `imageBlob` that is a plain object makes it throw a `TypeError`, which leaves
the loop for the outer `catch` block. -/
def uploadLoop (serverUrl : Str) (net : Nat → Outcome) :
    List LambingRecord → List Request → Nat → Nat → UploadResult
  | [], sent, successCount, failCount => UploadResult.syncComplete sent successCount failCount
  | record :: rest, sent, successCount, failCount =>
    match record.imageBlob with
    | some ImageVal.plainObject => UploadResult.syncError sent
    | img =>
      let image := match img with
        | some (ImageVal.blob b) => some (b, imageFileName record)
        | _ => none
      let request : Request :=
        { url := serverUrl ++ "/api/lambing_records".toList, data := cleanRecord record, image := image }
      match net sent.length with
      | Outcome.ok => uploadLoop serverUrl net rest (sent ++ [request]) (successCount + 1) failCount
      | _ => uploadLoop serverUrl net rest (sent ++ [request]) successCount (failCount + 1)

/-- The function `uploadToServer`; `serverUrlInput` is the value of the URL
field. The database is returned as the function leaves it. -/
def uploadToServer (serverUrlInput : Str) (net : Nat → Outcome) (db : DB) : UploadResult × DB :=
  let serverUrl := jsTrim serverUrlInput
  if serverUrl = [] then (UploadResult.noUrl, db)
  else
    let records := db.lambing_records.toArray
    if records.length = 0 then (UploadResult.noRecords, db)
    else (uploadLoop serverUrl net records [] 0 0, db)

/-- The request that the loop issues for a record whose image, if any, is a real
`Blob`. -/
def requestOf (serverUrl : Str) (record : LambingRecord) : Request :=
  { url := serverUrl ++ "/api/lambing_records".toList
    data := cleanRecord record
    image := match record.imageBlob with
      | some (ImageVal.blob b) => some (b, imageFileName record)
      | _ => none }

/-- The number of `ok` outcomes among the `fetch` calls number `start` to
`start + n - 1`. -/
def countOk (net : Nat → Outcome) (start n : Nat) : Nat :=
  ((List.range n).filter (fun i => decide (net (start + i) = Outcome.ok))).length

/-! ## Backup and restore -/

/-- What `JSON.stringify` followed by `JSON.parse` makes of a record: numbers and
strings come back as they are; a `Blob` has no enumerable property of its own and
is written as `{}`, which is read back as a plain object. -/
def throughJSON (r : LambingRecord) : LambingRecord :=
  { r with imageBlob := r.imageBlob.map (fun _ => ImageVal.plainObject) }

/-- The value that `JSON.parse` yields for the text of a file, as far as
`restoreData` looks at it: the text is not JSON, or it is the JSON value `null`
(reading `records` off it throws), or it is JSON whose `records` member is not an
array, or it carries an array of records. -/
inductive ParsedFile where
  | syntaxError
  | jsonNull
  | noRecordsArray
  | backup (timestamp : Str) (records : List LambingRecord)
  deriving DecidableEq, Repr

/-- The function `backupData`: the downloaded file, as `JSON.parse` will read it;
`now` is the ISO text of the current time. -/
def backupData (now : Str) (db : DB) : ParsedFile :=
  ParsedFile.backup now (db.lambing_records.toArray.map throughJSON)

/-- What `restoreData` ends in. -/
inductive RestoreResult where
  | noFile
  | cancelled
  | parseError
  | invalidFormat
  | restored (count : Nat)
  deriving DecidableEq, Repr

/-- The function `restoreData`, with the chosen file (if any) and the answer to
the confirmation dialog. -/
def restoreData (file : Option ParsedFile) (confirmed : Bool) (db : DB) : RestoreResult × DB :=
  match file with
  | none => (RestoreResult.noFile, db)
  | some content =>
    if confirmed = false then (RestoreResult.cancelled, db)
    else
      match content with
      | ParsedFile.syntaxError => (RestoreResult.parseError, db)
      | ParsedFile.jsonNull => (RestoreResult.parseError, db)
      | ParsedFile.noRecordsArray => (RestoreResult.invalidFormat, db)
      | ParsedFile.backup _ records =>
        (RestoreResult.restored records.length,
          { db with lambing_records := db.lambing_records.bulkPut records })

/-- The last record of a backup array that carries the id `k`. -/
def lastWithId (records : List LambingRecord) (k : Int) : Option LambingRecord :=
  records.reverse.find? (fun r => decide (r.id = some k))

/-- The function `deleteRecord`, with the answer to the confirmation dialog. -/
def deleteRecord (id : Int) (confirmed : Bool) (db : DB) : DB :=
  if confirmed then { db with lambing_records := db.lambing_records.delete id } else db

/-! ## The Gregorian calendar, as the claims speak of it -/

/-- The Gregorian leap year rule. -/
def isLeapYear (y : Int) : Bool := y % 4 = 0 ∧ (y % 100 ≠ 0 ∨ y % 400 = 0)

/-- The number of days of month `m` (0 for January to 11 for December) of year
`y`: 28 to 31, February having 29 exactly in leap years. -/
def daysInMonthSpec (y m : Int) : Int :=
  if m = 1 then (if isLeapYear y then 29 else 28)
  else if m = 3 ∨ m = 5 ∨ m = 8 ∨ m = 10 then 30
  else 31

/-- The month term of the weekday rule below, for month `m` from 0 to 11. -/
def weekdayMonthTerm (m : Int) : Int :=
  if m = 0 then 0 else if m = 1 then 3 else if m = 2 then 2 else if m = 3 then 5
  else if m = 4 then 0 else if m = 5 then 3 else if m = 6 then 5 else if m = 7 then 1
  else if m = 8 then 4 else if m = 9 then 6 else if m = 10 then 2 else 4

/-- The weekday (Sunday = 0) of the first day of month `m` (0 to 11) of year `y`
in the Gregorian calendar, by the usual closed rule: with `y1` the year, or the
year before for January and February,
`(y1 + y1 / 4 - y1 / 100 + y1 / 400 + term m + 1) mod 7`. -/
def weekdayOfFirst (y m : Int) : Int :=
  let y1 := if m < 2 then y - 1 else y
  (y1 + y1 / 4 - y1 / 100 + y1 / 400 + weekdayMonthTerm m + 1) % 7

/-- Four decimal digits of a year, zero-padded. -/
def fourDigits (y : Int) : Str :=
  [digitChar (y.toNat / 1000 % 10), digitChar (y.toNat / 100 % 10), digitChar (y.toNat / 10 % 10),
   digitChar (y.toNat % 10)]

/-- Two decimal digits of a month or of a day, zero-padded. -/
def twoDigits (n : Int) : Str := [digitChar (n.toNat / 10 % 10), digitChar (n.toNat % 10)]

/-- The zero-padded text `YYYY-MM-DD` of the day `d` of month `m` (from 1) of year
`y`. -/
def isoDate (y m d : Int) : Str := fourDigits y ++ '-' :: twoDigits m ++ '-' :: twoDigits d

/-- Whether the local day `date` of month `month` of `year` exists in the time
zone: the date object that `new Date(year, month, date)` gives is valid and lies,
in local time, on the day asked for. It fails for a day that a change of the
offset of the zone skips as a whole. -/
def TimeZone.keepsDay (zone : TimeZone) (year month date : Int) : Bool :=
  match newDateLocal zone year month date with
  | some t => decide (day (localTime zone t) = day (finalDate year month date))
  | none => false

/-- What a badge shows for a count: the count, no badge at all for 0. -/
def badgeOf (n : Nat) : Option Nat := if n > 0 then some n else none

/-- The year field of a date text `YYYY-MM-DD`: the number its first four
characters spell, `none` when they are not four digits. -/
def yearOfText (s : Str) : Option Int :=
  match s with
  | y1 :: y2 :: y3 :: y4 :: _ =>
    match decDigit y1, decDigit y2, decDigit y3, decDigit y4 with
    | some a1, some a2, some a3, some a4 => some (1000 * a1 + 100 * a2 + 10 * a3 + a4)
    | _, _, _, _ => none
  | _ => none

/-- The dates of the calendar that a date input yields: a year of four digits, a
month from 1 to 12 and a day of that month. -/
def ValidDate (y m d : Int) : Prop :=
  0 ≤ y ∧ y ≤ 9999 ∧ 1 ≤ m ∧ m ≤ 12 ∧ 1 ≤ d ∧ d ≤ daysInMonthSpec y (m - 1)

/-! ## The lamb rows -/

/-- The ASCII digits, which is what `\d` matches. -/
def isAsciiDigit (c : Char) : Bool := decide (48 ≤ c.toNat) && decide (c.toNat ≤ 57)

/-- The value that the HTML parser reads off an attribute `value="..."` into
which the text `s` was interpolated: the attribute ends at the first double quote
of `s`. Character references are not decoded and what follows the quote is
dropped, so the model is exact for texts without `&` in which no `>` follows a
double quote. -/
def attrValue (s : Str) : Str := s.takeWhile (fun c => decide (c ≠ dquote))

/-- The value sanitization of an `input type="text"`: line breaks are stripped. -/
def textInputValue (s : Str) : Str :=
  s.filter (fun c => decide (c ≠ newline ∧ c ≠ Char.ofNat 13))

/-- The exponent part of a valid floating-point number: nothing, or `e` or `E`,
an optional sign and one or more digits, up to the end of the text. -/
def validExponent (s : Str) : Bool :=
  match s with
  | [] => true
  | c :: r =>
    if c = 'e' ∨ c = 'E' then
      let r1 := match r with
        | d :: r2 => if d = '-' ∨ d = '+' then r2 else d :: r2
        | [] => []
      !(r1.takeWhile isAsciiDigit).isEmpty && (r1.dropWhile isAsciiDigit).isEmpty
    else false

/-- The valid floating-point numbers of HTML: an optional `-`, then digits or a
`.` with digits or both, then an optional exponent. -/
def validFloat (s : Str) : Bool :=
  let s1 := match s with
    | c :: r => if c = '-' then r else c :: r
    | [] => []
  let intPart := s1.takeWhile isAsciiDigit
  let s2 := s1.dropWhile isAsciiDigit
  match s2 with
  | c :: r =>
    if c = '.' then
      !(r.takeWhile isAsciiDigit).isEmpty && validExponent (r.dropWhile isAsciiDigit)
    else !intPart.isEmpty && validExponent (c :: r)
  | [] => !intPart.isEmpty

/-- The value sanitization of an `input type="number"`: a text that is not a
valid floating-point number gives the empty value. -/
def numberInputValue (s : Str) : Str := if validFloat s then s else []

/-- The function `addLambRow`: one row is appended to the list; `data` is the
supplied entry (`none` for `undefined`). The two values are interpolated into the
`value` attributes of the row's markup. -/
def addLambRow (container : List LambRow) (sex : Str) (index : Int) (data : Option LambEntry) :
    List LambRow :=
  let sexLabel := if sex = "M".toList then "Male".toList else "Female".toList
  let idText := match data with
    | some d => d.id
    | none => []
  let weightText := match data with
    | some d => d.weight
    | none => []
  container ++
    [{ idValue := textInputValue (attrValue idText)
       weightValue := numberInputValue (attrValue weightText)
       sex := sex
       label := sexLabel ++ ' ' :: numToString index ++ " ID".toList
       idDefault := textInputValue (attrValue idText)
       weightDefault := numberInputValue (attrValue weightText) }]

/-- One of the two loops of `updateLambFields`: `count` rows of one sex, numbered
from 1, row `i` taking the supplied entry number `lambIndex + i` (from 0). -/
def lambLoop (sex : Str) (count : Int) (lambIndex : Nat) (supplied : List LambEntry)
    (list : List LambRow) : List LambRow :=
  (List.range count.toNat).foldl
    (fun acc (i : Nat) => addLambRow acc sex ((i : Int) + 1) supplied[lambIndex + i]?) list

/-- The function `updateLambFields`; `existingData` is `none` when the function
is called as an event listener. -/
def updateLambFields (form : Form) (existingData : Option (List LambEntry)) : Form :=
  let maleCount := orZero (parseIntNumber form.lambingMale)
  let femaleCount := orZero (parseIntNumber form.lambingFemale)
  let totalLiving := addNum maleCount femaleCount
  if totalLiving = 0 then { form with lambRows := [] }
  else
    let currentData := getLambDataFromUI form.lambRows
    let supplied := match existingData with
      | some d => d
      | none => currentData
    let list := lambLoop "M".toList maleCount 0 supplied []
    let list := lambLoop "F".toList femaleCount maleCount.toNat supplied list
    { form with lambRows := list }

/-! ## The edit modal -/

/-- A match of `\d+` followed by the letter `c` at the start of `s`: the digits.
The run of digits is taken as long as possible; a shorter run is followed by a
digit, not by `c`, so backtracking finds nothing more. -/
def matchDigitsAt (c : Char) (s : Str) : Option Str :=
  let run := s.takeWhile isAsciiDigit
  if run ≠ [] ∧ (s.dropWhile isAsciiDigit).head? = some c then some run else none

/-- The first group of `s.match(/(\d+)c/)` for a letter `c`: the leftmost match. -/
def matchDigitsBefore (c : Char) : Str → Option Str
  | [] => none
  | x :: xs =>
    match matchDigitsAt c (x :: xs) with
    | some run => some run
    | none => matchDigitsBefore c xs

/-- The fallback of `openEditModal` (lines 223 to 229 of the source): the male and
female counts read off the text `sex_distribution`. -/
def fallbackCounts (sex_distribution : Str) : Option Int × Option Int :=
  if sex_distribution = [] then (some 0, some 0)
  else
    (match matchDigitsBefore 'M' sex_distribution with
      | some m1 => parseIntNumber m1
      | none => some 0,
     match matchDigitsBefore 'F' sex_distribution with
      | some f1 => parseIntNumber f1
      | none => some 0)

/-- The function `openEditModal`. The records of this model always carry
`male_lambs` and `female_lambs`, so the two count fields receive them; for a
record without them the source uses `fallbackCounts`. The edit id is the text of
the key `id`. -/
def openEditModal (lambingRecordsData : List LambingRecord) (id : Int) (form : Form) : Form :=
  match lambingRecordsData.find? (fun r => decide (r.id = some id)) with
  | none => form
  | some record =>
    let form : Form :=
      { form with
        editId := some (numToString id)
        lambingDate := record.date
        lambingEwe := record.ewe_id
        lambingScanned := numberToString record.scanned_count
        lambingAssistance := record.assistance
        lambingMark := record.id_mark
        lambingComments := record.comments
        lambingMale := numberToString record.male_lambs
        lambingFemale := numberToString record.female_lambs
        lambingDead := numberToString record.deaths
        lambingSire := record.sire_id }
    updateLambFields (calculateFormTotal form) (some record.lamb_ids)

/-! ## The events of the form -/

/-- The handler of `hidden.bs.modal`. `defaults` holds the default values that
the document gives the static controls of the form, to which `form.reset()`
returns them; `today` is the text of the current date. The lamb rows stay in the
document, their inputs reset to their defaults. -/
def modalReset (defaults : Form) (today : Str) (form : Form) : Form :=
  { defaults with
    editId := none
    lambRows := form.lambRows.map
      (fun row => { row with idValue := row.idDefault, weightValue := row.weightDefault })
    lambingDate := today
    lambingMale := "0".toList
    lambingFemale := "0".toList
    lambingDead := "0".toList
    lambingBorn := "0".toList }

/-- The state of the page: the form, the database and the array
`window.lambingRecordsData` that `loadData` fills. -/
structure App where
  form : Form
  db : DB
  lambingRecordsData : List LambingRecord
  deriving DecidableEq, Repr

/-- The events of the form: typing in a field, choosing an image, typing in a
lamb row, a click on the Edit button of a record, the modal being closed, and the
submission of the form. -/
inductive FormEvent where
  | inputMale (value : Str)
  | inputFemale (value : Str)
  | inputDead (value : Str)
  | inputScanned (value : Str)
  | inputDate (value : Str)
  | inputEwe (value : Str)
  | inputAssistance (value : Str)
  | inputMark (value : Str)
  | inputComments (value : Str)
  | inputSire (value : Str)
  | chooseImage (file : Option Blob)
  | inputLambId (row : Nat) (value : Str)
  | inputLambWeight (row : Nat) (value : Str)
  | openEdit (id : Int)
  | closeModal
  | submit
  deriving DecidableEq, Repr

/-- The page when the document has loaded, on a database `db`. -/
def App.initial (defaults : Form) (today : Str) (db : DB) : App :=
  { form := { defaults with lambingDate := today, editId := none, lambRows := [] }
    db := db
    lambingRecordsData := db.lambing_records.toArray }

/-- Typing in the input number `i` of a list of rows. -/
def modifyRow (rows : List LambRow) (i : Nat) (f : LambRow → LambRow) : List LambRow :=
  rows.enum.map (fun p => if p.1 = i then f p.2 else p.2)

/-- What one event does to the page. The two count fields run `calculateFormTotal`
and `updateLambFields` on input, the dead count runs `calculateFormTotal`; a
submission that saves hides the modal, which resets the form, and reloads the
data; what is typed in a lamb row goes through the value sanitization of its
input. -/
def App.step (defaults : Form) (today : Str) (app : App) (event : FormEvent) : App :=
  match event with
  | FormEvent.inputMale v =>
    { app with form := updateLambFields (calculateFormTotal { app.form with lambingMale := v }) none }
  | FormEvent.inputFemale v =>
    { app with form := updateLambFields (calculateFormTotal { app.form with lambingFemale := v }) none }
  | FormEvent.inputDead v => { app with form := calculateFormTotal { app.form with lambingDead := v } }
  | FormEvent.inputScanned v => { app with form := { app.form with lambingScanned := v } }
  | FormEvent.inputDate v => { app with form := { app.form with lambingDate := v } }
  | FormEvent.inputEwe v => { app with form := { app.form with lambingEwe := v } }
  | FormEvent.inputAssistance v => { app with form := { app.form with lambingAssistance := v } }
  | FormEvent.inputMark v => { app with form := { app.form with lambingMark := v } }
  | FormEvent.inputComments v => { app with form := { app.form with lambingComments := v } }
  | FormEvent.inputSire v => { app with form := { app.form with lambingSire := v } }
  | FormEvent.chooseImage file => { app with form := { app.form with lambingImage := file } }
  | FormEvent.inputLambId i v =>
    { app with form := { app.form with
        lambRows := modifyRow app.form.lambRows i
          (fun row => { row with idValue := textInputValue v }) } }
  | FormEvent.inputLambWeight i v =>
    { app with form := { app.form with
        lambRows := modifyRow app.form.lambRows i
          (fun row => { row with weightValue := numberInputValue v }) } }
  | FormEvent.openEdit id => { app with form := openEditModal app.lambingRecordsData id app.form }
  | FormEvent.closeModal => { app with form := modalReset defaults today app.form }
  | FormEvent.submit =>
    match handleLambingSubmit app.form app.db with
    | SubmitResult.saved db1 =>
      { form := modalReset defaults today app.form
        db := db1
        lambingRecordsData := db1.lambing_records.toArray }
    | _ => app

/-- The page after a sequence of events. -/
def App.run (defaults : Form) (today : Str) (app : App) (events : List FormEvent) : App :=
  events.foldl (App.step defaults today) app

/-! ## The sheep table and the reachable databases -/

/-- The call `db.sheep.get(id)`. -/
def sheepGet (sheep : List Sheep) (id : Str) : Option Sheep :=
  sheep.find? (fun s => decide (s.id = id))

/-- The databases that the handlers reach from the fresh database: by a
submission that saves (a new entry or an edit), by a delete, by a restore. -/
inductive Reachable : DB → Prop where
  | fresh : Reachable emptyDB
  | submit (form : Form) (db db1 : DB) :
      Reachable db → handleLambingSubmit form db = SubmitResult.saved db1 → Reachable db1
  | delete (id : Int) (confirmed : Bool) (db : DB) :
      Reachable db → Reachable (deleteRecord id confirmed db)
  | restore (file : Option ParsedFile) (confirmed : Bool) (db : DB) :
      Reachable db → Reachable (restoreData file confirmed db).2

/-! ## Sample inputs -/

/-- A filled-in form for a new record: two males, one female, the dead count left
empty. -/
def sampleForm : Form :=
  { lambingMale := "2".toList
    lambingFemale := "1".toList
    lambingDead := []
    lambingBorn := "3".toList
    lambingScanned := "3".toList
    lambingDate := "2024-03-15".toList
    lambingEwe := " E17 ".toList
    lambingAssistance := "None".toList
    lambingMark := "blue".toList
    lambingComments := []
    lambingSire := "R2".toList
    lambingImage := none
    editId := none
    lambRows := [] }

/-- A record of the sample form, as stored under key 1. -/
def sampleRecord : LambingRecord :=
  { id := some 1
    date := "2024-01-01".toList
    ewe_id := "E17".toList
    lambs_born := 3
    male_lambs := 2
    female_lambs := 1
    scanned_count := 3
    sex_distribution := "2M 1F".toList
    assistance := "None".toList
    id_mark := "blue".toList
    comments := []
    deaths := 0
    sire_id := "R2".toList
    lamb_ids := []
    imageBlob := none }

/-- The offset of a time zone five hours west of Greenwich (UTC-05:00). -/
def tzWest : Int → Int := fun _ => -18000000

/-- The offset of UTC itself. -/
def tzUTC : Int → Int := fun _ => 0

/-- The time zone UTC. -/
def zoneUTC : TimeZone := { offsetAtUTC := tzUTC, offsetAtLocal := tzUTC }

/-- The time zone five hours west of Greenwich. -/
def zoneWest : TimeZone := { offsetAtUTC := tzWest, offsetAtLocal := tzWest }

/-- The time zone `Pacific/Kiritimati` from 1980 on: ten hours behind UTC until
31 December 1994, 10:00 UTC, and fourteen hours ahead of UTC from then on. Local
time went from the end of 30 December 1994 to the start of 1 January 1995; the
local times of 31 December 1994 are read with the offset before the change. -/
def zoneKiritimati : TimeZone :=
  { offsetAtUTC := fun t => if t < 788868000000 then -36000000 else 50400000
    offsetAtLocal := fun t => if t < 788918400000 then -36000000 else 50400000 }

/-- A comment with a quoted word but neither comma nor line break: `said "ok"`. -/
def quotedComment : Str := "said ".toList ++ dquote :: "ok".toList ++ [dquote]

/-- The sample record with a photo attached. -/
def photoRecord : LambingRecord := { sampleRecord with imageBlob := some (ImageVal.blob { bytes := [255, 216, 255] }) }

/-- The time stamp of a backup. -/
def backupTime : Str := "2024-03-15T10:00:00.000Z".toList

/-- A database holding the record with a photo. -/
def photoDB : DB := { lambing_records := { rows := [photoRecord], nextKey := 2 }, sheep := [] }

/-- A record whose comment holds a comma, a double quote and a line break. -/
def trickyRecord : LambingRecord :=
  { sampleRecord with comments := "twins, one ".toList ++ dquote :: "weak".toList ++ dquote :: newline :: "ok".toList }

/-- A database holding the record with a photo after it went through a backup
and a restore. -/
def restoredPhotoDB : DB :=
  { lambing_records :=
      { rows := [{ photoRecord with imageBlob := some ImageVal.plainObject }], nextKey := 2 }
    sheep := [] }

/-- The value of the URL field in the samples. -/
def sampleUrl : Str := "https://farm.example".toList

/-- The sample form opened for editing the record with id 1, with three males. -/
def editForm : Form :=
  { sampleForm with editId := some "1".toList, lambingMale := "3".toList }

/-- A backup array: the record with a photo as JSON carries it, and a record
with id 4. -/
def sampleBackup : List LambingRecord :=
  [throughJSON photoRecord, { sampleRecord with id := some 4 }]

/-- The database after the sample form was submitted on a fresh database. -/
def savedOnce : DB := (handleLambingSubmit sampleForm emptyDB).dbAfter emptyDB

/-- The sample form with the ewe id typed into the sire field as well. -/
def sireIsEweForm : Form := { sampleForm with lambingSire := "E17".toList }

/-- The sample form with one lamb row that carries the id of the ewe. -/
def lambIsEweForm : Form :=
  { sampleForm with
    lambingMale := "1".toList
    lambingFemale := "0".toList
    lambRows := [{ idValue := "E17".toList, weightValue := [], sex := "M".toList,
                   label := "Male 1 ID".toList, idDefault := [], weightDefault := [] }] }

/-- The sample form with a negative number typed into the male count. -/
def negativeMaleForm : Form := { sampleForm with lambingMale := "-2".toList }

/-- The sample form with the male count `10 ^ 21`. -/
def exponentMaleForm : Form := { sampleForm with lambingMale := "1000000000000000000000".toList }

/-- The sample form with the male count `2 ^ 53 + 1`, which no double holds; the
female count is 1 and the dead count is left empty. -/
def unsafeMaleForm : Form := { sampleForm with lambingMale := "9007199254740993".toList }

/-- The row that carries the id and the weight of an entry, blank when there is
none, with the label of its sex and number. -/
def rowFor (sex : Str) (index : Int) (data : Option LambEntry) : LambRow :=
  { idValue := match data with
      | some d => d.id
      | none => []
    weightValue := match data with
      | some d => d.weight
      | none => []
    sex := sex
    label := (if sex = "M".toList then "Male".toList else "Female".toList) ++
      ' ' :: numToString index ++ " ID".toList
    idDefault := match data with
      | some d => d.id
      | none => []
    weightDefault := match data with
      | some d => d.weight
      | none => [] }

/-- The entries whose values pass unchanged through the markup of a row: no double
quote and no line break in the id, and a weight that is empty or a valid
floating-point number without a double quote. -/
def SafeEntry (e : LambEntry) : Prop :=
  dquote ∉ e.id ∧ newline ∉ e.id ∧ Char.ofNat 13 ∉ e.id ∧ dquote ∉ e.weight ∧
  (e.weight = [] ∨ validFloat e.weight = true)

/-- An id with a double quote in it: `7"b`. -/
def quotedId : Str := '7' :: dquote :: ['b']

/-- The form after `2` was typed into the male count, while the list still holds
the one row of the count before, with the id `7"b` and the weight `3.5` typed in. -/
def quotedIdForm : Form :=
  { sampleForm with
    lambingMale := "2".toList
    lambingFemale := "0".toList
    lambRows := [{ idValue := quotedId, weightValue := "3.5".toList, sex := "M".toList,
                   label := "Male 1 ID".toList, idDefault := [], weightDefault := [] }] }

/-- Default values of the static controls of the form: the counts 0, the
assistance `None`, every other field empty. -/
def sampleDefaults : Form :=
  { lambingMale := "0".toList
    lambingFemale := "0".toList
    lambingDead := "0".toList
    lambingBorn := "0".toList
    lambingScanned := []
    lambingDate := []
    lambingEwe := []
    lambingAssistance := "None".toList
    lambingMark := []
    lambingComments := []
    lambingSire := []
    lambingImage := none
    editId := none
    lambRows := [] }

/-- The text of the current date in the samples. -/
def sampleToday : Str := "2024-03-15".toList

/-- Two records entered one after the other: the first with two male lambs, the
second with the counts left at 0. -/
def staleRowsEvents : List FormEvent :=
  [FormEvent.inputMale "2".toList, FormEvent.inputEwe "E1".toList, FormEvent.submit,
   FormEvent.inputEwe "E2".toList, FormEvent.submit]

/-! # Theorems -/

/-! ## Reading back the decimal text of a number -/

theorem digitChar_facts : ∀ d, d < 10 →
    digitValue (digitChar d) = some d ∧ isStrWhiteSpace (digitChar d) = false ∧
    digitChar d ≠ '-' ∧ digitChar d ≠ '+' ∧ digitChar d ≠ 'x' ∧ digitChar d ≠ 'X' ∧
    isRadixDigit 10 (digitChar d) = true := by
  decide

theorem natDigitsAux_digits (fuel : Nat) : ∀ n, n ≤ fuel →
    (∀ c ∈ natDigitsAux fuel n, IsDigitChar c) ∧ natDigitsAux fuel n ≠ [] ∧
    digitsValue 10 (natDigitsAux fuel n) = n := by
  induction fuel with
  | zero =>
    intro n hn
    have : n = 0 := by omega
    subst this
    refine ⟨?_, by simp [natDigitsAux], by decide⟩
    intro c hc
    simp only [natDigitsAux, List.mem_singleton] at hc
    exact ⟨0, by omega, hc⟩
  | succ fuel ih =>
    intro n hn
    unfold natDigitsAux
    split_ifs with h10
    · refine ⟨?_, by simp, ?_⟩
      · intro c hc
        exact ⟨n, h10, by simpa using hc⟩
      · simp [digitsValue, (digitChar_facts n h10).1]
    · obtain ⟨h1, h2, h3⟩ := ih (n / 10) (by omega)
      refine ⟨?_, by simp, ?_⟩
      · intro c hc
        rcases List.mem_append.mp hc with hc | hc
        · exact h1 c hc
        · exact ⟨n % 10, Nat.mod_lt _ (by omega), by simpa using hc⟩
      · have hv : digitsValue 10 (natDigitsAux fuel (n / 10) ++ [digitChar (n % 10)]) =
            digitsValue 10 (natDigitsAux fuel (n / 10)) * 10 + n % 10 := by
          simp [digitsValue, List.foldl_append, (digitChar_facts (n % 10) (Nat.mod_lt _ (by omega))).1]
        rw [hv, h3]
        omega

theorem takeWhile_digits (s : Str) (h : ∀ c ∈ s, IsDigitChar c) :
    s.takeWhile (isRadixDigit 10) = s := by
  rw [List.takeWhile_eq_self_iff]
  intro c hc
  obtain ⟨d, hd, rfl⟩ := h c hc
  exact (digitChar_facts d hd).2.2.2.2.2.2

theorem hasHexPrefix_digits (s : Str) (h : ∀ c ∈ s, IsDigitChar c) : hasHexPrefix s = false := by
  match s, h with
  | [], _ => rfl
  | [_], _ => rfl
  | a :: b :: rest, h =>
    obtain ⟨d, hd, hb⟩ := h b (by simp)
    have := digitChar_facts d hd
    simp [hasHexPrefix, hb, this.2.2.2.2.1, this.2.2.2.2.2.1]

theorem parseInt_digits (s : Str) (h : ∀ c ∈ s, IsDigitChar c) (hne : s ≠ []) :
    parseInt s = some (digitsValue 10 s : Int) ∧ parseInt ('-' :: s) = some (-(digitsValue 10 s : Int)) := by
  obtain ⟨c, cs, rfl⟩ := List.exists_cons_of_ne_nil hne
  obtain ⟨d, hd, hc⟩ := h c (by simp)
  have hf := digitChar_facts d hd
  have hws : isStrWhiteSpace c = false := by rw [hc]; exact hf.2.1
  have hm : c ≠ '-' := by rw [hc]; exact hf.2.2.1
  have hp : c ≠ '+' := by rw [hc]; exact hf.2.2.2.1
  have hhex := hasHexPrefix_digits (c :: cs) h
  have htw := takeWhile_digits (c :: cs) h
  constructor
  · simp only [parseInt, List.dropWhile, hws, parseIntSign, parseIntDropSign, hm, hp, or_self,
      if_false, hhex, Bool.false_eq_true, htw]
    simp
  · have hmw : isStrWhiteSpace '-' = false := by decide
    simp only [parseInt, List.dropWhile, hmw, parseIntSign, parseIntDropSign, true_or, if_true,
      hhex, Bool.false_eq_true, if_false, htw]
    simp

/-- Reading the decimal text of an integer with `parseInt` gives the integer
back. -/
theorem parseInt_numToString (n : Int) : parseInt (numToString n) = some n := by
  obtain ⟨h1, h2, h3⟩ := natDigitsAux_digits n.natAbs n.natAbs (le_refl _)
  obtain ⟨p1, p2⟩ := parseInt_digits _ h1 h2
  unfold numToString natToString
  split_ifs with hn
  · rw [p2, h3]; congr 1; omega
  · rw [p1, h3]; congr 1; omega

theorem numToString_ne_nil (n : Int) : numToString n ≠ [] := by
  obtain ⟨-, h2, -⟩ := natDigitsAux_digits n.natAbs n.natAbs (le_refl _)
  unfold numToString natToString
  split_ifs <;> simp [h2]

theorem natDigitsAux_fuel (fuel : Nat) : ∀ n, n ≤ fuel → natDigitsAux fuel n = natDigitsAux n n := by
  induction fuel using Nat.strong_induction_on with
  | _ fuel ih =>
    intro n hn
    cases fuel with
    | zero =>
      have : n = 0 := by omega
      subst this; rfl
    | succ f =>
      cases n with
      | zero => simp [natDigitsAux]
      | succ k =>
        unfold natDigitsAux
        split_ifs with h10
        · rfl
        · rw [ih f (by omega) ((k + 1) / 10) (by omega)]
          by_cases hk : k = f
          · subst hk; rw [ih k (by omega) ((k + 1) / 10) (by omega)]
          · rw [ih k (by omega) ((k + 1) / 10) (by omega)]

theorem natToString_lt_ten (n : Nat) (h : n < 10) : natToString n = [digitChar n] := by
  unfold natToString
  cases n with
  | zero => rfl
  | succ k => simp [natDigitsAux, h]

theorem natToString_step (n : Nat) (h : 10 ≤ n) :
    natToString n = natToString (n / 10) ++ [digitChar (n % 10)] := by
  unfold natToString
  cases n with
  | zero => omega
  | succ k =>
    rw [natDigitsAux]
    have : ¬ (k + 1 < 10) := by omega
    simp only [this, if_false]
    rw [natDigitsAux_fuel k ((k + 1) / 10) (by omega)]

theorem numToString_of_nonneg (n : Int) (h : 0 ≤ n) : numToString n = natToString n.toNat := by
  unfold numToString
  have : ¬ n < 0 := by omega
  simp only [this, if_false]
  congr 1
  omega

/-! ## Numbers as doubles -/

theorem dropBits_spec (fuel : Nat) : ∀ a, a ≤ fuel →
    a / 2 ^ dropBits fuel a < 2 ^ 53 ∧
    (dropBits fuel a = 0 ∨ 2 ^ 53 ≤ a / 2 ^ (dropBits fuel a - 1)) := by
  induction fuel with
  | zero =>
    intro a ha
    have : a = 0 := by omega
    subst this
    simp [dropBits]
  | succ fuel ih =>
    intro a ha
    unfold dropBits
    split_ifs with h
    · simpa using h
    · have h2 : 2 ^ 53 ≤ a := by omega
      obtain ⟨h1, h3⟩ := ih (a / 2) (by omega)
      have e1 : ∀ e, a / 2 / 2 ^ e = a / 2 ^ (e + 1) := by
        intro e
        rw [Nat.div_div_eq_div_mul, pow_succ']
      refine ⟨by rw [← e1]; exact h1, Or.inr ?_⟩
      rw [Nat.add_sub_cancel]
      rcases Nat.eq_zero_or_pos (dropBits fuel (a / 2)) with h0 | h0
      · rw [h0]; simpa using h2
      · obtain ⟨j, hj⟩ : ∃ j, dropBits fuel (a / 2) = j + 1 := ⟨dropBits fuel (a / 2) - 1, by omega⟩
        rcases h3 with h3 | h3
        · omega
        · rw [hj, Nat.add_sub_cancel, e1] at h3
          rw [hj]
          exact h3

theorem dropBits_unique (a e : Nat) (h1 : a / 2 ^ e < 2 ^ 53)
    (h2 : e = 0 ∨ 2 ^ 53 ≤ a / 2 ^ (e - 1)) : dropBits a a = e := by
  obtain ⟨s1, s2⟩ := dropBits_spec a a (le_refl a)
  have mono : ∀ i j : Nat, i ≤ j → a / 2 ^ j ≤ a / 2 ^ i := by
    intro i j hij
    exact Nat.div_le_div_left (Nat.pow_le_pow_right (by norm_num) hij) (by positivity)
  rcases Nat.lt_trichotomy (dropBits a a) e with h | h | h
  · rcases h2 with h2 | h2
    · omega
    · have := mono (dropBits a a) (e - 1) (by omega)
      omega
  · exact h
  · rcases s2 with s2 | s2
    · omega
    · have := mono e (dropBits a a - 1) (by omega)
      omega

theorem roundNat_mul_lt (q e : Nat) (hq : q < 2 ^ 53) (he : e = 0 ∨ 2 ^ 52 ≤ q) :
    roundNat (q * 2 ^ e) = q * 2 ^ e := by
  have hpos : 0 < 2 ^ e := by positivity
  have hd : dropBits (q * 2 ^ e) (q * 2 ^ e) = e := by
    apply dropBits_unique
    · rw [Nat.mul_div_cancel _ hpos]; exact hq
    · rcases he with he | he
      · exact Or.inl he
      · rcases Nat.eq_zero_or_pos e with h0 | h0
        · exact Or.inl h0
        · right
          obtain ⟨j, rfl⟩ : ∃ j, e = j + 1 := ⟨e - 1, by omega⟩
          have e2 : q * 2 ^ (j + 1) = q * 2 * 2 ^ j := by rw [Nat.pow_succ]; ring
          rw [Nat.add_sub_cancel, e2, Nat.mul_div_cancel _ (by positivity)]
          omega
  unfold roundNat
  simp only [hd]
  rw [Nat.mul_div_cancel _ hpos, Nat.mul_mod_left]
  have : ¬ (2 ^ e < 2 * 0 ∨ (2 * 0 = 2 ^ e ∧ q % 2 = 1)) := by
    rintro (h | ⟨h, -⟩) <;> omega
  rw [if_neg this]

theorem roundNat_mul (q e : Nat) (hq : q ≤ 2 ^ 53) (he : e = 0 ∨ 2 ^ 52 ≤ q) :
    roundNat (q * 2 ^ e) = q * 2 ^ e := by
  rcases Nat.lt_or_ge q (2 ^ 53) with h | h
  · exact roundNat_mul_lt q e h he
  · have hq2 : q = 2 ^ 52 * 2 := by omega
    have e1 : q * 2 ^ e = 2 ^ 52 * 2 ^ (e + 1) := by
      rw [hq2, pow_succ' 2 e, Nat.mul_assoc]
    rw [e1]
    exact roundNat_mul_lt (2 ^ 52) (e + 1) (by norm_num) (Or.inr (le_refl _))

theorem roundNat_form (a : Nat) :
    ∃ q e, roundNat a = q * 2 ^ e ∧ q ≤ 2 ^ 53 ∧ ((e = 0 ∧ q = a) ∨ (1 ≤ e ∧ 2 ^ 52 ≤ q)) := by
  obtain ⟨s1, s2⟩ := dropBits_spec a a (le_refl a)
  rcases Nat.eq_zero_or_pos (dropBits a a) with h0 | h0
  · refine ⟨a, 0, ?_, ?_, Or.inl ⟨rfl, rfl⟩⟩
    · unfold roundNat
      simp only [h0]
      simp [Nat.mod_one]
    · rw [h0] at s1
      simp at s1
      omega
  · have s3 : 2 ^ 53 ≤ a / 2 ^ (dropBits a a - 1) := by
      rcases s2 with s2 | s2
      · omega
      · exact s2
    have hq : 2 ^ 52 ≤ a / 2 ^ dropBits a a := by
      obtain ⟨j, hj⟩ : ∃ j, dropBits a a = j + 1 := ⟨dropBits a a - 1, by omega⟩
      rw [hj, Nat.add_sub_cancel] at s3
      have e2 : a / 2 ^ (j + 1) = a / 2 ^ j / 2 := by rw [Nat.div_div_eq_div_mul, Nat.pow_succ]
      rw [hj, e2]
      omega
    unfold roundNat
    simp only []
    split_ifs with hc
    · exact ⟨_, _, rfl, by omega, Or.inr ⟨h0, by omega⟩⟩
    · exact ⟨_, _, rfl, by omega, Or.inr ⟨h0, hq⟩⟩

/-- Rounding to the nearest double changes no integer up to `2 ^ 53`. -/
theorem roundNat_of_le (a : Nat) (h : a ≤ 2 ^ 53) : roundNat a = a := by
  have := roundNat_mul a 0 h (Or.inl rfl)
  simpa using this

/-- A double is its own nearest double. -/
theorem roundNat_idem (a : Nat) : roundNat (roundNat a) = roundNat a := by
  obtain ⟨q, e, h1, h2, h3⟩ := roundNat_form a
  rw [h1]
  apply roundNat_mul q e h2
  rcases h3 with h3 | h3
  · exact Or.inl h3.1
  · exact Or.inr h3.2

theorem roundNat_ge (a : Nat) (h : 2 ^ 53 ≤ a) : 2 ^ 53 ≤ roundNat a := by
  obtain ⟨q, e, h1, h2, h3⟩ := roundNat_form a
  rw [h1]
  rcases h3 with h3 | h3
  · rw [h3.1, h3.2]; simpa using h
  · have : 2 ^ 52 * 2 ^ 1 ≤ q * 2 ^ e :=
      Nat.mul_le_mul h3.2 (Nat.pow_le_pow_right (by norm_num) h3.1)
    omega

theorem roundNat_eq_zero (a : Nat) : roundNat a = 0 ↔ a = 0 := by
  constructor
  · intro h
    rcases Nat.lt_or_ge a (2 ^ 53) with h1 | h1
    · rw [roundNat_of_le a (by omega)] at h; exact h
    · have := roundNat_ge a h1
      omega
  · rintro rfl; decide

/-- The Number value of an integer up to `2 ^ 53` in absolute value is that
integer. -/
theorem toDouble_of_safe (n : Int) (h : n.natAbs ≤ 2 ^ 53) : toDouble n = n := by
  unfold toDouble
  rw [roundNat_of_le _ h]
  split_ifs with hn <;> omega

theorem toDouble_idem (n : Int) : toDouble (toDouble n) = toDouble n := by
  unfold toDouble
  split_ifs with h1 h2 h3
  · rw [Int.natAbs_neg, Int.natAbs_ofNat, roundNat_idem]
  · have : roundNat n.natAbs = 0 := by omega
    rw [this]; rfl
  · omega
  · rw [Int.natAbs_ofNat, roundNat_idem]

theorem toDouble_eq_zero (n : Int) : toDouble n = 0 ↔ n = 0 := by
  unfold toDouble
  have := roundNat_eq_zero n.natAbs
  split_ifs with h <;> omega

theorem toDouble_nonneg (n : Int) (h : 0 ≤ n) : toDouble n = (roundNat n.natAbs : Int) := by
  unfold toDouble
  have : ¬ n < 0 := by omega
  rw [if_neg this]

theorem addNum_eq_zero (a b : Int) : addNum a b = 0 ↔ a + b = 0 := toDouble_eq_zero (a + b)

/-- The counts that the form gives are doubles. -/
theorem toDouble_orZero_parseIntNumber (s : Str) :
    toDouble (orZero (parseIntNumber s)) = orZero (parseIntNumber s) := by
  unfold parseIntNumber
  cases parseInt s with
  | none => decide
  | some n => exact toDouble_idem n

/-- A count up to `2 ^ 53` in absolute value is read exactly. -/
theorem orZero_parseIntNumber_of_safe (s : Str) (h : (orZero (parseInt s)).natAbs ≤ 2 ^ 53) :
    orZero (parseIntNumber s) = orZero (parseInt s) := by
  unfold parseIntNumber
  cases hp : parseInt s with
  | none => rfl
  | some n =>
    rw [hp] at h
    exact toDouble_of_safe n h

/-! ## The text of a Number -/

theorem shortestAux_round (x n : Nat) (hx : roundNat x = x) (fuel : Nat) :
    ∀ k, roundNat (shortestAux x n fuel k) = x := by
  induction fuel with
  | zero => intro k; exact hx
  | succ fuel ih =>
    intro k
    unfold shortestAux
    simp only []
    split_ifs <;> first | assumption | exact ih _

theorem shortestAux_of_small (x n : Nat) (hx : x < 2 ^ 53) (fuel : Nat) :
    ∀ k, shortestAux x n fuel k = x := by
  induction fuel with
  | zero => intro k; rfl
  | succ fuel ih =>
    intro k
    have hp : 0 < 10 ^ (n - k) := by positivity
    have hlo : x / 10 ^ (n - k) * 10 ^ (n - k) ≤ x := Nat.div_mul_le_self _ _
    have hhi : x < x / 10 ^ (n - k) * 10 ^ (n - k) + 10 ^ (n - k) := Nat.lt_div_mul_add hp
    have hrlo : roundNat (x / 10 ^ (n - k) * 10 ^ (n - k)) = x / 10 ^ (n - k) * 10 ^ (n - k) :=
      roundNat_of_le _ (by omega)
    have hrhi : roundNat (x / 10 ^ (n - k) * 10 ^ (n - k) + 10 ^ (n - k)) ≠ x := by
      rcases Nat.lt_or_ge (x / 10 ^ (n - k) * 10 ^ (n - k) + 10 ^ (n - k)) (2 ^ 53) with h | h
      · rw [roundNat_of_le _ (by omega)]; omega
      · have := roundNat_ge _ h
        omega
    unfold shortestAux
    simp only [hrhi, if_false, hrlo]
    split_ifs with h1
    · exact h1
    · exact ih _

theorem natToString_length_le (m : Nat) :
    ∀ v, v < 10 ^ (m + 1) → (natToString v).length ≤ m + 1 := by
  induction m with
  | zero =>
    intro v hv
    rw [natToString_lt_ten v (by simpa using hv)]
    simp
  | succ m ih =>
    intro v hv
    rcases Nat.lt_or_ge v 10 with h | h
    · rw [natToString_lt_ten v h]; simp
    · rw [natToString_step v h, List.length_append, List.length_singleton]
      have h1 : v / 10 < 10 ^ (m + 1) := by
        rw [Nat.div_lt_iff_lt_mul (by norm_num)]
        rw [Nat.pow_succ] at hv
        exact hv
      have := ih _ h1
      omega

theorem lt_pow_length (v : Nat) : v < 10 ^ (natToString v).length := by
  induction v using Nat.strong_induction_on with
  | _ v ih =>
    rcases Nat.lt_or_ge v 10 with h | h
    · rw [natToString_lt_ten v h]; simpa using h
    · rw [natToString_step v h, List.length_append, List.length_singleton, Nat.pow_succ]
      have := ih (v / 10) (by omega)
      omega

theorem shortestAux_le (x n : Nat) (hx : x < 10 ^ n) (fuel : Nat) :
    ∀ k, shortestAux x n fuel k ≤ 10 ^ n := by
  induction fuel with
  | zero => intro k; exact le_of_lt hx
  | succ fuel ih =>
    intro k
    have hp : 0 < 10 ^ (n - k) := by positivity
    have hlo : x / 10 ^ (n - k) * 10 ^ (n - k) ≤ x := Nat.div_mul_le_self _ _
    have hsplit : 10 ^ n = 10 ^ (n - (n - k)) * 10 ^ (n - k) := by
      rw [← Nat.pow_add]
      congr 1
      omega
    have hhi : x / 10 ^ (n - k) * 10 ^ (n - k) + 10 ^ (n - k) ≤ 10 ^ n := by
      have h1 : x / 10 ^ (n - k) < 10 ^ (n - (n - k)) := by
        rw [Nat.div_lt_iff_lt_mul hp, ← hsplit]
        exact hx
      have h2 : (x / 10 ^ (n - k) + 1) * 10 ^ (n - k) ≤ 10 ^ (n - (n - k)) * 10 ^ (n - k) :=
        Nat.mul_le_mul_right _ h1
      rw [← hsplit, Nat.add_mul, Nat.one_mul] at h2
      exact h2
    unfold shortestAux
    simp only []
    split_ifs
    all_goals first | exact hhi | exact le_trans hlo (le_of_lt hx) | exact ih _

/-- The digits that `Number::toString` chooses for a double spell a number whose
nearest double it is. -/
theorem shortestNat_round (x : Nat) (hx : roundNat x = x) : roundNat (shortestNat x) = x :=
  shortestAux_round x _ hx _ 1

theorem shortestNat_of_small (x : Nat) (hx : x < 2 ^ 53) : shortestNat x = x :=
  shortestAux_of_small x _ hx _ 1

theorem shortestNat_lt (x : Nat) (hx : roundNat x = x) (h : x < 10 ^ 21) :
    shortestNat x < 10 ^ 21 := by
  have hlen : (natToString x).length ≤ 21 := natToString_length_le 20 x h
  have h1 : shortestNat x ≤ 10 ^ (natToString x).length :=
    shortestAux_le x _ (lt_pow_length x) _ 1
  have h2 : 10 ^ (natToString x).length ≤ 10 ^ 21 := Nat.pow_le_pow_right (by norm_num) hlen
  rcases Nat.lt_or_ge (shortestNat x) (10 ^ 21) with h3 | h3
  · exact h3
  · have h4 : shortestNat x = 10 ^ 21 := le_antisymm (le_trans h1 h2) h3
    have h5 := shortestNat_round x hx
    rw [h4] at h5
    have h6 : roundNat (10 ^ 21) = 10 ^ 21 := by decide
    omega

/-- Below `10 ^ 21` the text of a Number is the decimal text of the number that
the chosen digits spell. -/
theorem natNumberText_of_lt (x : Nat) (hx : roundNat x = x) (h : x < 10 ^ 21) :
    natNumberText x = natToString (shortestNat x) := by
  have hlen : (natToString (shortestNat x)).length ≤ 21 :=
    natToString_length_le 20 _ (shortestNat_lt x hx h)
  unfold natNumberText
  simp only [hlen, if_true]

theorem natNumberText_of_safe (x : Nat) (h : x ≤ 2 ^ 53) : natNumberText x = natToString x := by
  rcases Nat.lt_or_ge x (2 ^ 53) with h1 | h1
  · rw [natNumberText_of_lt x (roundNat_of_le x h) (by omega), shortestNat_of_small x h1]
  · have : x = 2 ^ 53 := by omega
    subst this
    decide

/-- The text of a Number up to `2 ^ 53` in absolute value is its decimal text. -/
theorem numberToString_of_safe (n : Int) (h : n.natAbs ≤ 2 ^ 53) :
    numberToString n = numToString n := by
  unfold numberToString numToString
  rw [natNumberText_of_safe _ h]

/-- The text of a double below `10 ^ 21` is a run of digits, and `parseInt` reads
the double back from it. -/
theorem parseIntNumber_natNumberText (x : Nat) (hx : roundNat x = x) (h : x < 10 ^ 21) :
    (∀ c ∈ natNumberText x, IsDigitChar c) ∧ natNumberText x ≠ [] ∧
    parseIntNumber (natNumberText x) = some (x : Int) := by
  rw [natNumberText_of_lt x hx h]
  obtain ⟨h1, h2, h3⟩ := natDigitsAux_digits (shortestNat x) (shortestNat x) (le_refl _)
  refine ⟨h1, h2, ?_⟩
  obtain ⟨p1, -⟩ := parseInt_digits _ h1 h2
  unfold parseIntNumber natToString
  rw [p1, h3, Option.map_some', toDouble_nonneg _ (by omega), Int.natAbs_ofNat,
    shortestNat_round x hx]

/-! ## Insertion in key order -/

section InsertByKey
variable {α κ : Type} [LinearOrder κ] (key : α → κ)

theorem mem_insertByKey (x : α) (l : List α) (h : (l.map key).Pairwise (· < ·)) (y : α) :
    y ∈ insertByKey key x l ↔ y = x ∨ (y ∈ l ∧ key y ≠ key x) := by
  induction l with
  | nil => simp [insertByKey]
  | cons a l ih =>
    rw [List.map_cons, List.pairwise_cons] at h
    obtain ⟨ha, hl⟩ := h
    have hal : ∀ b ∈ l, key a < key b := fun b hb => ha (key b) (List.mem_map_of_mem key hb)
    unfold insertByKey
    split_ifs with h1 h2
    · simp only [List.mem_cons]
      constructor
      · rintro (rfl | rfl | hy)
        · exact Or.inl rfl
        · exact Or.inr ⟨Or.inl rfl, ne_of_gt h1⟩
        · exact Or.inr ⟨Or.inr hy, ne_of_gt (lt_trans h1 (hal y hy))⟩
      · rintro (rfl | ⟨hy, -⟩)
        · exact Or.inl rfl
        · exact Or.inr hy
    · simp only [List.mem_cons, ih hl]
      constructor
      · rintro (rfl | rfl | ⟨hy, hne⟩)
        · exact Or.inr ⟨Or.inl rfl, ne_of_lt h2⟩
        · exact Or.inl rfl
        · exact Or.inr ⟨Or.inr hy, hne⟩
      · rintro (rfl | ⟨rfl | hy, hne⟩)
        · exact Or.inr (Or.inl rfl)
        · exact Or.inl rfl
        · exact Or.inr (Or.inr ⟨hy, hne⟩)
    · have hax : key a = key x := le_antisymm (not_lt.mp h1) (not_lt.mp h2)
      simp only [List.mem_cons]
      constructor
      · rintro (rfl | hy)
        · exact Or.inl rfl
        · exact Or.inr ⟨Or.inr hy, by rw [← hax]; exact ne_of_gt (hal y hy)⟩
      · rintro (rfl | ⟨rfl | hy, hne⟩)
        · exact Or.inl rfl
        · exact absurd hax hne
        · exact Or.inr hy

theorem pairwise_insertByKey (x : α) (l : List α) (h : (l.map key).Pairwise (· < ·)) :
    ((insertByKey key x l).map key).Pairwise (· < ·) := by
  induction l with
  | nil => simp [insertByKey]
  | cons a l ih =>
    have h0 := h
    rw [List.map_cons, List.pairwise_cons] at h
    obtain ⟨ha, hl⟩ := h
    have hal : ∀ b ∈ l, key a < key b := fun b hb => ha (key b) (List.mem_map_of_mem key hb)
    unfold insertByKey
    split_ifs with h1 h2
    · rw [List.map_cons, List.pairwise_cons]
      refine ⟨?_, h0⟩
      intro k hk
      rw [List.map_cons, List.mem_cons] at hk
      rcases hk with rfl | hk
      · exact h1
      · exact lt_trans h1 (ha k hk)
    · rw [List.map_cons, List.pairwise_cons]
      refine ⟨?_, ih hl⟩
      intro k hk
      obtain ⟨b, hb, rfl⟩ := List.mem_map.mp hk
      rcases (mem_insertByKey key x l hl b).mp hb with rfl | ⟨hb, -⟩
      · exact h2
      · exact hal b hb
    · have hax : key a = key x := le_antisymm (not_lt.mp h1) (not_lt.mp h2)
      rw [List.map_cons, List.pairwise_cons]
      refine ⟨?_, hl⟩
      intro k hk
      rw [← hax]; exact ha k hk

theorem length_insertByKey_of_fresh (x : α) (l : List α) (h : ∀ y ∈ l, key y ≠ key x) :
    (insertByKey key x l).length = l.length + 1 := by
  induction l with
  | nil => simp [insertByKey]
  | cons a l ih =>
    unfold insertByKey
    split_ifs with h1 h2
    · simp
    · simp [ih (fun y hy => h y (List.mem_cons_of_mem _ hy))]
    · exact absurd (le_antisymm (not_lt.mp h1) (not_lt.mp h2)) (h a (List.mem_cons_self _ _))

theorem length_insertByKey_of_mem (x : α) (l : List α) (h : (l.map key).Pairwise (· < ·))
    (hx : ∃ y ∈ l, key y = key x) : (insertByKey key x l).length = l.length := by
  induction l with
  | nil => obtain ⟨y, hy, -⟩ := hx; simp at hy
  | cons a l ih =>
    rw [List.map_cons, List.pairwise_cons] at h
    obtain ⟨ha, hl⟩ := h
    have hal : ∀ b ∈ l, key a < key b := fun b hb => ha (key b) (List.mem_map_of_mem key hb)
    obtain ⟨y, hy, hyx⟩ := hx
    unfold insertByKey
    split_ifs with h1 h2
    · exfalso
      rcases List.mem_cons.mp hy with rfl | hy
      · rw [hyx] at h1; exact lt_irrefl _ h1
      · have := hal y hy; rw [hyx] at this; exact lt_asymm h1 this
    · rcases List.mem_cons.mp hy with rfl | hy
      · rw [hyx] at h2; exact absurd h2 (lt_irrefl _)
      · simp [ih hl ⟨y, hy, hyx⟩]
    · simp

theorem find?_key_of_mem (l : List α) (h : (l.map key).Pairwise (· < ·)) (y : α) (hy : y ∈ l)
    (p : α → Bool) (hp : ∀ z ∈ l, p z = true ↔ key z = key y) : l.find? p = some y := by
  induction l with
  | nil => simp at hy
  | cons a l ih =>
    rw [List.map_cons, List.pairwise_cons] at h
    obtain ⟨ha, hl⟩ := h
    have hal : ∀ b ∈ l, key a < key b := fun b hb => ha (key b) (List.mem_map_of_mem key hb)
    rcases List.mem_cons.mp hy with rfl | hy1
    · have : p y = true := (hp y (List.mem_cons_self _ _)).mpr rfl
      simp [List.find?, this]
    · have hne : ¬ p a = true := by
        rw [hp a (List.mem_cons_self _ _)]
        exact ne_of_lt (hal y hy1)
      have hpa : p a = false := by simpa using hne
      simp only [List.find?, hpa]
      exact ih hl hy1 (fun z hz => hp z (List.mem_cons_of_mem _ hz))

end InsertByKey
/-! ## The table of lambing records -/

theorem Table.WF.id_of_mem {t : Table} (h : t.WF) {r : LambingRecord} (hr : r ∈ t.rows) :
    r.id = some (recKey r) := by
  obtain ⟨k, hk, -⟩ := h.1 r hr
  simp [recKey, hk]

theorem Table.storedAs_id (t : Table) (r : LambingRecord) :
    (t.storedAs r).id = some (t.putKey r) := by
  unfold Table.storedAs Table.putKey
  cases h : r.id <;> simp [h]

theorem Table.put_rows (t : Table) (r : LambingRecord) :
    (t.put r).rows = insertByKey recKey (t.storedAs r) t.rows := by
  unfold Table.put Table.storedAs
  cases h : r.id <;> simp

theorem Table.putKey_lt_nextKey (t : Table) (r : LambingRecord) :
    t.putKey r < (t.put r).nextKey ∧ t.nextKey ≤ (t.put r).nextKey := by
  unfold Table.put Table.putKey
  cases h : r.id with
  | none => simp
  | some k =>
    simp only
    split_ifs with hk
    · omega
    · omega

theorem Table.get_eq_some_iff {t : Table} (h : t.WF) (k : Int) (r : LambingRecord) :
    t.get k = some r ↔ r ∈ t.rows ∧ r.id = some k := by
  constructor
  · intro hg
    have h1 := List.mem_of_find?_eq_some hg
    have h2 := List.find?_some hg
    exact ⟨h1, by simpa using h2⟩
  · rintro ⟨hr, hk⟩
    refine find?_key_of_mem recKey t.rows h.2 r hr _ ?_
    intro z hz
    have hz1 := h.id_of_mem hz
    have hr1 := h.id_of_mem hr
    rw [hk] at hr1
    simp only [decide_eq_true_eq]
    constructor
    · intro e; rw [e] at hz1; rw [hr1] at hz1; simp [recKey, hk, e]
    · intro e; rw [hz1, e]; exact hr1.symm

theorem Table.get_eq_none_iff (t : Table) (k : Int) :
    t.get k = none ↔ ∀ r ∈ t.rows, r.id ≠ some k := by
  simp [Table.get, List.find?_eq_none]

theorem Table.mem_put {t : Table} (h : t.WF) (r y : LambingRecord) :
    y ∈ (t.put r).rows ↔ y = t.storedAs r ∨ (y ∈ t.rows ∧ y.id ≠ some (t.putKey r)) := by
  rw [Table.put_rows, mem_insertByKey recKey _ _ h.2]
  constructor
  · rintro (e | ⟨hy, hne⟩)
    · exact Or.inl e
    · refine Or.inr ⟨hy, fun e => hne ?_⟩
      simp [recKey, e, Table.storedAs_id]
  · rintro (e | ⟨hy, hne⟩)
    · exact Or.inl e
    · refine Or.inr ⟨hy, fun e => hne ?_⟩
      rw [h.id_of_mem hy, e]
      simp [recKey, Table.storedAs_id]

theorem Table.put_WF {t : Table} (h : t.WF) (r : LambingRecord) : (t.put r).WF := by
  constructor
  · intro y hy
    rcases (Table.mem_put h r y).mp hy with e | ⟨hy1, -⟩
    · exact ⟨t.putKey r, by rw [e, Table.storedAs_id], (Table.putKey_lt_nextKey t r).1⟩
    · obtain ⟨k, hk, hlt⟩ := h.1 y hy1
      exact ⟨k, hk, lt_of_lt_of_le hlt (Table.putKey_lt_nextKey t r).2⟩
  · rw [Table.put_rows]
    exact pairwise_insertByKey recKey _ _ h.2

theorem Table.get_put_key {t : Table} (h : t.WF) (r : LambingRecord) :
    (t.put r).get (t.putKey r) = some (t.storedAs r) := by
  rw [Table.get_eq_some_iff (Table.put_WF h r)]
  exact ⟨(Table.mem_put h r _).mpr (Or.inl rfl), Table.storedAs_id t r⟩

theorem Table.get_put_other {t : Table} (h : t.WF) (r : LambingRecord) (j : Int)
    (hj : j ≠ t.putKey r) : (t.put r).get j = t.get j := by
  cases hg : t.get j with
  | some y =>
    obtain ⟨hy, hid⟩ := (Table.get_eq_some_iff h j y).mp hg
    rw [Table.get_eq_some_iff (Table.put_WF h r)]
    refine ⟨(Table.mem_put h r y).mpr (Or.inr ⟨hy, ?_⟩), hid⟩
    rw [hid]; intro e; exact hj (Option.some.inj e)
  | none =>
    rw [Table.get_eq_none_iff] at hg ⊢
    intro y hy
    rcases (Table.mem_put h r y).mp hy with e | ⟨hy1, -⟩
    · rw [e, Table.storedAs_id]; intro e2; exact hj (Option.some.inj e2).symm
    · exact hg y hy1

theorem Table.empty_WF : Table.empty.WF := by
  constructor
  · intro r hr; simp [Table.empty] at hr
  · simp [Table.empty]

theorem Table.fresh_of_WF {t : Table} (h : t.WF) : t.get t.nextKey = none := by
  rw [Table.get_eq_none_iff]
  intro r hr e
  obtain ⟨k, hk, hlt⟩ := h.1 r hr
  rw [hk] at e
  have := Option.some.inj e
  omega

/-! ## The record built from the form (C1) -/

/-- The counts of the record built from the form, when the counts that the form
spells and their sums are at most `2 ^ 53` in absolute value: they are read and
added exactly, and the total is written as its decimal text. -/
theorem formData_counts (form : Form)
    (hMale : (orZero (parseInt form.lambingMale)).natAbs ≤ 2 ^ 53)
    (hFemale : (orZero (parseInt form.lambingFemale)).natAbs ≤ 2 ^ 53)
    (hDead : (orZero (parseInt form.lambingDead)).natAbs ≤ 2 ^ 53)
    (hLiving : (orZero (parseInt form.lambingMale) +
      orZero (parseInt form.lambingFemale)).natAbs ≤ 2 ^ 53)
    (hTotal : (orZero (parseInt form.lambingMale) + orZero (parseInt form.lambingFemale) +
      orZero (parseInt form.lambingDead)).natAbs ≤ 2 ^ 53) :
    (formData form).male_lambs = orZero (parseInt form.lambingMale) ∧
    (formData form).female_lambs = orZero (parseInt form.lambingFemale) ∧
    (formData form).deaths = orZero (parseInt form.lambingDead) ∧
    (formData form).lambs_born = orZero (parseInt form.lambingMale) +
      orZero (parseInt form.lambingFemale) + orZero (parseInt form.lambingDead) ∧
    (calculateFormTotal form).lambingBorn = numToString (orZero (parseInt form.lambingMale) +
      orZero (parseInt form.lambingFemale) + orZero (parseInt form.lambingDead)) := by
  have e1 := orZero_parseIntNumber_of_safe _ hMale
  have e2 := orZero_parseIntNumber_of_safe _ hFemale
  have e3 := orZero_parseIntNumber_of_safe _ hDead
  have e4 : addNum (addNum (orZero (parseInt form.lambingMale)) (orZero (parseInt form.lambingFemale)))
      (orZero (parseInt form.lambingDead)) = orZero (parseInt form.lambingMale) +
      orZero (parseInt form.lambingFemale) + orZero (parseInt form.lambingDead) := by
    unfold addNum
    rw [toDouble_of_safe _ hLiving, toDouble_of_safe _ hTotal]
  refine ⟨e1, e2, e3, ?_, ?_⟩
  · show addNum (addNum _ _) _ = _
    rw [e1, e2, e3, e4]
  · show numberToString (addNum (addNum _ _) _) = _
    rw [e1, e2, e3, e4, numberToString_of_safe _ hTotal]

/-- C1, as amended. Let the three counts that the form spells (each field read with
`parseInt`, 0 when empty or not numeric), the sum of the male and the female count,
and the sum of all three be at most `2 ^ 53` in absolute value. Whenever the
submission passes the check of the required fields (and, in edit mode, the edit id
is a number), `handleLambingSubmit` saves a record: the rows of the table
afterwards are the rows before with that record inserted under its key. The counts
of the record are the three counts of the form, its `lambs_born` is
`male_lambs + female_lambs + deaths`, and `calculateFormTotal` writes the decimal
text of that same sum into the total field. -/
theorem handleLambingSubmit_lambs_born (form : Form) (db : DB)
    (hEwe : jsTrim form.lambingEwe ≠ []) (hDate : form.lambingDate ≠ [])
    (hEdit : ∀ s, form.editId = some s → s = [] ∨ (parseInt s).isSome = true)
    (hMale : (orZero (parseInt form.lambingMale)).natAbs ≤ 2 ^ 53)
    (hFemale : (orZero (parseInt form.lambingFemale)).natAbs ≤ 2 ^ 53)
    (hDead : (orZero (parseInt form.lambingDead)).natAbs ≤ 2 ^ 53)
    (hLiving : (orZero (parseInt form.lambingMale) +
      orZero (parseInt form.lambingFemale)).natAbs ≤ 2 ^ 53)
    (hTotal : (orZero (parseInt form.lambingMale) + orZero (parseInt form.lambingFemale) +
      orZero (parseInt form.lambingDead)).natAbs ≤ 2 ^ 53) :
    ∃ db1 r, handleLambingSubmit form db = SubmitResult.saved db1 ∧
      db1.lambing_records.rows = insertByKey recKey r db.lambing_records.rows ∧
      r.male_lambs = orZero (parseInt form.lambingMale) ∧
      r.female_lambs = orZero (parseInt form.lambingFemale) ∧
      r.deaths = orZero (parseInt form.lambingDead) ∧
      r.lambs_born = r.male_lambs + r.female_lambs + r.deaths ∧
      (calculateFormTotal form).lambingBorn = numToString r.lambs_born := by
  obtain ⟨c1, c2, c3, c4, c5⟩ := formData_counts form hMale hFemale hDead hLiving hTotal
  have hrej : ¬ ((formData form).ewe_id = [] ∨ (formData form).date = []) := by
    simp [formData, hEwe, hDate]
  have himg : ∀ d : LambingRecord, (withFormImage form d).male_lambs = d.male_lambs ∧
      (withFormImage form d).female_lambs = d.female_lambs ∧
      (withFormImage form d).deaths = d.deaths ∧
      (withFormImage form d).lambs_born = d.lambs_born ∧
      (withFormImage form d).id = d.id := by
    intro d; unfold withFormImage; cases form.lambingImage <;> simp
  have hpres : ∀ (t : Table) (d : LambingRecord), (preserveImage t d).male_lambs = d.male_lambs ∧
      (preserveImage t d).female_lambs = d.female_lambs ∧
      (preserveImage t d).deaths = d.deaths ∧
      (preserveImage t d).lambs_born = d.lambs_born ∧
      (preserveImage t d).id = d.id := by
    intro t d; unfold preserveImage
    repeat' split
    all_goals simp
  obtain ⟨h1, h2, h3, h4, h5⟩ := himg (formData form)
  rw [c1] at h1
  rw [c2] at h2
  rw [c3] at h3
  rw [c4] at h4
  have hnew : ∃ db1 r, (match db.lambing_records.add (withFormImage form (formData form)) with
        | none => SubmitResult.error
        | some t =>
          let sheep := sheepPut db.sheep
            { id := (withFormImage form (formData form)).ewe_id, is_ewe := some 1, is_ram := none }
          let sheep :=
            if (withFormImage form (formData form)).sire_id = [] then sheep
            else sheepPut sheep
              { id := (withFormImage form (formData form)).sire_id, is_ewe := none, is_ram := some 1 }
          SubmitResult.saved
            { lambing_records := t
              sheep := saveLambIds sheep (withFormImage form (formData form)).lamb_ids })
        = SubmitResult.saved db1 ∧
      db1.lambing_records.rows = insertByKey recKey r db.lambing_records.rows ∧
      r.male_lambs = orZero (parseInt form.lambingMale) ∧
      r.female_lambs = orZero (parseInt form.lambingFemale) ∧
      r.deaths = orZero (parseInt form.lambingDead) ∧
      r.lambs_born = r.male_lambs + r.female_lambs + r.deaths ∧
      (calculateFormTotal form).lambingBorn = numToString r.lambs_born := by
    have hid : (withFormImage form (formData form)).id = none := by
      rw [h5]; rfl
    simp only [Table.add, Table.put, hid]
    refine ⟨_, { withFormImage form (formData form) with id := some db.lambing_records.nextKey },
      rfl, rfl, h1, h2, h3, ?_, ?_⟩
    · show (withFormImage form (formData form)).lambs_born =
        (withFormImage form (formData form)).male_lambs +
        (withFormImage form (formData form)).female_lambs +
        (withFormImage form (formData form)).deaths
      rw [h1, h2, h3, h4]
    · show _ = numToString (withFormImage form (formData form)).lambs_born
      rw [h4, c5]
  unfold handleLambingSubmit
  simp only [hrej, if_false]
  cases hE : form.editId with
  | none => simpa using hnew
  | some s =>
    cases s with
    | nil => simpa using hnew
    | cons c cs =>
      rcases hEdit (c :: cs) hE with h | h
      · exact absurd h (by simp)
      · obtain ⟨k, hk⟩ := Option.isSome_iff_exists.mp h
        simp only [hk]
        obtain ⟨p1, p2, p3, p4, p5⟩ := hpres db.lambing_records
          { withFormImage form (formData form) with id := some k }
        refine ⟨_, preserveImage db.lambing_records
          { withFormImage form (formData form) with id := some k }, rfl, ?_, ?_, ?_, ?_, ?_, ?_⟩
        · simp only [Table.put, p5]
        · rw [p1]; exact h1
        · rw [p2]; exact h2
        · rw [p3]; exact h3
        · rw [p1, p2, p3, p4]
          show (withFormImage form (formData form)).lambs_born =
            (withFormImage form (formData form)).male_lambs +
            (withFormImage form (formData form)).female_lambs +
            (withFormImage form (formData form)).deaths
          rw [h1, h2, h3, h4]
        · rw [p4]
          show _ = numToString (withFormImage form (formData form)).lambs_born
          rw [h4, c5]

/-- Witness for C1: the sample form on a fresh database. -/
theorem handleLambingSubmit_lambs_born_witness :
    jsTrim sampleForm.lambingEwe ≠ [] ∧ sampleForm.lambingDate ≠ [] ∧
    (orZero (parseInt sampleForm.lambingMale)).natAbs ≤ 2 ^ 53 ∧
    (orZero (parseInt sampleForm.lambingFemale)).natAbs ≤ 2 ^ 53 ∧
    (orZero (parseInt sampleForm.lambingDead)).natAbs ≤ 2 ^ 53 ∧
    (orZero (parseInt sampleForm.lambingMale) +
      orZero (parseInt sampleForm.lambingFemale)).natAbs ≤ 2 ^ 53 ∧
    (orZero (parseInt sampleForm.lambingMale) + orZero (parseInt sampleForm.lambingFemale) +
      orZero (parseInt sampleForm.lambingDead)).natAbs ≤ 2 ^ 53 ∧
    ∃ db1 r, handleLambingSubmit sampleForm emptyDB = SubmitResult.saved db1 ∧
      db1.lambing_records.rows = insertByKey recKey r emptyDB.lambing_records.rows ∧
      r.male_lambs = orZero (parseInt sampleForm.lambingMale) ∧
      r.female_lambs = orZero (parseInt sampleForm.lambingFemale) ∧
      r.deaths = orZero (parseInt sampleForm.lambingDead) ∧
      r.lambs_born = r.male_lambs + r.female_lambs + r.deaths ∧
      (calculateFormTotal sampleForm).lambingBorn = numToString r.lambs_born :=
  ⟨by decide, by decide, by decide, by decide, by decide, by decide, by decide,
    handleLambingSubmit_lambs_born sampleForm emptyDB (by decide) (by decide)
      (fun s h => by simp [sampleForm] at h) (by decide) (by decide) (by decide) (by decide)
      (by decide)⟩

/-- C1 fails as stated. With `9007199254740993` (that is `2 ^ 53 + 1`) typed into
the male count and `1` into the female count, `parseInt` returns the nearest
double, `2 ^ 53`, and the sum `2 ^ 53 + 1` is rounded to `2 ^ 53` again: the record
is saved with `male_lambs = lambs_born = 9007199254740992`, `female_lambs = 1` and
`deaths = 0`, so that `lambs_born` is not `male_lambs + female_lambs + deaths`, and
`calculateFormTotal` writes `9007199254740992` into the total field. -/
theorem handleLambingSubmit_lambs_born_rounded :
    ((handleLambingSubmit unsafeMaleForm emptyDB).dbAfter emptyDB).lambing_records.rows.map
        (fun r => (r.male_lambs, r.female_lambs, r.deaths, r.lambs_born)) =
      [(9007199254740992, 1, 0, 9007199254740992)] ∧
    (∀ r ∈ ((handleLambingSubmit unsafeMaleForm emptyDB).dbAfter emptyDB).lambing_records.rows,
      r.lambs_born ≠ r.male_lambs + r.female_lambs + r.deaths) ∧
    (calculateFormTotal unsafeMaleForm).lambingBorn = "9007199254740992".toList := by
  refine ⟨by decide, by decide, by decide⟩

/-! ## Yearly totals (C2) -/

/-- C2, the code at the failing input. In a time zone west of Greenwich the record
dated `2024-01-01` is left out of the totals of 2024 and counted in those of 2023:
`new Date("2024-01-01")` is midnight UTC, which is still 31 December 2023 in local
time, so `getFullYear()` is 2023. In UTC the same record is counted in 2024. -/
theorem updateTotals_new_year_west :
    updateTotals tzWest [sampleRecord] 2024 =
      { totalLambs := 0, totalDeaths := 0, totalAssisted := 0, totalLiving := 0, totalEwes := 0,
        totalsYear := 2024 } ∧
    updateTotals tzWest [sampleRecord] 2023 =
      { totalLambs := 3, totalDeaths := 0, totalAssisted := 0, totalLiving := 3, totalEwes := 1,
        totalsYear := 2023 } ∧
    updateTotals tzUTC [sampleRecord] 2024 =
      { totalLambs := 3, totalDeaths := 0, totalAssisted := 0, totalLiving := 3, totalEwes := 1,
        totalsYear := 2024 } := by
  decide

/-! ## CSV cells (C3) -/

/-- C3, the code at the failing input. A value with a double quote but neither
comma nor line break is written with the quote doubled and without enclosing
quotes, so a CSV reader takes the cell literally and yields the doubled quotes,
not the original value. -/
theorem csvCell_quote_not_read_back :
    csvCell (JSVal.str quotedComment) = "said ".toList ++ dquote :: dquote :: "ok".toList ++ [dquote, dquote] ∧
    readCell (csvCell (JSVal.str quotedComment)) ≠ some quotedComment := by
  decide

/-! ## Backup and restore of images (C7) -/

/-- C7, the code at the failing input. The backup of a store whose record has a
photo carries a plain object in place of the `Blob`; restoring it, into the same
store or into an empty one, leaves the record without its photo. -/
theorem restore_backup_loses_image :
    (restoreData (some (backupData backupTime photoDB)) true photoDB).2.lambing_records.get 1 =
      some { photoRecord with imageBlob := some ImageVal.plainObject } ∧
    (restoreData (some (backupData backupTime photoDB)) true emptyDB).2.lambing_records.get 1 =
      some { photoRecord with imageBlob := some ImageVal.plainObject } ∧
    photoDB.lambing_records.get 1 = some photoRecord := by
  refine ⟨by decide, by decide, by decide⟩

/-! ## The shape of the CSV text -/

theorem consHead_prependHead (c : Char) (s : Str) (l : List Str) :
    consHead c (prependHead s l) = prependHead (c :: s) l := by
  cases l <;> rfl

theorem prependHead_nil (l : List Str) (h : l ≠ []) : prependHead [] l = l := by
  cases l with
  | nil => exact absurd rfl h
  | cons a t => rfl

theorem prependHead_append (s t : Str) (l : List Str) :
    prependHead s (prependHead t l) = prependHead (s ++ t) l := by
  cases l <;> simp [prependHead]

theorem splitOutside_ne_nil (sep : Char) (q : Bool) (s : Str) : splitOutside sep q s ≠ [] := by
  induction s generalizing q with
  | nil => simp [splitOutside]
  | cons c cs ih =>
    unfold splitOutside
    split_ifs
    · have := ih (!q); cases h : splitOutside sep (!q) cs <;> simp_all [consHead]
    · simp
    · have := ih q; cases h : splitOutside sep q cs <;> simp_all [consHead]

theorem length_consHead (c : Char) (l : List Str) (h : l ≠ []) : (consHead c l).length = l.length := by
  cases l with
  | nil => exact absurd rfl h
  | cons a t => rfl

theorem length_splitOutside (sep : Char) (q : Bool) (s : Str) :
    (splitOutside sep q s).length = countOutside sep q s + 1 := by
  induction s generalizing q with
  | nil => rfl
  | cons c cs ih =>
    unfold splitOutside countOutside
    split_ifs
    · rw [length_consHead _ _ (splitOutside_ne_nil _ _ _), ih]
    · simp [ih]
    · rw [length_consHead _ _ (splitOutside_ne_nil _ _ _), ih]

/-- Text without quote and without separator stays in one piece. -/
theorem splitOutside_plain (sep : Char) (q : Bool) (s rest : Str)
    (hq : dquote ∉ s) (hs : sep ∉ s) :
    splitOutside sep q (s ++ rest) = prependHead s (splitOutside sep q rest) := by
  induction s with
  | nil => simp [prependHead_nil _ (splitOutside_ne_nil _ _ _)]
  | cons c cs ih =>
    have hc : c ≠ dquote := fun e => hq (by simp [e])
    have hc2 : c ≠ sep := fun e => hs (by simp [e])
    rw [List.cons_append, splitOutside]
    simp only [hc, hc2, if_false, false_and]
    rw [ih (fun h => hq (List.mem_cons_of_mem _ h)) (fun h => hs (List.mem_cons_of_mem _ h)),
      consHead_prependHead]

/-- Inside a quoted section, text with doubled quotes stays in one piece and ends
inside the section. -/
theorem splitOutside_doubleQuotes_inside (sep : Char) (s rest : Str) :
    splitOutside sep true (doubleQuotes s ++ rest) =
      prependHead (doubleQuotes s) (splitOutside sep true rest) := by
  induction s with
  | nil => simp [doubleQuotes, prependHead_nil _ (splitOutside_ne_nil _ _ _)]
  | cons c cs ih =>
    unfold doubleQuotes
    split_ifs with hc
    · simp only [List.cons_append]
      rw [splitOutside]
      simp only [if_true]
      rw [Bool.not_true, splitOutside]
      simp only [if_true]
      rw [Bool.not_false, ih, consHead_prependHead, consHead_prependHead]
    · rw [List.cons_append, splitOutside]
      simp only [hc, if_false, Bool.true_eq_false, and_false]
      rw [ih, consHead_prependHead]

/-- Outside quoted sections, text with doubled quotes and without separator stays
in one piece and ends outside. -/
theorem splitOutside_doubleQuotes_outside (sep : Char) (s rest : Str)
    (hs : sep ∉ doubleQuotes s) :
    splitOutside sep false (doubleQuotes s ++ rest) =
      prependHead (doubleQuotes s) (splitOutside sep false rest) := by
  induction s with
  | nil => simp [doubleQuotes, prependHead_nil _ (splitOutside_ne_nil _ _ _)]
  | cons c cs ih =>
    unfold doubleQuotes at hs ⊢
    split_ifs at hs ⊢ with hc
    · have hs1 : sep ∉ doubleQuotes cs := fun h => hs (by simp [h])
      simp only [List.cons_append]
      rw [splitOutside]
      simp only [if_true]
      rw [Bool.not_false, splitOutside]
      simp only [if_true]
      rw [Bool.not_true, ih hs1, consHead_prependHead, consHead_prependHead]
    · have hs1 : sep ∉ doubleQuotes cs := fun h => hs (by simp [h])
      have hc2 : c ≠ sep := fun e => hs (by simp [e])
      rw [List.cons_append, splitOutside]
      simp only [hc, hc2, if_false, false_and]
      rw [ih hs1, consHead_prependHead]

/-- A quoted cell stays in one piece and ends outside the quoted section. -/
theorem splitOutside_wrapped (sep : Char) (s rest : Str) :
    splitOutside sep false (dquote :: doubleQuotes s ++ [dquote] ++ rest) =
      prependHead (dquote :: doubleQuotes s ++ [dquote]) (splitOutside sep false rest) := by
  have e : dquote :: doubleQuotes s ++ [dquote] ++ rest =
      dquote :: (doubleQuotes s ++ dquote :: rest) := by simp
  rw [e, splitOutside.eq_2]
  simp only [if_true]
  rw [Bool.not_false, splitOutside_doubleQuotes_inside, splitOutside.eq_2]
  simp only [if_true]
  rw [Bool.not_true, consHead_prependHead]
  cases hl : splitOutside sep false rest with
  | nil => exact absurd hl (splitOutside_ne_nil _ _ _)
  | cons a t => simp [prependHead, consHead]

/-- A cell of the export never splits: neither at a comma nor at a line break. -/
theorem splitOutside_csvCell (sep : Char) (hsep : sep = comma ∨ sep = newline) (val : JSVal)
    (rest : Str) :
    splitOutside sep false (csvCell val ++ rest) =
      prependHead (csvCell val) (splitOutside sep false rest) := by
  unfold csvCell
  simp only []
  split_ifs with h
  · exact splitOutside_wrapped sep _ rest
  · apply splitOutside_doubleQuotes_outside
    rcases hsep with rfl | rfl
    · exact fun hm => h (Or.inl hm)
    · exact fun hm => h (Or.inr hm)

/-- A joined list of pieces that do not split at `sep` splits, at `sep`, into
those pieces. -/
theorem splitOutside_joinWith (sep : Char) (hsep : sep ≠ dquote) (cells : List Str)
    (hne : cells ≠ [])
    (h : ∀ c ∈ cells, ∀ rest, splitOutside sep false (c ++ rest) =
      prependHead c (splitOutside sep false rest)) :
    splitOutside sep false (joinWith sep cells) = cells := by
  induction cells with
  | nil => exact absurd rfl hne
  | cons c cs ih =>
    cases cs with
    | nil =>
      have := h c (by simp) []
      simpa [joinWith, splitOutside, prependHead] using this
    | cons d ds =>
      rw [joinWith, h c (by simp), splitOutside.eq_2]
      simp only [hsep, if_false, true_and, if_true]
      rw [ih (by simp) (fun c hc => h c (List.mem_cons_of_mem _ hc))]
      simp [prependHead]

/-- A list of pieces that do not split at `sep`, joined by another separator,
does not split at `sep` either. -/
theorem splitOutside_joinWith_other (sep other : Char) (ho : other ≠ dquote) (hos : other ≠ sep)
    (cells : List Str)
    (h : ∀ c ∈ cells, ∀ rest, splitOutside sep false (c ++ rest) =
      prependHead c (splitOutside sep false rest)) (rest : Str) :
    splitOutside sep false (joinWith other cells ++ rest) =
      prependHead (joinWith other cells) (splitOutside sep false rest) := by
  induction cells with
  | nil => simp [joinWith, prependHead_nil _ (splitOutside_ne_nil _ _ _)]
  | cons c cs ih =>
    cases cs with
    | nil => simpa [joinWith] using h c (by simp) rest
    | cons d ds =>
      rw [joinWith, List.append_assoc, h c (by simp), List.cons_append, splitOutside.eq_2]
      simp only [ho, hos, if_false, false_and]
      rw [ih (fun c hc => h c (List.mem_cons_of_mem _ hc)), consHead_prependHead,
        prependHead_append]

theorem joinWith_cons_rows (sep : Char) (first : Str) (rows : List Str) :
    joinWith sep (first :: rows) = first ++ (rows.map (fun row => sep :: row)).flatten := by
  induction rows generalizing first with
  | nil => simp [joinWith]
  | cons r rs ih => rw [joinWith, ih]; simp

theorem headerLine_eq : joinWith comma headers = headerLine := by decide

theorem splitOutside_csvRow (row : Str → JSVal) :
    splitOutside comma false (csvRow row) = headers.map (fun fieldName => csvCell (row fieldName)) := by
  unfold csvRow
  apply splitOutside_joinWith comma (by decide) _ (by simp [headers])
  intro c hc rest
  obtain ⟨f, -, rfl⟩ := List.mem_map.mp hc
  exact splitOutside_csvCell comma (Or.inl rfl) _ rest

theorem splitOutside_newline_csvRow (row : Str → JSVal) (rest : Str) :
    splitOutside newline false (csvRow row ++ rest) =
      prependHead (csvRow row) (splitOutside newline false rest) := by
  unfold csvRow
  apply splitOutside_joinWith_other newline comma (by decide) (by decide)
  intro c hc rest
  obtain ⟨f, -, rfl⟩ := List.mem_map.mp hc
  exact splitOutside_csvCell newline (Or.inr rfl) _ rest

/-- C4. For a non-empty list of rows, `exportLambingCSV` produces the header line
followed by one line per row in list order (each preceded by a line break);
splitting the text at the line breaks outside double-quoted sections gives back
exactly the header line and the rows; every row splits, at the commas outside
double-quoted sections, into exactly the 10 cells written for its 10 columns, so
it has exactly 9 such commas, whatever the values contain; and a missing or null
property gives an empty cell. -/
theorem exportLambingCSV_shape (data : List (Str → JSVal)) (hne : data ≠ []) :
    ∃ text, exportLambingCSV data = some text ∧
      text = headerLine ++ (data.map (fun row => newline :: csvRow row)).flatten ∧
      splitOutside newline false text = headerLine :: data.map csvRow ∧
      (∀ row ∈ data,
        splitOutside comma false (csvRow row) =
          headers.map (fun fieldName => csvCell (row fieldName)) ∧
        (splitOutside comma false (csvRow row)).length = 10 ∧
        countOutside comma false (csvRow row) = 9) ∧
      csvCell JSVal.undefined = [] ∧ csvCell JSVal.null = [] := by
  have hemp : data.isEmpty = false := by
    cases data with
    | nil => exact absurd rfl hne
    | cons a t => rfl
  refine ⟨joinWith newline (joinWith comma headers :: data.map csvRow), ?_, ?_, ?_, ?_, by decide,
    by decide⟩
  · simp [exportLambingCSV, hemp]
  · rw [joinWith_cons_rows, headerLine_eq]; simp [List.map_map, Function.comp_def]
  · rw [headerLine_eq]
    apply splitOutside_joinWith newline (by decide) _ (by simp)
    intro c hc rest
    rcases List.mem_cons.mp hc with rfl | hc
    · exact splitOutside_plain newline false _ rest (by decide) (by decide)
    · obtain ⟨row, -, rfl⟩ := List.mem_map.mp hc
      exact splitOutside_newline_csvRow row rest
  · intro row _
    have h1 := splitOutside_csvRow row
    have h2 : (splitOutside comma false (csvRow row)).length = 10 := by rw [h1]; rfl
    refine ⟨h1, h2, ?_⟩
    have h3 := length_splitOutside comma false (csvRow row)
    omega

theorem doubleQuotes_of_no_quote (s : Str) (h : dquote ∉ s) : doubleQuotes s = s := by
  induction s with
  | nil => rfl
  | cons c cs ih =>
    have hc : c ≠ dquote := fun e => h (by simp [e])
    simp [doubleQuotes, hc, ih (fun hm => h (List.mem_cons_of_mem _ hm))]

theorem readQuoted_doubleQuotes (s : Str) : readQuoted (doubleQuotes s ++ [dquote]) = some s := by
  induction s with
  | nil => simp [doubleQuotes, readQuoted]
  | cons c cs ih =>
    unfold doubleQuotes
    split_ifs with hc
    · simp only [List.cons_append]
      rw [readQuoted.eq_3]
      simp [ih, hc]
    · obtain ⟨d, rest, hd⟩ : ∃ d rest, doubleQuotes cs ++ [dquote] = d :: rest := by
        cases h : doubleQuotes cs ++ [dquote] with
        | nil => simp at h
        | cons d rest => exact ⟨d, rest, rfl⟩
      rw [List.cons_append, hd, readQuoted.eq_3, ← hd, ih]
      simp [hc]

theorem mem_doubleQuotes (c : Char) (hc : c ≠ dquote) (s : Str) :
    c ∈ doubleQuotes s ↔ c ∈ s := by
  induction s with
  | nil => simp [doubleQuotes]
  | cons a t ih =>
    unfold doubleQuotes
    split_ifs with ha
    · subst ha
      simp only [List.mem_cons, hc, false_or]
      exact ih
    · simp only [List.mem_cons]
      rw [ih]

/-- The part of C3 that holds: a value that contains a comma or a line break, or
that contains no double quote, is read back from its cell. -/
theorem csvCell_read_back (s : Str) (h : dquote ∉ s ∨ comma ∈ s ∨ newline ∈ s) :
    readCell (csvCell (JSVal.str s)) = some s := by
  have hc := mem_doubleQuotes comma (by decide) s
  have hn := mem_doubleQuotes newline (by decide) s
  unfold csvCell
  simp only [jsToString]
  split_ifs with hw
  · simp only [List.cons_append, readCell, if_true]
    exact readQuoted_doubleQuotes s
  · rw [hc, hn] at hw
    have hq : dquote ∉ s := by
      rcases h with h | h | h
      · exact h
      · exact absurd (Or.inl h) hw
      · exact absurd (Or.inr h) hw
    rw [doubleQuotes_of_no_quote s hq]
    cases s with
    | nil => rfl
    | cons a t =>
      have : a ≠ dquote := fun e => hq (by simp [e])
      simp [readCell, this]

/-- Witness for C4: an export of two records, one with a comma, a double quote
and a line break in its comment, the other without an id. -/
theorem exportLambingCSV_shape_witness :
    [trickyRecord.prop, (formData sampleForm).prop] ≠ [] ∧
    ∃ text, exportLambingCSV [trickyRecord.prop, (formData sampleForm).prop] = some text ∧
      text = headerLine ++
        ([trickyRecord.prop, (formData sampleForm).prop].map
          (fun row => newline :: csvRow row)).flatten ∧
      splitOutside newline false text =
        headerLine :: [trickyRecord.prop, (formData sampleForm).prop].map csvRow ∧
      (∀ row ∈ [trickyRecord.prop, (formData sampleForm).prop],
        splitOutside comma false (csvRow row) =
          headers.map (fun fieldName => csvCell (row fieldName)) ∧
        (splitOutside comma false (csvRow row)).length = 10 ∧
        countOutside comma false (csvRow row) = 9) ∧
      csvCell JSVal.undefined = [] ∧ csvCell JSVal.null = [] :=
  ⟨by simp, exportLambingCSV_shape [trickyRecord.prop, (formData sampleForm).prop] (by simp)⟩

/-! ## Dates: the ECMA-262 algorithms agree with the calendar -/

theorem yearFromDay_spec (d : Int) :
    dayFromYear (yearFromDay d) ≤ d ∧ d < dayFromYear (yearFromDay d + 1) := by
  unfold yearFromDay
  simp only []
  obtain ⟨y, hy⟩ : ∃ y, y = 1970 + (400 * d) / 146097 := ⟨_, rfl⟩
  rw [← hy]
  have hb : 146097 * (y - 1970) ≤ 400 * d ∧ 400 * d < 146097 * (y - 1970) + 146097 := by omega
  clear hy
  split_ifs with h1 h2
  · refine ⟨h1, ?_⟩
    unfold dayFromYear at *
    omega
  · refine ⟨h2, ?_⟩
    omega
  · have e : y - 1 + 1 = y := by ring
    rw [e]
    refine ⟨?_, by omega⟩
    unfold dayFromYear at *
    omega

theorem dayFromYear_mono (a b : Int) (h : a ≤ b) : dayFromYear a ≤ dayFromYear b := by
  unfold dayFromYear; omega

/-- The year of a day is the only year that contains it. -/
theorem yearFromDay_unique (d y : Int) (h1 : dayFromYear y ≤ d) (h2 : d < dayFromYear (y + 1)) :
    yearFromDay d = y := by
  have := yearFromDay_spec d
  by_contra hne
  rcases lt_or_gt_of_ne hne with h | h
  · have := dayFromYear_mono (yearFromDay d + 1) y (by omega); omega
  · have := dayFromYear_mono (y + 1) (yearFromDay d) (by omega); omega

theorem dayFromYear_succ (y : Int) : dayFromYear (y + 1) = dayFromYear y + daysInYear y := by
  unfold dayFromYear daysInYear
  split_ifs <;> omega

theorem leapOfYear_eq (y : Int) : leapOfYear y = if isLeapYear y then 1 else 0 := by
  unfold leapOfYear daysInYear isLeapYear
  by_cases h4 : y % 4 = 0 <;> by_cases h100 : y % 100 = 0 <;> by_cases h400 : y % 400 = 0 <;>
    simp [h4, h100, h400]

theorem daysInYear_eq (y : Int) : daysInYear y = 365 + leapOfYear y := by
  unfold leapOfYear daysInYear
  split_ifs <;> omega

theorem day_makeDate (d off : Int) (h0 : 0 ≤ off) (h1 : off < msPerDay) :
    day (makeDate d 0 + off) = d := by
  unfold day makeDate msPerDay at *
  omega

/-- The day `w` of year `y` (counted from 0), at any time of the day, lies in year
`y`, is day `w` within it, and sees its leap day count. -/
theorem time_in_year (y w off : Int) (hw0 : 0 ≤ w) (hw1 : w < daysInYear y)
    (h0 : 0 ≤ off) (h1 : off < msPerDay) :
    yearFromTime (makeDate (dayFromYear y + w) 0 + off) = y ∧
    dayWithinYear (makeDate (dayFromYear y + w) 0 + off) = w ∧
    inLeapYear (makeDate (dayFromYear y + w) 0 + off) = leapOfYear y := by
  have hy : yearFromTime (makeDate (dayFromYear y + w) 0 + off) = y := by
    unfold yearFromTime
    rw [day_makeDate _ _ h0 h1]
    apply yearFromDay_unique
    · omega
    · rw [dayFromYear_succ]; omega
  refine ⟨hy, ?_, ?_⟩
  · unfold dayWithinYear
    rw [hy, day_makeDate _ _ h0 h1]; omega
  · unfold inLeapYear
    rw [hy]

theorem leapOfYear_cases (y : Int) : leapOfYear y = 0 ∨ leapOfYear y = 1 := by
  unfold leapOfYear; split_ifs <;> simp

/-- The date of month and the month of the day `w` of a year with leap day count
`l`, in terms of `w` and `l` alone. -/
theorem dateFromTime_in_year (y w : Int) (hw0 : 0 ≤ w) (hw1 : w < daysInYear y) (m : Int)
    (hm0 : 0 ≤ m) (hm1 : m ≤ 11)
    (hlo : monthStart m (leapOfYear y) ≤ w)
    (hhi : m = 11 ∨ w < monthStart (m + 1) (leapOfYear y)) :
    monthFromTime (makeDate (dayFromYear y + w) 0) = m ∧
    dateFromTime (makeDate (dayFromYear y + w) 0) = w - monthStart m (leapOfYear y) + 1 := by
  obtain ⟨-, h2, h3⟩ := time_in_year y w 0 hw0 hw1 (le_refl 0) (by decide)
  rw [add_zero] at h2 h3
  have hmon : monthFromTime (makeDate (dayFromYear y + w) 0) = m := by
    unfold monthFromTime
    rw [h2, h3]
    rcases leapOfYear_cases y with hl | hl <;> rw [hl] at hlo hhi ⊢ <;>
      interval_cases m <;> simp [monthStart] at hlo hhi ⊢ <;> omega
  refine ⟨hmon, ?_⟩
  unfold dateFromTime
  rw [hmon, h2, h3]
  interval_cases m <;> simp [monthStart] <;> omega

theorem finalDate_of_year (y m d : Int) (hy : y < 0 ∨ 99 < y) :
    finalDate y m d = makeDate (makeDay y m d) 0 := by
  unfold finalDate
  have : ¬ (0 ≤ y ∧ y ≤ 99) := by omega
  simp [this]

/-- The date of the local time of `new Date(year, month + 1, 0)` is the number of
days of the month. -/
theorem getDate_lastDay (y m : Int) (hy : y < 0 ∨ 99 < y) (hm0 : 0 ≤ m) (hm1 : m ≤ 11) :
    dateFromTime (finalDate y (m + 1) 0) = daysInMonthSpec y m := by
  rw [finalDate_of_year y _ _ hy]
  have hl := leapOfYear_eq y
  have hd := daysInYear_eq y
  by_cases h11 : m = 11
  · subst h11
    have e : makeDay y (11 + 1) 0 = dayFromYear y + (364 + leapOfYear y) := by
      unfold makeDay
      simp only [monthStart]
      norm_num
      rw [dayFromYear_succ, hd]; ring
    rw [e]
    have := (dateFromTime_in_year y (364 + leapOfYear y) (by rcases leapOfYear_cases y with h | h <;> omega)
      (by omega) 11 (by omega) (by omega)
      (by rcases leapOfYear_cases y with h | h <;> simp [monthStart, h]) (Or.inl rfl)).2
    rw [this]
    simp [monthStart, daysInMonthSpec]
  · have hm : m ≤ 10 := by omega
    clear hm1 h11
    have e : makeDay y (m + 1) 0 =
        dayFromYear y + (monthStart (m + 1) (leapOfYear y) - 1) := by
      unfold makeDay
      have h1 : (m + 1) / 12 = 0 := by omega
      have h2 : (m + 1) % 12 = m + 1 := by omega
      simp only [h1, h2, add_zero]
      ring
    rw [e]
    have hw : 0 ≤ monthStart (m + 1) (leapOfYear y) - 1 ∧
        monthStart (m + 1) (leapOfYear y) - 1 < daysInYear y ∧
        monthStart m (leapOfYear y) ≤ monthStart (m + 1) (leapOfYear y) - 1 := by
      rw [hd]
      rcases leapOfYear_cases y with h | h <;> rw [h] <;>
        interval_cases m <;> simp [monthStart]
    have := (dateFromTime_in_year y _ hw.1 hw.2.1 m hm0 (by omega) hw.2.2 (Or.inr (by omega))).2
    rw [this, hl]
    unfold daysInMonthSpec
    cases isLeapYear y <;> interval_cases m <;> simp [monthStart]

theorem dayFromYear_alt (y : Int) :
    dayFromYear y = 365 * (y - 1970) + (y - 1) / 4 - (y - 1) / 100 + (y - 1) / 400 - 477 := by
  unfold dayFromYear
  have e4 : (y - 1969) / 4 = (y - 1) / 4 - 492 := by omega
  have e100 : (y - 1901) / 100 = (y - 1) / 100 - 19 := by omega
  have e400 : (y - 1601) / 400 = (y - 1) / 400 - 4 := by omega
  rw [e4, e100, e400]; ring

theorem leap_floor (y : Int) :
    y / 4 - y / 100 + y / 400 = (y - 1) / 4 - (y - 1) / 100 + (y - 1) / 400 + leapOfYear y := by
  have f4 : y / 4 = (y - 1) / 4 + (if y % 4 = 0 then 1 else 0) := by split_ifs <;> omega
  have f100 : y / 100 = (y - 1) / 100 + (if y % 100 = 0 then 1 else 0) := by split_ifs <;> omega
  have f400 : y / 400 = (y - 1) / 400 + (if y % 400 = 0 then 1 else 0) := by split_ifs <;> omega
  rw [f4, f100, f400]
  unfold leapOfYear daysInYear
  split_ifs <;> omega

/-- The weekday of the local time of `new Date(year, month, 1)` is the weekday of
the first of the month. -/
theorem getDay_firstDay (y m : Int) (hy : y < 0 ∨ 99 < y) (hm0 : 0 ≤ m) (hm1 : m ≤ 11) :
    weekDay (finalDate y m 1) = weekdayOfFirst y m := by
  rw [finalDate_of_year y _ _ hy]
  unfold weekDay
  have h := day_makeDate (makeDay y m 1) 0 (le_refl 0) (by decide)
  rw [add_zero] at h
  rw [h]
  unfold makeDay weekdayOfFirst
  have h1 : m / 12 = 0 := by omega
  have h2 : m % 12 = m := by omega
  simp only [h1, h2, add_zero]
  rw [dayFromYear_alt]
  have hL := leap_floor y
  rcases leapOfYear_cases y with hl | hl <;> rw [hl] at hL ⊢ <;>
    interval_cases m <;> simp only [monthStart, weekdayMonthTerm] <;> norm_num <;> omega


/-! ## The text of small numbers -/

theorem numToString_four (y : Int) (h0 : 1000 ≤ y) (h1 : y ≤ 9999) :
    numToString y = fourDigits y := by
  rw [numToString_of_nonneg y (by omega)]
  obtain ⟨n, hn⟩ : ∃ n : Nat, y.toNat = n := ⟨_, rfl⟩
  have hn0 : 1000 ≤ n := by omega
  have hn1 : n ≤ 9999 := by omega
  unfold fourDigits
  rw [hn, natToString_step n (by omega), natToString_step (n / 10) (by omega),
    natToString_step (n / 10 / 10) (by omega), natToString_lt_ten (n / 10 / 10 / 10) (by omega)]
  have e1 : n / 10 / 10 / 10 = n / 1000 % 10 := by omega
  have e2 : n / 10 / 10 % 10 = n / 100 % 10 := by omega
  rw [e1, e2]
  simp

theorem pad2_two (n : Int) (h0 : 0 ≤ n) (h1 : n ≤ 99) : pad2 n = twoDigits n := by
  unfold pad2
  simp only []
  rw [numberToString_of_safe n (by omega), numToString_of_nonneg n h0]
  obtain ⟨k, hk⟩ : ∃ k : Nat, n.toNat = k := ⟨_, rfl⟩
  have hk1 : k ≤ 99 := by omega
  unfold twoDigits
  rw [hk]
  by_cases h10 : k < 10
  · rw [natToString_lt_ten k h10]
    have e1 : k / 10 % 10 = 0 := by omega
    have e2 : k % 10 = k := by omega
    rw [e1, e2]
    rfl
  · rw [natToString_step k (by omega), natToString_lt_ten (k / 10) (by omega)]
    have e1 : k / 10 % 10 = k / 10 := by omega
    rw [e1]
    rfl

/-- For a four-digit year the text `dateStr` of a day cell is the zero-padded
`YYYY-MM-DD` of that day. -/
theorem dateStr_eq_isoDate (year month d : Int) (hy0 : 1000 ≤ year) (hy1 : year ≤ 9999)
    (hm0 : 0 ≤ month) (hm1 : month ≤ 11) (hd0 : 0 ≤ d) (hd1 : d ≤ 99) :
    dateStr year month d = isoDate year (month + 1) d := by
  unfold dateStr isoDate
  rw [numberToString_of_safe year (by omega), numToString_four year hy0 hy1,
    pad2_two (month + 1) (by omega) (by omega), pad2_two d hd0 hd1]

/-! ## The calendar grid (C5) -/

theorem daysInMonthSpec_bounds (y m : Int) :
    28 ≤ daysInMonthSpec y m ∧ daysInMonthSpec y m ≤ 31 := by
  unfold daysInMonthSpec
  split_ifs <;> omega

theorem weekdayOfFirst_bounds (y m : Int) : 0 ≤ weekdayOfFirst y m ∧ weekdayOfFirst y m < 7 := by
  unfold weekdayOfFirst
  simp only []
  omega

/-- The date and the weekday of a time depend on its day only. -/
theorem dateFromTime_of_day (t1 t2 : Int) (h : day t1 = day t2) :
    dateFromTime t1 = dateFromTime t2 ∧ weekDay t1 = weekDay t2 := by
  simp only [dateFromTime, monthFromTime, dayWithinYear, inLeapYear, yearFromTime, weekDay, h,
    and_self]

/-- In a zone that keeps the local day asked for, `new Date(year, month, date)` is
a valid date on that local day. -/
theorem keepsDay_spec (zone : TimeZone) (y m d : Int) (h : zone.keepsDay y m d = true) :
    ∃ t, newDateLocal zone y m d = some t ∧ day (localTime zone t) = day (finalDate y m d) := by
  unfold TimeZone.keepsDay at h
  cases hn : newDateLocal zone y m d with
  | none => rw [hn] at h; exact absurd h (by simp)
  | some t =>
    rw [hn] at h
    exact ⟨t, rfl, by simpa using h⟩

/-- A zone with the same offset at all times keeps every local day whose date is
valid. -/
theorem keepsDay_of_fixed (off y m d : Int)
    (h : -8640000000000000 ≤ finalDate y m d - off ∧ finalDate y m d - off ≤ 8640000000000000) :
    TimeZone.keepsDay { offsetAtUTC := fun _ => off, offsetAtLocal := fun _ => off } y m d = true := by
  obtain ⟨t, ht⟩ : ∃ t, t = finalDate y m d := ⟨_, rfl⟩
  rw [← ht] at h
  have hc : ¬ (t - off < -8640000000000000 ∨ 8640000000000000 < t - off) := by omega
  unfold TimeZone.keepsDay newDateLocal timeClip utc localTime
  simp only [← ht]
  rw [if_neg hc]
  simp

/-- C5, as amended. Let the time zone keep the first and the last day of the month:
`new Date(year, month, 1)` and `new Date(year, month + 1, 0)` are valid dates that
lie, in local time, on the days asked for (no change of the offset of the zone
skips one of the two days as a whole). Then for every four-digit year (1000 to
9999) and every month (0 to 11), `renderCalendar` produces `w` empty cells, `w`
being the weekday of the first of the month counted from Sunday = 0, followed by
one day cell for each day of the month, numbered 1 to `n` in increasing order,
where `n` is the number of days of that month (28 to 31, February having 29
exactly in leap years); the badge of day `d` shows the number of loaded records
whose date is that day's zero-padded `YYYY-MM-DD`, and is absent when that number
is 0. -/
theorem renderCalendar_cells (zone : TimeZone) (lambingRecordsData : List LambingRecord)
    (today : Int × Int × Int) (year month : Int) (hy0 : 1000 ≤ year) (hy1 : year ≤ 9999)
    (hm0 : 0 ≤ month) (hm1 : month ≤ 11)
    (hfirst : zone.keepsDay year month 1 = true)
    (hlast : zone.keepsDay year (month + 1) 0 = true) :
    renderCalendar zone lambingRecordsData today year month =
      List.replicate (weekdayOfFirst year month).toNat CalendarCell.empty ++
        (List.range (daysInMonthSpec year month).toNat).map (fun (i : Nat) =>
          CalendarCell.dayCell ((i : Int) + 1)
            (decide ((i : Int) + 1 = today.2.2 ∧ month = today.2.1 ∧ year = today.1))
            (badgeOf (lambingRecordsData.filter
              (fun r => decide (r.date = isoDate year (month + 1) ((i : Int) + 1)))).length)) ∧
    28 ≤ daysInMonthSpec year month ∧ daysInMonthSpec year month ≤ 31 ∧
    0 ≤ weekdayOfFirst year month ∧ weekdayOfFirst year month < 7 := by
  refine ⟨?_, (daysInMonthSpec_bounds year month).1, (daysInMonthSpec_bounds year month).2,
    (weekdayOfFirst_bounds year month).1, (weekdayOfFirst_bounds year month).2⟩
  obtain ⟨t1, hn1, hd1⟩ := keepsDay_spec zone year month 1 hfirst
  obtain ⟨t2, hn2, hd2⟩ := keepsDay_spec zone year (month + 1) 0 hlast
  have hdays : getDate zone (newDateLocal zone year (month + 1) 0) =
      some (daysInMonthSpec year month) := by
    rw [hn2]
    show some (dateFromTime (localTime zone t2)) = _
    rw [(dateFromTime_of_day _ _ hd2).1, getDate_lastDay year month (Or.inr (by omega)) hm0 hm1]
  have hstart : getDay zone (newDateLocal zone year month 1) =
      some (weekdayOfFirst year month) := by
    rw [hn1]
    show some (weekDay (localTime zone t1)) = _
    rw [(dateFromTime_of_day _ _ hd1).2, getDay_firstDay year month (Or.inr (by omega)) hm0 hm1]
  unfold renderCalendar
  simp only [hdays, hstart, loopTurns]
  congr 1
  apply List.map_congr_left
  intro i hi
  have hi1 : i < (daysInMonthSpec year month).toNat := List.mem_range.mp hi
  have hb := (daysInMonthSpec_bounds year month).2
  have hd : dateStr year month ((i : Int) + 1) = isoDate year (month + 1) ((i : Int) + 1) :=
    dateStr_eq_isoDate year month _ hy0 hy1 hm0 hm1 (by omega) (by omega)
  unfold dayCellOf
  simp only [hd, badgeOf]

/-- Witness for C5: March 2024, five hours west of Greenwich, with one record on
the 15th. -/
theorem renderCalendar_cells_witness :
    (1000 : Int) ≤ 2024 ∧ (2024 : Int) ≤ 9999 ∧ (0 : Int) ≤ 2 ∧ (2 : Int) ≤ 11 ∧
    zoneWest.keepsDay 2024 2 1 = true ∧ zoneWest.keepsDay 2024 (2 + 1) 0 = true ∧
    (renderCalendar zoneWest [formData sampleForm] (2024, 2, 15) 2024 2 =
      List.replicate (weekdayOfFirst 2024 2).toNat CalendarCell.empty ++
        (List.range (daysInMonthSpec 2024 2).toNat).map (fun (i : Nat) =>
          CalendarCell.dayCell ((i : Int) + 1)
            (decide ((i : Int) + 1 = ((2024 : Int), (2 : Int), (15 : Int)).2.2 ∧
              (2 : Int) = ((2024 : Int), (2 : Int), (15 : Int)).2.1 ∧
              (2024 : Int) = ((2024 : Int), (2 : Int), (15 : Int)).1))
            (badgeOf ([formData sampleForm].filter
              (fun r => decide (r.date = isoDate 2024 (2 + 1) ((i : Int) + 1)))).length)) ∧
    28 ≤ daysInMonthSpec 2024 2 ∧ daysInMonthSpec 2024 2 ≤ 31 ∧
    0 ≤ weekdayOfFirst 2024 2 ∧ weekdayOfFirst 2024 2 < 7) :=
  ⟨by decide, by decide, by decide, by decide, by decide, by decide,
    renderCalendar_cells zoneWest [formData sampleForm] (2024, 2, 15) 2024 2 (by decide)
      (by decide) (by decide) (by decide) (by decide) (by decide)⟩

/-- C5 fails as stated. For January of the year 50, `new Date(50, 0, 1)` is 1
January 1950, a Sunday, so no empty cell precedes the day cells, while 1 January
of the year 50 is a Saturday (weekday 6). For January 999 the record dated
`0999-01-05` gets no badge on day 5, because the cell compares with the text
`999-01-05`. And in the time zone `Pacific/Kiritimati`, where the local day 31
December 1994 was skipped, `new Date(1994, 12, 0)` is 1 January 1995 in local
time, so `getDate()` is 1: the calendar of December 1994 has four empty cells and
one day cell, while that month has 31 days. -/
theorem renderCalendar_not_every_year :
    (renderCalendar zoneUTC [] (2024, 0, 1) 50 0).head? =
      some (CalendarCell.dayCell 1 false none) ∧
    weekdayOfFirst 50 0 = 6 ∧
    (renderCalendar zoneUTC [{ sampleRecord with date := isoDate 999 1 5 }] (2024, 0, 1) 999
        0).filter (fun c => decide (c = CalendarCell.dayCell 5 false none)) =
      [CalendarCell.dayCell 5 false none] ∧
    ([{ sampleRecord with date := isoDate 999 1 5 }].filter
      (fun r => decide (r.date = isoDate 999 1 5))).length = 1 ∧
    renderCalendar zoneKiritimati [] (2024, 0, 1) 1994 11 =
      List.replicate 4 CalendarCell.empty ++ [CalendarCell.dayCell 1 false none] ∧
    daysInMonthSpec 1994 11 = 31 ∧ weekdayOfFirst 1994 11 = 4 := by
  refine ⟨by decide, by decide, by decide, by decide, by decide, by decide, by decide⟩


/-! ## The upload loop (C6) -/

theorem countOk_succ (net : Nat → Outcome) (start n : Nat) :
    countOk net start (n + 1) =
      (if net start = Outcome.ok then 1 else 0) + countOk net (start + 1) n := by
  unfold countOk
  rw [List.range_succ_eq_map, List.filter_cons, List.filter_map]
  have e : ((fun i => decide (net (start + i) = Outcome.ok)) ∘ Nat.succ) =
      (fun i => decide (net (start + 1 + i) = Outcome.ok)) := by
    funext i; simp [Nat.add_assoc, Nat.add_comm 1 i]
  rw [e]
  by_cases h : net start = Outcome.ok
  · simp [h]; omega
  · simp [h]

theorem uploadLoop_complete (serverUrl : Str) (net : Nat → Outcome) (records : List LambingRecord)
    (himg : ∀ r ∈ records, r.imageBlob ≠ some ImageVal.plainObject) (sent : List Request)
    (s f : Nat) :
    uploadLoop serverUrl net records sent s f =
      UploadResult.syncComplete (sent ++ records.map (requestOf serverUrl))
        (s + countOk net sent.length records.length)
        (f + (records.length - countOk net sent.length records.length)) ∧
    countOk net sent.length records.length ≤ records.length := by
  induction records generalizing sent s f with
  | nil => simp [uploadLoop, countOk]
  | cons r rs ih =>
    have hr : r.imageBlob ≠ some ImageVal.plainObject := himg r (by simp)
    have hrs : ∀ x ∈ rs, x.imageBlob ≠ some ImageVal.plainObject :=
      fun x hx => himg x (List.mem_cons_of_mem _ hx)
    have hreq : ∀ img, r.imageBlob = img →
        ({ url := serverUrl ++ "/api/lambing_records".toList, data := cleanRecord r,
           image := match img with
            | some (ImageVal.blob b) => some (b, imageFileName r)
            | _ => none } : Request) = requestOf serverUrl r := by
      intro img h; subst h; rfl
    rw [List.length_cons, countOk_succ]
    unfold uploadLoop
    split
    · rename_i h; exact absurd h hr
    · rename_i img hne
      simp only [hreq _ rfl]
      cases hnet : net sent.length with
      | ok =>
        simp only []
        have := ih hrs (sent ++ [requestOf serverUrl r]) (s + 1) f
        simp only [List.length_append, List.length_singleton, List.append_assoc,
          List.singleton_append] at this
        obtain ⟨h1, h2⟩ := this
        refine ⟨?_, by simp; omega⟩
        rw [h1]; simp only [List.map_cons, if_true]
        congr 1 <;> omega
      | notOk =>
        simp only []
        have := ih hrs (sent ++ [requestOf serverUrl r]) s (f + 1)
        simp only [List.length_append, List.length_singleton, List.append_assoc,
          List.singleton_append] at this
        obtain ⟨h1, h2⟩ := this
        refine ⟨?_, by simp; omega⟩
        rw [h1]; simp only [List.map_cons]
        congr 1
        · simp
        · simp; omega
      | networkError =>
        simp only []
        have := ih hrs (sent ++ [requestOf serverUrl r]) s (f + 1)
        simp only [List.length_append, List.length_singleton, List.append_assoc,
          List.singleton_append] at this
        obtain ⟨h1, h2⟩ := this
        refine ⟨?_, by simp; omega⟩
        rw [h1]; simp only [List.map_cons]
        congr 1
        · simp
        · simp; omega

/-- C6, as amended. When the URL field is not blank, the store is not empty and
no stored record carries a plain object as `imageBlob`, `uploadToServer` issues
exactly one POST per record, in store order and without retry, whatever the
outcome of each request; it reports counts with
`successCount + failCount = number of records` and `successCount` the number of
`ok` responses; and it leaves the database as it was. -/
theorem uploadToServer_counts (serverUrlInput : Str) (net : Nat → Outcome) (db : DB)
    (hurl : jsTrim serverUrlInput ≠ []) (hne : db.lambing_records.toArray ≠ [])
    (himg : ∀ r ∈ db.lambing_records.toArray, r.imageBlob ≠ some ImageVal.plainObject) :
    ∃ requests successCount failCount,
      uploadToServer serverUrlInput net db =
        (UploadResult.syncComplete requests successCount failCount, db) ∧
      requests = db.lambing_records.toArray.map (requestOf (jsTrim serverUrlInput)) ∧
      successCount + failCount = db.lambing_records.toArray.length ∧
      successCount = countOk net 0 db.lambing_records.toArray.length := by
  obtain ⟨h1, h2⟩ := uploadLoop_complete (jsTrim serverUrlInput) net db.lambing_records.toArray
    himg [] 0 0
  have hlen : db.lambing_records.toArray.length ≠ 0 := by
    intro h; exact hne (List.length_eq_zero.mp h)
  refine ⟨db.lambing_records.toArray.map (requestOf (jsTrim serverUrlInput)),
    countOk net 0 db.lambing_records.toArray.length,
    db.lambing_records.toArray.length - countOk net 0 db.lambing_records.toArray.length,
    ?_, rfl, ?_, rfl⟩
  · unfold uploadToServer
    simp only [hurl, hlen, if_false]
    rw [h1]
    simp
  · simp only [List.length_nil] at h2 ⊢
    omega

/-- Witness for C6: the database with one record and its photo, every request
answered with `ok`. -/
theorem uploadToServer_counts_witness :
    jsTrim sampleUrl ≠ [] ∧ photoDB.lambing_records.toArray ≠ [] ∧
    (∀ r ∈ photoDB.lambing_records.toArray, r.imageBlob ≠ some ImageVal.plainObject) ∧
    ∃ requests successCount failCount,
      uploadToServer sampleUrl (fun _ => Outcome.ok) photoDB =
        (UploadResult.syncComplete requests successCount failCount, photoDB) ∧
      requests = photoDB.lambing_records.toArray.map (requestOf (jsTrim sampleUrl)) ∧
      successCount + failCount = photoDB.lambing_records.toArray.length ∧
      successCount = countOk (fun _ => Outcome.ok) 0 photoDB.lambing_records.toArray.length :=
  ⟨by decide, by decide, by decide,
    uploadToServer_counts sampleUrl (fun _ => Outcome.ok) photoDB (by decide) (by decide)
      (by decide)⟩

/-- C6 fails as stated. With a blank URL field a non-empty store is not uploaded
at all: no request is issued and no counts are reported. And a record whose
`imageBlob` is the plain object left by a restored backup makes
`FormData.append` throw, which ends the loop without any request. -/
theorem uploadToServer_no_post :
    photoDB.lambing_records.toArray ≠ [] ∧
    uploadToServer "  ".toList (fun _ => Outcome.ok) photoDB = (UploadResult.noUrl, photoDB) ∧
    uploadToServer sampleUrl (fun _ => Outcome.ok) restoredPhotoDB =
      (UploadResult.syncError [], restoredPhotoDB) := by
  refine ⟨by decide, by decide, by decide⟩


/-! ## Restore merges (C8) -/

theorem Table.bulkPut_cons (t : Table) (r : LambingRecord) (rs : List LambingRecord) :
    t.bulkPut (r :: rs) = (t.put r).bulkPut rs := rfl

theorem Table.bulkPut_WF {t : Table} (h : t.WF) (rs : List LambingRecord) : (t.bulkPut rs).WF := by
  induction rs generalizing t with
  | nil => exact h
  | cons r rs ih => rw [Table.bulkPut_cons]; exact ih (Table.put_WF h r)

/-- A record whose key no element of the array uses stays as it is. -/
theorem Table.bulkPut_get_frame {t : Table} (h : t.WF) (rs : List LambingRecord) (k : Int)
    (hk : ∀ r ∈ rs, r.id ≠ some k) (old : LambingRecord) (hold : t.get k = some old) :
    (t.bulkPut rs).get k = some old := by
  induction rs generalizing t with
  | nil => exact hold
  | cons r rs ih =>
    rw [Table.bulkPut_cons]
    apply ih (Table.put_WF h r) (fun x hx => hk x (List.mem_cons_of_mem _ hx))
    rw [Table.get_put_other h r k ?_, hold]
    intro e
    have hr := hk r (by simp)
    obtain ⟨hmem, hid⟩ := (Table.get_eq_some_iff h k old).mp hold
    obtain ⟨k1, hk1, hlt⟩ := h.1 old hmem
    unfold Table.putKey at e
    cases hrid : r.id with
    | none =>
      rw [hrid] at e
      simp only at e
      rw [hid] at hk1
      have := Option.some.inj hk1
      omega
    | some j =>
      rw [hrid] at e hr
      simp only at e
      exact hr (by rw [e])

/-- After `bulkPut`, the last element of the array with a given id is what lies
under that id. -/
theorem Table.bulkPut_get_last {t : Table} (h : t.WF) (rs : List LambingRecord) (k : Int)
    (r : LambingRecord) (hr : lastWithId rs k = some r) : (t.bulkPut rs).get k = some r := by
  induction rs generalizing t with
  | nil => simp [lastWithId] at hr
  | cons x rs ih =>
    rw [Table.bulkPut_cons]
    unfold lastWithId at hr
    rw [List.reverse_cons, List.find?_append] at hr
    cases hl : rs.reverse.find? (fun r => decide (r.id = some k)) with
    | some y =>
      rw [hl] at hr
      simp only [Option.or_some] at hr
      have hy : y = r := Option.some.inj hr
      subst hy
      exact ih (Table.put_WF h x) hl
    | none =>
      rw [hl] at hr
      simp only [Option.none_or, List.find?_cons, List.find?_nil] at hr
      have hx : x.id = some k ∧ x = r := by
        by_cases hxk : x.id = some k
        · simp [hxk] at hr; exact ⟨hxk, hr⟩
        · simp [hxk] at hr
      obtain ⟨hxk, rfl⟩ := hx
      have hnone : ∀ y ∈ rs, y.id ≠ some k := by
        intro y hy
        have := List.find?_eq_none.mp hl y (List.mem_reverse.mpr hy)
        simpa using this
      apply Table.bulkPut_get_frame (Table.put_WF h x) rs k hnone
      have hkey : t.putKey x = k := by simp [Table.putKey, hxk]
      have hst : t.storedAs x = x := by simp [Table.storedAs, hxk]
      have := Table.get_put_key h x
      rw [hkey, hst] at this
      exact this

/-- C8. A confirmed restore of a file whose `records` member is an array merges
it into a store: afterwards every id that occurs in the array holds the last
array element with that id, every record of the store whose id does not occur in
the array is unchanged, and the sheep table is untouched; a file that is not valid
JSON, or whose `records` member is not an array, leaves the database unchanged. -/
theorem restoreData_merges (db : DB) (hwf : db.lambing_records.WF) (timestamp : Str)
    (records : List LambingRecord) :
    (∀ k r, lastWithId records k = some r →
      (restoreData (some (ParsedFile.backup timestamp records)) true db).2.lambing_records.get k
        = some r) ∧
    (∀ k old, (∀ r ∈ records, r.id ≠ some k) → db.lambing_records.get k = some old →
      (restoreData (some (ParsedFile.backup timestamp records)) true db).2.lambing_records.get k
        = some old) ∧
    (restoreData (some (ParsedFile.backup timestamp records)) true db).1
      = RestoreResult.restored records.length ∧
    (restoreData (some (ParsedFile.backup timestamp records)) true db).2.sheep = db.sheep ∧
    (restoreData (some ParsedFile.syntaxError) true db).2 = db ∧
    (restoreData (some ParsedFile.jsonNull) true db).2 = db ∧
    (restoreData (some ParsedFile.noRecordsArray) true db).2 = db := by
  refine ⟨?_, ?_, rfl, rfl, rfl, rfl, rfl⟩
  · intro k r hr
    exact Table.bulkPut_get_last hwf records k r hr
  · intro k old hk hold
    exact Table.bulkPut_get_frame hwf records k hk old hold


/-! ## Submitting the form (C9, C10) -/

theorem formData_rejected_iff (form : Form) :
    ((formData form).ewe_id = [] ∨ (formData form).date = []) ↔
      (jsTrim form.lambingEwe = [] ∨ form.lambingDate = []) := by
  simp [formData]

theorem withFormImage_id (form : Form) (d : LambingRecord) : (withFormImage form d).id = d.id := by
  unfold withFormImage; cases form.lambingImage <;> rfl

/-- The new-entry branch of `handleLambingSubmit`. -/
theorem handleLambingSubmit_new (form : Form) (db : DB)
    (hok : ¬ (jsTrim form.lambingEwe = [] ∨ form.lambingDate = []))
    (hnew : form.editId = none ∨ form.editId = some []) :
    ∃ sheep, handleLambingSubmit form db = SubmitResult.saved
      { lambing_records := db.lambing_records.put (withFormImage form (formData form))
        sheep := sheep } := by
  have hrej : ¬ ((formData form).ewe_id = [] ∨ (formData form).date = []) := by
    rw [formData_rejected_iff]; exact hok
  have hid : (withFormImage form (formData form)).id = none := by
    rw [withFormImage_id]; rfl
  unfold handleLambingSubmit
  simp only [hrej, if_false]
  rcases hnew with h | h <;> rw [h] <;> simp only [Table.add, hid] <;> exact ⟨_, rfl⟩

/-- The edit branch of `handleLambingSubmit`. -/
theorem handleLambingSubmit_edit (form : Form) (db : DB)
    (hok : ¬ (jsTrim form.lambingEwe = [] ∨ form.lambingDate = []))
    (s : Str) (hs : form.editId = some s) (hne : s ≠ []) :
    handleLambingSubmit form db =
      match parseInt s with
      | none => SubmitResult.error
      | some k => SubmitResult.saved
          { db with lambing_records := (db.lambing_records.put
              (preserveImage db.lambing_records
                { withFormImage form (formData form) with id := some k })) } := by
  have hrej : ¬ ((formData form).ewe_id = [] ∨ (formData form).date = []) := by
    rw [formData_rejected_iff]; exact hok
  obtain ⟨c, cs, rfl⟩ := List.exists_cons_of_ne_nil hne
  unfold handleLambingSubmit
  simp only [hrej, if_false, hs]

theorem preserveImage_edit (form : Form) (t : Table) (k : Int) (old : LambingRecord)
    (hold : t.get k = some old) :
    preserveImage t { withFormImage form (formData form) with id := some k } =
      editedRecord form k old := by
  unfold preserveImage editedRecord withFormImage
  cases hf : form.lambingImage with
  | some file => rfl
  | none =>
    have hk : recKey { formData form with id := some k } = k := rfl
    simp only [hk, hold]
    have hnone : (formData form).imageBlob = none := rfl
    cases hi : old.imageBlob with
    | none => simp [hnone]
    | some img => simp [hnone]

theorem Table.length_put_of_get {t : Table} (h : t.WF) (r old : LambingRecord) (k : Int)
    (hr : r.id = some k) (hold : t.get k = some old) :
    (t.put r).rows.length = t.rows.length := by
  obtain ⟨hmem, hid⟩ := (Table.get_eq_some_iff h k old).mp hold
  rw [Table.put_rows]
  apply length_insertByKey_of_mem recKey _ _ h.2
  refine ⟨old, hmem, ?_⟩
  simp [recKey, hid, Table.storedAs, hr]

theorem Table.length_put_fresh {t : Table} (h : t.WF) (r : LambingRecord) (hr : r.id = none) :
    (t.put r).rows.length = t.rows.length + 1 := by
  rw [Table.put_rows]
  apply length_insertByKey_of_fresh
  intro y hy e
  obtain ⟨k, hk, hlt⟩ := h.1 y hy
  simp [recKey, hk, Table.storedAs, hr] at e
  omega

theorem cleanRecord_withFormImage (form : Form) (o : Option Int) :
    cleanRecord { withFormImage form (formData form) with id := o } = formData form := by
  unfold withFormImage cleanRecord
  cases form.lambingImage <;> rfl

theorem cleanRecord_preserveImage (t : Table) (d : LambingRecord) :
    cleanRecord (preserveImage t d) = cleanRecord d := by
  unfold preserveImage
  repeat' split
  all_goals rfl

/-- C9. In a store that holds a record `old` under id `k`, submitting the form in
edit mode for `k` with a non-empty ewe id and date saves the database in which
the record under `k` is the record built from the form (with id `k`, and as image
the chosen file or, when none is chosen, the image of `old`); the number of
records, every record under another id, and the sheep table are unchanged. -/
theorem handleLambingSubmit_edit_replaces (form : Form) (db : DB) (hwf : db.lambing_records.WF)
    (k : Int) (old : LambingRecord) (hold : db.lambing_records.get k = some old)
    (hedit : form.editId = some (numToString k))
    (hEwe : jsTrim form.lambingEwe ≠ []) (hDate : form.lambingDate ≠ []) :
    ∃ db1, handleLambingSubmit form db = SubmitResult.saved db1 ∧
      db1.lambing_records.get k = some (editedRecord form k old) ∧
      (form.lambingImage = none → (editedRecord form k old).imageBlob = old.imageBlob) ∧
      db1.lambing_records.rows.length = db.lambing_records.rows.length ∧
      (∀ j, j ≠ k → db1.lambing_records.get j = db.lambing_records.get j) ∧
      db1.sheep = db.sheep := by
  have hok : ¬ (jsTrim form.lambingEwe = [] ∨ form.lambingDate = []) := by
    rintro (h | h)
    · exact hEwe h
    · exact hDate h
  have hsub := handleLambingSubmit_edit form db hok (numToString k) hedit (numToString_ne_nil k)
  rw [parseInt_numToString] at hsub
  simp only [preserveImage_edit form db.lambing_records k old hold] at hsub
  have hid : (editedRecord form k old).id = some k := rfl
  have hkey : db.lambing_records.putKey (editedRecord form k old) = k := by
    simp [Table.putKey, hid]
  have hst : db.lambing_records.storedAs (editedRecord form k old) = editedRecord form k old := by
    simp [Table.storedAs, hid]
  refine ⟨_, hsub, ?_, ?_, ?_, ?_, rfl⟩
  · have := Table.get_put_key hwf (editedRecord form k old)
    rw [hkey, hst] at this
    exact this
  · intro hnone
    simp [editedRecord, hnone]
  · exact Table.length_put_of_get hwf _ old k hid hold
  · intro j hj
    exact Table.get_put_other hwf _ j (by rw [hkey]; exact hj)

/-- C10. `handleLambingSubmit` rejects the submission exactly when the ewe id is
empty after trimming or the date is empty, and then the database (records and
sheep) is as before. Otherwise a new entry (no edit id) adds exactly one record:
it lies under the generated key, which was free, every record of the store is
unchanged and the store has one record more; and an edit whose id reads as the
number `k` stores exactly one record, under `k`: every record under another id
and the sheep table are unchanged, and the number of records is unchanged when
`k` was present. An edit id that does not read as a number ends in the error
alert with the database unchanged. -/
theorem handleLambingSubmit_outcome (form : Form) (db : DB) (hwf : db.lambing_records.WF) :
    (handleLambingSubmit form db = SubmitResult.rejected ↔
      (jsTrim form.lambingEwe = [] ∨ form.lambingDate = [])) ∧
    (handleLambingSubmit form db = SubmitResult.rejected →
      (handleLambingSubmit form db).dbAfter db = db) ∧
    (¬ (jsTrim form.lambingEwe = [] ∨ form.lambingDate = []) →
      (form.editId = none ∨ form.editId = some [] →
        ∃ db1 r, handleLambingSubmit form db = SubmitResult.saved db1 ∧
          db.lambing_records.get db.lambing_records.nextKey = none ∧
          db1.lambing_records.get db.lambing_records.nextKey = some r ∧
          cleanRecord r = formData form ∧
          (∀ j, j ≠ db.lambing_records.nextKey →
            db1.lambing_records.get j = db.lambing_records.get j) ∧
          db1.lambing_records.rows.length = db.lambing_records.rows.length + 1) ∧
      (∀ s k, form.editId = some s → s ≠ [] → parseInt s = some k →
        ∃ db1 r, handleLambingSubmit form db = SubmitResult.saved db1 ∧
          db1.lambing_records.get k = some r ∧
          cleanRecord r = formData form ∧
          (∀ j, j ≠ k → db1.lambing_records.get j = db.lambing_records.get j) ∧
          ((db.lambing_records.get k).isSome = true →
            db1.lambing_records.rows.length = db.lambing_records.rows.length) ∧
          db1.sheep = db.sheep) ∧
      (∀ s, form.editId = some s → s ≠ [] → parseInt s = none →
        handleLambingSubmit form db = SubmitResult.error ∧
        (handleLambingSubmit form db).dbAfter db = db)) := by
  have hiff : handleLambingSubmit form db = SubmitResult.rejected ↔
      (jsTrim form.lambingEwe = [] ∨ form.lambingDate = []) := by
    constructor
    · intro h
      by_contra hok
      cases he : form.editId with
      | none =>
        obtain ⟨sh, hs⟩ := handleLambingSubmit_new form db hok (Or.inl he)
        rw [hs] at h; cases h
      | some s =>
        cases s with
        | nil =>
          obtain ⟨sh, hs⟩ := handleLambingSubmit_new form db hok (Or.inr he)
          rw [hs] at h; cases h
        | cons c cs =>
          have hs := handleLambingSubmit_edit form db hok (c :: cs) he (by simp)
          rw [hs] at h
          cases hp : parseInt (c :: cs) <;> rw [hp] at h <;> cases h
    · intro h
      unfold handleLambingSubmit
      simp only [(formData_rejected_iff form).mpr h, if_true]
  refine ⟨hiff, ?_, ?_⟩
  · intro h; rw [h]; rfl
  · intro hok
    refine ⟨?_, ?_, ?_⟩
    · intro hnew
      obtain ⟨sh, hs⟩ := handleLambingSubmit_new form db hok hnew
      have hid : (withFormImage form (formData form)).id = none := by
        rw [withFormImage_id]; rfl
      have hkey : db.lambing_records.putKey (withFormImage form (formData form)) =
          db.lambing_records.nextKey := by simp [Table.putKey, hid]
      refine ⟨_, db.lambing_records.storedAs (withFormImage form (formData form)), hs,
        Table.fresh_of_WF hwf, ?_, ?_, ?_, ?_⟩
      · have := Table.get_put_key hwf (withFormImage form (formData form))
        rw [hkey] at this
        exact this
      · simp only [Table.storedAs, hid]
        exact cleanRecord_withFormImage form _
      · intro j hj
        exact Table.get_put_other hwf _ j (by rw [hkey]; exact hj)
      · exact Table.length_put_fresh hwf _ hid
    · intro s k he hne hp
      have hs := handleLambingSubmit_edit form db hok s he hne
      rw [hp] at hs
      simp only at hs
      obtain ⟨data, hdata⟩ : ∃ data, data = preserveImage db.lambing_records
          { withFormImage form (formData form) with id := some k } := ⟨_, rfl⟩
      rw [← hdata] at hs
      have hid : data.id = some k := by
        rw [hdata]; unfold preserveImage
        repeat' split
        all_goals rfl
      have hkey : db.lambing_records.putKey data = k := by simp [Table.putKey, hid]
      have hst : db.lambing_records.storedAs data = data := by simp [Table.storedAs, hid]
      refine ⟨_, data, hs, ?_, ?_, ?_, ?_, rfl⟩
      · have := Table.get_put_key hwf data
        rw [hkey, hst] at this
        exact this
      · rw [hdata, cleanRecord_preserveImage]
        exact cleanRecord_withFormImage form _
      · intro j hj
        exact Table.get_put_other hwf _ j (by rw [hkey]; exact hj)
      · intro hsome
        obtain ⟨old, hold⟩ := Option.isSome_iff_exists.mp hsome
        exact Table.length_put_of_get hwf data old k hid hold
    · intro s he hne hp
      have hs := handleLambingSubmit_edit form db hok s he hne
      rw [hp] at hs
      simp only at hs
      exact ⟨hs, by rw [hs]; rfl⟩


/-! ## Yearly totals east of Greenwich -/

theorem decDigit_digitChar : ∀ k, k < 10 → decDigit (digitChar k) = some (k : Int) := by
  decide

theorem digitChar_ne_dash : ∀ k, k < 10 → digitChar k ≠ '-' := by
  decide

theorem newDateString_isoDate (y m d : Int) (hy0 : 0 ≤ y) (hy1 : y ≤ 9999) (hm0 : 1 ≤ m)
    (hm1 : m ≤ 12) (hd0 : 1 ≤ d) (hd1 : d ≤ 31) :
    newDateString (isoDate y m d) = some (makeDate (makeDay y (m - 1) d) 0) ∧
    yearOfText (isoDate y m d) = some y := by
  obtain ⟨n, hn⟩ : ∃ n : Nat, y.toNat = n := ⟨_, rfl⟩
  obtain ⟨p, hp⟩ : ∃ p : Nat, m.toNat = p := ⟨_, rfl⟩
  obtain ⟨q, hq⟩ : ∃ q : Nat, d.toNat = q := ⟨_, rfl⟩
  have hyn : y = (n : Int) := by omega
  have hmp : m = (p : Int) := by omega
  have hdq : d = (q : Int) := by omega
  have e1 := decDigit_digitChar (n / 1000 % 10) (Nat.mod_lt _ (by omega))
  have e2 := decDigit_digitChar (n / 100 % 10) (Nat.mod_lt _ (by omega))
  have e3 := decDigit_digitChar (n / 10 % 10) (Nat.mod_lt _ (by omega))
  have e4 := decDigit_digitChar (n % 10) (Nat.mod_lt _ (by omega))
  have e5 := decDigit_digitChar (p / 10 % 10) (Nat.mod_lt _ (by omega))
  have e6 := decDigit_digitChar (p % 10) (Nat.mod_lt _ (by omega))
  have e7 := decDigit_digitChar (q / 10 % 10) (Nat.mod_lt _ (by omega))
  have e8 := decDigit_digitChar (q % 10) (Nat.mod_lt _ (by omega))
  have vy : 1000 * ((n / 1000 % 10 : Nat) : Int) + 100 * ((n / 100 % 10 : Nat) : Int) +
      10 * ((n / 10 % 10 : Nat) : Int) + ((n % 10 : Nat) : Int) = y := by omega
  have vm : 10 * ((p / 10 % 10 : Nat) : Int) + ((p % 10 : Nat) : Int) = m := by omega
  have vd : 10 * ((q / 10 % 10 : Nat) : Int) + ((q % 10 : Nat) : Int) = d := by omega
  have hcond : 1 ≤ m ∧ m ≤ 12 ∧ 1 ≤ d ∧ d ≤ 31 := ⟨hm0, hm1, hd0, hd1⟩
  constructor
  · simp only [isoDate, fourDigits, twoDigits, hn, hp, hq, List.cons_append, List.nil_append,
      newDateString, and_self, if_true, e1, e2, e3, e4, e5, e6, e7, e8, vy, vm, vd, hcond]
  · simp only [isoDate, fourDigits, hn, List.cons_append, List.nil_append, yearOfText, e1, e2, e3,
      e4, vy]

/-- East of Greenwich (offsets from 0 up to a day) `getFullYear` of a parsed date
text is the year that the text spells. -/
theorem getFullYear_isoDate (tza : Int → Int) (htz : ∀ t, 0 ≤ tza t ∧ tza t < msPerDay)
    (y m d : Int) (hv : ValidDate y m d) :
    ∃ t, newDateString (isoDate y m d) = some t ∧ getFullYear tza t = y ∧
      yearOfText (isoDate y m d) = some y := by
  obtain ⟨hy0, hy1, hm0, hm1, hd0, hd1⟩ := hv
  have hb := (daysInMonthSpec_bounds y (m - 1)).2
  obtain ⟨h1, h2⟩ := newDateString_isoDate y m d hy0 hy1 hm0 hm1 hd0 (by omega)
  refine ⟨_, h1, ?_, h2⟩
  unfold getFullYear
  have e : makeDay y (m - 1) d = dayFromYear y + (monthStart (m - 1) (leapOfYear y) + d - 1) := by
    unfold makeDay
    have a1 : (m - 1) / 12 = 0 := by omega
    have a2 : (m - 1) % 12 = m - 1 := by omega
    simp only [a1, a2, add_zero]; ring
  rw [e]
  have hw : 0 ≤ monthStart (m - 1) (leapOfYear y) + d - 1 ∧
      monthStart (m - 1) (leapOfYear y) + d - 1 < daysInYear y := by
    rw [daysInYear_eq]
    have hl := leapOfYear_eq y
    unfold daysInMonthSpec at hd1
    obtain ⟨j, hj⟩ : ∃ j, j = m - 1 := ⟨_, rfl⟩
    rw [← hj] at hd1 ⊢
    have hj0 : 0 ≤ j := by omega
    have hj1 : j ≤ 11 := by omega
    cases hleap : isLeapYear y <;> rw [hleap] at hl hd1 <;> simp only [Bool.false_eq_true, if_false, if_true] at hl hd1 <;>
      rw [hl] <;> interval_cases j <;> simp [monthStart] at hd1 ⊢ <;> omega
  exact (time_in_year y _ (tza _) hw.1 hw.2 (htz _).1 (htz _).2).1

theorem recordsOfYear_east (tza : Int → Int) (htz : ∀ t, 0 ≤ tza t ∧ tza t < msPerDay)
    (records : List LambingRecord)
    (hdates : ∀ r ∈ records, ∃ y m d, ValidDate y m d ∧ r.date = isoDate y m d) (year : Int) :
    recordsOfYear tza records year =
      records.filter (fun r => decide (yearOfText r.date = some year)) := by
  unfold recordsOfYear
  apply List.filter_congr
  intro r hr
  obtain ⟨y, m, d, hv, hdate⟩ := hdates r hr
  obtain ⟨t, h1, h2, h3⟩ := getFullYear_isoDate tza htz y m d hv
  rw [hdate, h1, h3]
  simp only [h2, Option.some.injEq]

theorem foldl_sum_parseInt (f : LambingRecord → Int) (rs : List LambingRecord) (a : Int) :
    rs.foldl (fun sum r => sum + orZero (parseInt (numToString (f r)))) a = a + (rs.map f).sum := by
  induction rs generalizing a with
  | nil => simp
  | cons r rs ih =>
    rw [List.foldl_cons, ih, parseInt_numToString]
    simp [orZero, add_assoc]

/-- The part of C2 that holds. East of Greenwich (local time offsets from 0 up to
a day), for loaded records whose dates are date texts `YYYY-MM-DD` of the
calendar, `updateTotals(Y)` shows the sum of `lambs_born` and the sum of `deaths`
over exactly the records whose date text spells the year `Y`, their number as
total ewes, and the difference of the two sums as total living. -/
theorem updateTotals_east (tza : Int → Int) (htz : ∀ t, 0 ≤ tza t ∧ tza t < msPerDay)
    (records : List LambingRecord)
    (hdates : ∀ r ∈ records, ∃ y m d, ValidDate y m d ∧ r.date = isoDate y m d) (year : Int) :
    (updateTotals tza records year).totalLambs =
      ((records.filter (fun r => decide (yearOfText r.date = some year))).map
        (fun r => r.lambs_born)).sum ∧
    (updateTotals tza records year).totalDeaths =
      ((records.filter (fun r => decide (yearOfText r.date = some year))).map
        (fun r => r.deaths)).sum ∧
    (updateTotals tza records year).totalEwes =
      (records.filter (fun r => decide (yearOfText r.date = some year))).length ∧
    (updateTotals tza records year).totalLiving =
      (updateTotals tza records year).totalLambs - (updateTotals tza records year).totalDeaths := by
  unfold updateTotals
  simp only [recordsOfYear_east tza htz records hdates year, foldl_sum_parseInt, zero_add,
    and_self]


/-! ## Backup and restore without images -/

theorem insertByKey_self {α κ : Type} [LinearOrder κ] (key : α → κ) (x : α) (l : List α)
    (h : (l.map key).Pairwise (· < ·)) (hx : x ∈ l) : insertByKey key x l = l := by
  induction l with
  | nil => simp at hx
  | cons a l ih =>
    rw [List.map_cons, List.pairwise_cons] at h
    obtain ⟨ha, hl⟩ := h
    rcases List.mem_cons.mp hx with rfl | hx1
    · simp [insertByKey]
    · have hlt : key a < key x := ha (key x) (List.mem_map_of_mem key hx1)
      have hnlt : ¬ key x < key a := not_lt.mpr (le_of_lt hlt)
      simp [insertByKey, hlt, hnlt, ih hl hx1]

theorem insertByKey_last {α κ : Type} [LinearOrder κ] (key : α → κ) (x : α) (l : List α)
    (h : ∀ y ∈ l, key y < key x) : insertByKey key x l = l ++ [x] := by
  induction l with
  | nil => rfl
  | cons a l ih =>
    have hlt : key a < key x := h a (by simp)
    have hnlt : ¬ key x < key a := not_lt.mpr (le_of_lt hlt)
    simp [insertByKey, hlt, hnlt, ih (fun y hy => h y (List.mem_cons_of_mem _ hy))]

theorem Table.put_of_mem {t : Table} (h : t.WF) (r : LambingRecord) (hr : r ∈ t.rows) :
    t.put r = t := by
  obtain ⟨k, hk, hlt⟩ := h.1 r hr
  have hn : ¬ t.nextKey ≤ k := by omega
  unfold Table.put
  simp only [hk, insertByKey_self recKey r t.rows h.2 hr, hn, if_false]

theorem Table.bulkPut_of_subset {t : Table} (h : t.WF) (rs : List LambingRecord)
    (hrs : ∀ r ∈ rs, r ∈ t.rows) : t.bulkPut rs = t := by
  induction rs with
  | nil => rfl
  | cons r rs ih =>
    rw [Table.bulkPut_cons, Table.put_of_mem h r (hrs r (by simp))]
    exact ih (fun x hx => hrs x (List.mem_cons_of_mem _ hx))

theorem Table.bulkPut_rows_append (p rest : List LambingRecord) (n : Int)
    (hid : ∀ r ∈ rest, ∃ k, r.id = some k)
    (hs : ((p ++ rest).map recKey).Pairwise (· < ·)) :
    (Table.bulkPut { rows := p, nextKey := n } rest).rows = p ++ rest := by
  induction rest generalizing p n with
  | nil => simp [Table.bulkPut]
  | cons r rest ih =>
    obtain ⟨k, hk⟩ := hid r (by simp)
    have hlast : ∀ y ∈ p, recKey y < recKey r := by
      intro y hy
      rw [List.map_append, List.pairwise_append] at hs
      exact hs.2.2 (recKey y) (List.mem_map_of_mem _ hy) (recKey r) (by simp)
    rw [Table.bulkPut_cons]
    have hput : Table.put { rows := p, nextKey := n } r =
        { rows := p ++ [r], nextKey := if n ≤ k then k + 1 else n } := by
      unfold Table.put
      simp only [hk, insertByKey_last recKey r p hlast]
    rw [hput, ih (p ++ [r]) _ (fun x hx => hid x (List.mem_cons_of_mem _ hx)) (by simpa using hs)]
    simp

theorem throughJSON_of_no_image (r : LambingRecord) (h : r.imageBlob = none) : throughJSON r = r := by
  unfold throughJSON
  rw [h]
  cases r
  simp_all

/-- The part of C7 that holds. For a store none of whose records has an image,
restoring its own backup into it leaves the database as it is, and restoring the
backup into a fresh database gives a table with the same records under the same
ids. -/
theorem restore_backup_without_images (now : Str) (db : DB) (hwf : db.lambing_records.WF)
    (hno : ∀ r ∈ db.lambing_records.rows, r.imageBlob = none) :
    (restoreData (some (backupData now db)) true db).2 = db ∧
    (restoreData (some (backupData now db)) true emptyDB).2.lambing_records.rows =
      db.lambing_records.rows := by
  have hmap : db.lambing_records.toArray.map throughJSON = db.lambing_records.rows := by
    unfold Table.toArray
    rw [List.map_congr_left (fun r hr => throughJSON_of_no_image r (hno r hr)), List.map_id']
  constructor
  · simp only [restoreData, backupData, hmap]
    rw [Table.bulkPut_of_subset hwf _ (fun r hr => hr)]
    simp
  · simp only [restoreData, backupData, hmap, emptyDB, Table.empty]
    have := Table.bulkPut_rows_append [] db.lambing_records.rows 1
      (fun r hr => by obtain ⟨k, hk, -⟩ := hwf.1 r hr; exact ⟨k, hk⟩) (by simpa using hwf.2)
    simpa using this


/-! ## Witnesses on the sample database -/

theorem photoDB_WF : photoDB.lambing_records.WF := by
  constructor
  · intro r hr
    have : r = photoRecord := by simpa [photoDB] using hr
    subst this
    exact ⟨1, rfl, by decide⟩
  · simp [photoDB]

/-- Witness for C8: the sample backup restored into the database with one record;
the record under id 1 is replaced, the record with id 4 is added. -/
theorem restoreData_merges_witness :
    photoDB.lambing_records.WF ∧
    (restoreData (some (ParsedFile.backup backupTime sampleBackup)) true photoDB).2.lambing_records.get 1
      = some (throughJSON photoRecord) ∧
    (restoreData (some (ParsedFile.backup backupTime sampleBackup)) true photoDB).2.lambing_records.get 4
      = some { sampleRecord with id := some 4 } :=
  ⟨photoDB_WF,
    (restoreData_merges photoDB photoDB_WF backupTime sampleBackup).1 1 _ (by decide),
    (restoreData_merges photoDB photoDB_WF backupTime sampleBackup).1 4 _ (by decide)⟩

/-- Witness for C9: the record with id 1 is edited without choosing a new image. -/
theorem handleLambingSubmit_edit_replaces_witness :
    photoDB.lambing_records.WF ∧ photoDB.lambing_records.get 1 = some photoRecord ∧
    editForm.editId = some (numToString 1) ∧ jsTrim editForm.lambingEwe ≠ [] ∧
    editForm.lambingDate ≠ [] ∧
    ∃ db1, handleLambingSubmit editForm photoDB = SubmitResult.saved db1 ∧
      db1.lambing_records.get 1 = some (editedRecord editForm 1 photoRecord) ∧
      (editForm.lambingImage = none →
        (editedRecord editForm 1 photoRecord).imageBlob = photoRecord.imageBlob) ∧
      db1.lambing_records.rows.length = photoDB.lambing_records.rows.length ∧
      (∀ j, j ≠ 1 → db1.lambing_records.get j = photoDB.lambing_records.get j) ∧
      db1.sheep = photoDB.sheep :=
  ⟨photoDB_WF, by decide, by decide, by decide, by decide,
    handleLambingSubmit_edit_replaces editForm photoDB photoDB_WF 1 photoRecord (by decide)
      (by decide) (by decide) (by decide)⟩

/-- Witness for C10: the sample form on a fresh database is not rejected. -/
theorem handleLambingSubmit_outcome_witness :
    emptyDB.lambing_records.WF ∧
    (handleLambingSubmit sampleForm emptyDB = SubmitResult.rejected ↔
      (jsTrim sampleForm.lambingEwe = [] ∨ sampleForm.lambingDate = [])) ∧
    ¬ (jsTrim sampleForm.lambingEwe = [] ∨ sampleForm.lambingDate = []) :=
  ⟨Table.empty_WF, (handleLambingSubmit_outcome sampleForm emptyDB Table.empty_WF).1, by decide⟩

/-! ## Identifiers are unique (C11) -/

theorem Table.delete_WF {t : Table} (h : t.WF) (k : Int) : (t.delete k).WF := by
  constructor
  · intro r hr
    exact h.1 r (List.mem_of_mem_filter hr)
  · unfold Table.delete
    simp only
    exact List.Pairwise.sublist ((List.filter_sublist _).map recKey) h.2

theorem Table.WF.nodup_ids {t : Table} (h : t.WF) :
    (t.rows.map LambingRecord.id).Nodup ∧ ∀ r ∈ t.rows, ∃ k, r.id = some k := by
  refine ⟨?_, fun r hr => ⟨recKey r, h.id_of_mem hr⟩⟩
  have hk : (t.rows.map recKey).Nodup := h.2.imp (fun hlt => ne_of_lt hlt)
  have e : t.rows.map LambingRecord.id = (t.rows.map recKey).map some := by
    rw [List.map_map]
    apply List.map_congr_left
    intro r hr
    exact h.id_of_mem hr
  rw [e]
  exact hk.map (fun a b hab => Option.some.inj hab)

/-- A submission that saves puts one record into the table. -/
theorem handleLambingSubmit_saved_put (form : Form) (db db1 : DB)
    (h : handleLambingSubmit form db = SubmitResult.saved db1) :
    ∃ r, db1.lambing_records = db.lambing_records.put r := by
  by_cases hok : jsTrim form.lambingEwe = [] ∨ form.lambingDate = []
  · have : handleLambingSubmit form db = SubmitResult.rejected := by
      unfold handleLambingSubmit
      simp only [(formData_rejected_iff form).mpr hok, if_true]
    rw [this] at h; cases h
  · cases he : form.editId with
    | none =>
      obtain ⟨sh, hs⟩ := handleLambingSubmit_new form db hok (Or.inl he)
      rw [hs] at h
      exact ⟨_, by cases h; rfl⟩
    | some s =>
      cases s with
      | nil =>
        obtain ⟨sh, hs⟩ := handleLambingSubmit_new form db hok (Or.inr he)
        rw [hs] at h
        exact ⟨_, by cases h; rfl⟩
      | cons c cs =>
        have hs := handleLambingSubmit_edit form db hok (c :: cs) he (by simp)
        rw [hs] at h
        cases hp : parseInt (c :: cs) with
        | none => rw [hp] at h; cases h
        | some k =>
          rw [hp] at h
          exact ⟨_, by cases h; rfl⟩

/-- Every reachable database has a well-formed table of records. -/
theorem Reachable.table_WF {db : DB} (h : Reachable db) : db.lambing_records.WF := by
  induction h with
  | fresh => exact Table.empty_WF
  | submit form db db1 _ hs ih =>
    obtain ⟨r, hr⟩ := handleLambingSubmit_saved_put form db db1 hs
    rw [hr]
    exact Table.put_WF ih r
  | delete id confirmed db _ ih =>
    unfold deleteRecord
    cases confirmed
    · exact ih
    · exact Table.delete_WF ih id
  | restore file confirmed db _ ih =>
    unfold restoreData
    cases file with
    | none => exact ih
    | some content =>
      cases confirmed
      · exact ih
      · cases content with
        | syntaxError => exact ih
        | jsonNull => exact ih
        | noRecordsArray => exact ih
        | backup ts records => exact Table.bulkPut_WF ih records

/-- C11. In every database reachable from the fresh one by submissions (new
entries and edits), deletes and restores, no two records have the same id and
every record has one; and a new submission that passes the check of the required
fields saves a record whose id is the key that the store generates, which differs
from the id of every record then in the store. -/
theorem reachable_ids_unique (db : DB) (h : Reachable db) :
    (db.lambing_records.rows.map LambingRecord.id).Nodup ∧
    (∀ r ∈ db.lambing_records.rows, ∃ k, r.id = some k) ∧
    ∀ form : Form, ¬ (jsTrim form.lambingEwe = [] ∨ form.lambingDate = []) →
      (form.editId = none ∨ form.editId = some []) →
      ∃ db1 r, handleLambingSubmit form db = SubmitResult.saved db1 ∧
        r.id = some db.lambing_records.nextKey ∧
        cleanRecord r = formData form ∧
        db1.lambing_records.get db.lambing_records.nextKey = some r ∧
        (∀ old ∈ db.lambing_records.rows, old.id ≠ r.id) ∧
        (db1.lambing_records.rows.map LambingRecord.id).Nodup := by
  have hwf := h.table_WF
  refine ⟨hwf.nodup_ids.1, hwf.nodup_ids.2, ?_⟩
  intro form hok hnew
  obtain ⟨sh, hs⟩ := handleLambingSubmit_new form db hok hnew
  have hid : (withFormImage form (formData form)).id = none := by
    rw [withFormImage_id]; rfl
  have hkey : db.lambing_records.putKey (withFormImage form (formData form)) =
      db.lambing_records.nextKey := by simp [Table.putKey, hid]
  have hrid : (db.lambing_records.storedAs (withFormImage form (formData form))).id =
      some db.lambing_records.nextKey := by rw [Table.storedAs_id, hkey]
  refine ⟨_, db.lambing_records.storedAs (withFormImage form (formData form)), hs, hrid, ?_, ?_,
    ?_, (Reachable.submit form db _ h hs).table_WF.nodup_ids.1⟩
  · simp only [Table.storedAs, hid]
    exact cleanRecord_withFormImage form _
  · have := Table.get_put_key hwf (withFormImage form (formData form))
    rw [hkey] at this
    exact this
  · intro old hold e
    rw [hrid] at e
    exact (Table.get_eq_none_iff db.lambing_records db.lambing_records.nextKey).mp
      (Table.fresh_of_WF hwf) old hold e

theorem savedOnce_reachable : Reachable savedOnce :=
  Reachable.submit sampleForm emptyDB savedOnce Reachable.fresh (by decide)

/-- Witness for C11: the database after one submission, and a second submission
of the sample form on it. -/
theorem reachable_ids_unique_witness :
    Reachable savedOnce ∧
    (savedOnce.lambing_records.rows.map LambingRecord.id).Nodup ∧
    (∀ r ∈ savedOnce.lambing_records.rows, ∃ k, r.id = some k) ∧
    ∀ form : Form, ¬ (jsTrim form.lambingEwe = [] ∨ form.lambingDate = []) →
      (form.editId = none ∨ form.editId = some []) →
      ∃ db1 r, handleLambingSubmit form savedOnce = SubmitResult.saved db1 ∧
        r.id = some savedOnce.lambing_records.nextKey ∧
        cleanRecord r = formData form ∧
        db1.lambing_records.get savedOnce.lambing_records.nextKey = some r ∧
        (∀ old ∈ savedOnce.lambing_records.rows, old.id ≠ r.id) ∧
        (db1.lambing_records.rows.map LambingRecord.id).Nodup :=
  ⟨savedOnce_reachable, reachable_ids_unique savedOnce savedOnce_reachable⟩


/-! ## The sheep table (C12) -/

theorem find?_insertByKey_same {α κ : Type} [LinearOrder κ] (key : α → κ) (x : α) (l : List α)
    (p : α → Bool) (hp : ∀ y, p y = true ↔ key y = key x) :
    (insertByKey key x l).find? p = some x := by
  have hx : p x = true := (hp x).mpr rfl
  induction l with
  | nil => simp [insertByKey, hx]
  | cons a l ih =>
    unfold insertByKey
    split_ifs with h1 h2
    · simp [hx]
    · have hne : ¬ p a = true := by rw [hp a]; exact ne_of_lt h2
      have hpa : p a = false := by simpa using hne
      simp [List.find?_cons, hpa, ih]
    · simp [hx]

theorem find?_insertByKey_other {α κ : Type} [LinearOrder κ] (key : α → κ) (x : α) (l : List α)
    (k : κ) (hk : k ≠ key x) (p : α → Bool) (hp : ∀ y, p y = true ↔ key y = k) :
    (insertByKey key x l).find? p = l.find? p := by
  have hx : p x = false := by
    have : ¬ p x = true := by rw [hp x]; exact fun e => hk e.symm
    simpa using this
  induction l with
  | nil => simp [insertByKey, hx]
  | cons a l ih =>
    unfold insertByKey
    split_ifs with h1 h2
    · simp [List.find?_cons, hx]
    · cases ha : p a
      · simp [List.find?_cons, ha, ih]
      · simp [List.find?_cons, ha]
    · have hax : key a = key x := le_antisymm (not_lt.mp h1) (not_lt.mp h2)
      have ha : p a = false := by
        have : ¬ p a = true := by rw [hp a, hax]; exact fun e => hk e.symm
        simpa using this
      simp [List.find?_cons, hx, ha]

theorem sheepGet_put_same (sheep : List Sheep) (s : Sheep) :
    sheepGet (sheepPut sheep s) s.id = some s :=
  find?_insertByKey_same Sheep.id s sheep _ (fun y => by simp)

theorem sheepGet_put_other (sheep : List Sheep) (s : Sheep) (j : Str) (hj : j ≠ s.id) :
    sheepGet (sheepPut sheep s) j = sheepGet sheep j :=
  find?_insertByKey_other Sheep.id s sheep j hj _ (fun y => by simp)

theorem sheepGet_saveLambIds (lambData : List LambEntry) (sheep : List Sheep) (j : Str)
    (hj : ∀ lamb ∈ lambData, lamb.id ≠ j) :
    sheepGet (saveLambIds sheep lambData) j = sheepGet sheep j := by
  induction lambData generalizing sheep with
  | nil => rfl
  | cons lamb rest ih =>
    have hrest : ∀ sh, sheepGet (saveLambIds sh rest) j = sheepGet sh j :=
      fun sh => ih sh (fun l hl => hj l (List.mem_cons_of_mem _ hl))
    have hstep : saveLambIds sheep (lamb :: rest) =
        saveLambIds (if lamb.id = [] then sheep
          else sheepPut sheep { id := lamb.id, is_ewe := some 0, is_ram := some 0 }) rest := rfl
    rw [hstep, hrest]
    split_ifs with hempty
    · rfl
    · exact sheepGet_put_other sheep _ j (fun e => hj lamb (by simp) e.symm)

theorem withFormImage_ids (form : Form) (d : LambingRecord) :
    (withFormImage form d).ewe_id = d.ewe_id ∧ (withFormImage form d).sire_id = d.sire_id ∧
    (withFormImage form d).lamb_ids = d.lamb_ids := by
  unfold withFormImage; cases form.lambingImage <;> simp

/-- The new-entry branch of `handleLambingSubmit`, with the sheep table it leaves. -/
theorem handleLambingSubmit_new_sheep (form : Form) (db : DB)
    (hok : ¬ (jsTrim form.lambingEwe = [] ∨ form.lambingDate = []))
    (hnew : form.editId = none ∨ form.editId = some []) :
    ∃ t, handleLambingSubmit form db = SubmitResult.saved
      { lambing_records := t
        sheep := saveLambIds
          (if jsTrim form.lambingSire = [] then
            sheepPut db.sheep { id := jsTrim form.lambingEwe, is_ewe := some 1, is_ram := none }
          else
            sheepPut
              (sheepPut db.sheep { id := jsTrim form.lambingEwe, is_ewe := some 1, is_ram := none })
              { id := jsTrim form.lambingSire, is_ewe := none, is_ram := some 1 })
          (getLambDataFromUI form.lambRows) } := by
  have hrej : ¬ ((formData form).ewe_id = [] ∨ (formData form).date = []) := by
    rw [formData_rejected_iff]; exact hok
  have hid : (withFormImage form (formData form)).id = none := by
    rw [withFormImage_id]; rfl
  obtain ⟨h1, h2, h3⟩ := withFormImage_ids form (formData form)
  have e1 : (formData form).ewe_id = jsTrim form.lambingEwe := rfl
  have e2 : (formData form).sire_id = jsTrim form.lambingSire := rfl
  have e3 : (formData form).lamb_ids = getLambDataFromUI form.lambRows := rfl
  rw [e1] at h1; rw [e2] at h2; rw [e3] at h3
  unfold handleLambingSubmit
  simp only [hrej, if_false]
  rcases hnew with h | h <;> rw [h] <;> simp only [Table.add, hid, h1, h2, h3] <;>
    exact ⟨_, rfl⟩

/-- C12, as amended. After a new record is saved with ewe id `E`, sire id `S` and
lamb ids `L`, the sheep table holds `E` flagged as a ewe (`is_ewe = 1`) provided
that neither `S` nor a lamb id is `E`, and, when `S` is not empty, it holds `S`
flagged as a ram (`is_ram = 1`) provided that no lamb id is `S`; a submission in
edit mode leaves the sheep table as it is. -/
theorem handleLambingSubmit_sheep (form : Form) (db : DB)
    (hok : ¬ (jsTrim form.lambingEwe = [] ∨ form.lambingDate = [])) :
    (form.editId = none ∨ form.editId = some [] →
      ∃ db1, handleLambingSubmit form db = SubmitResult.saved db1 ∧
        (jsTrim form.lambingSire ≠ jsTrim form.lambingEwe →
          (∀ lamb ∈ getLambDataFromUI form.lambRows, lamb.id ≠ jsTrim form.lambingEwe) →
          sheepGet db1.sheep (jsTrim form.lambingEwe) =
            some { id := jsTrim form.lambingEwe, is_ewe := some 1, is_ram := none }) ∧
        (jsTrim form.lambingSire ≠ [] →
          (∀ lamb ∈ getLambDataFromUI form.lambRows, lamb.id ≠ jsTrim form.lambingSire) →
          sheepGet db1.sheep (jsTrim form.lambingSire) =
            some { id := jsTrim form.lambingSire, is_ewe := none, is_ram := some 1 })) ∧
    (∀ s db1, form.editId = some s → s ≠ [] →
      handleLambingSubmit form db = SubmitResult.saved db1 → db1.sheep = db.sheep) := by
  constructor
  · intro hnew
    obtain ⟨t, hs⟩ := handleLambingSubmit_new_sheep form db hok hnew
    refine ⟨_, hs, ?_, ?_⟩
    · intro hSE hL
      simp only
      rw [sheepGet_saveLambIds _ _ _ hL]
      split_ifs with hS
      · exact sheepGet_put_same db.sheep _
      · rw [sheepGet_put_other _ _ _ (fun e => hSE e.symm)]
        exact sheepGet_put_same db.sheep _
    · intro hS hL
      simp only
      rw [sheepGet_saveLambIds _ _ _ hL]
      simp only [hS, if_false]
      exact sheepGet_put_same _ { id := jsTrim form.lambingSire, is_ewe := none, is_ram := some 1 }
  · intro s db1 he hne hs
    have h := handleLambingSubmit_edit form db hok s he hne
    rw [h] at hs
    cases hp : parseInt s with
    | none => rw [hp] at hs; cases hs
    | some k => rw [hp] at hs; cases hs; rfl

/-- Witness for C12: the sample form (ewe `E17`, sire `R2`, no lamb rows) on a
fresh database. -/
theorem handleLambingSubmit_sheep_witness :
    ¬ (jsTrim sampleForm.lambingEwe = [] ∨ sampleForm.lambingDate = []) ∧
    ∃ db1, handleLambingSubmit sampleForm emptyDB = SubmitResult.saved db1 ∧
      sheepGet db1.sheep (jsTrim sampleForm.lambingEwe) =
        some { id := jsTrim sampleForm.lambingEwe, is_ewe := some 1, is_ram := none } ∧
      sheepGet db1.sheep (jsTrim sampleForm.lambingSire) =
        some { id := jsTrim sampleForm.lambingSire, is_ewe := none, is_ram := some 1 } :=
  ⟨by decide,
    (fun ⟨db1, h1, h2, h3⟩ =>
      ⟨db1, h1, h2 (by decide) (by decide), h3 (by decide) (by decide)⟩)
      ((handleLambingSubmit_sheep sampleForm emptyDB (by decide)).1 (Or.inl rfl))⟩

/-- C12 fails as stated. When the sire field holds the ewe id, the entry of the
ewe is replaced by the entry of the sire, which has no `is_ewe` flag; and when a
lamb row holds the ewe id, it is replaced by the entry of the lamb, with
`is_ewe = 0`. -/
theorem handleLambingSubmit_sheep_overwritten :
    handleLambingSubmit sireIsEweForm emptyDB =
      SubmitResult.saved ((handleLambingSubmit sireIsEweForm emptyDB).dbAfter emptyDB) ∧
    sheepGet ((handleLambingSubmit sireIsEweForm emptyDB).dbAfter emptyDB).sheep "E17".toList =
      some { id := "E17".toList, is_ewe := none, is_ram := some 1 } ∧
    handleLambingSubmit lambIsEweForm emptyDB =
      SubmitResult.saved ((handleLambingSubmit lambIsEweForm emptyDB).dbAfter emptyDB) ∧
    sheepGet ((handleLambingSubmit lambIsEweForm emptyDB).dbAfter emptyDB).sheep "E17".toList =
      some { id := "E17".toList, is_ewe := some 0, is_ram := some 0 } := by
  refine ⟨by decide, by decide, by decide, by decide⟩


/-! ## The fallback parse of the edit modal (C15) -/

theorem isAsciiDigit_digitChar : ∀ d, d < 10 → isAsciiDigit (digitChar d) = true := by
  decide

theorem takeWhile_digit_run (ds : Str) (hds : ∀ c ∈ ds, IsDigitChar c) (x : Char)
    (hx : isAsciiDigit x = false) (rest : Str) :
    (ds ++ x :: rest).takeWhile isAsciiDigit = ds ∧
    (ds ++ x :: rest).dropWhile isAsciiDigit = x :: rest := by
  induction ds with
  | nil => simp [List.takeWhile, List.dropWhile, hx]
  | cons d ds ih =>
    obtain ⟨k, hk, rfl⟩ := hds d (by simp)
    have hd := isAsciiDigit_digitChar k hk
    obtain ⟨h1, h2⟩ := ih (fun c hc => hds c (List.mem_cons_of_mem _ hc))
    simp [List.takeWhile, List.dropWhile, hd, h1, h2]

theorem matchDigitsAt_run (ds : Str) (hds : ∀ c ∈ ds, IsDigitChar c) (hne : ds ≠ []) (x : Char)
    (hx : isAsciiDigit x = false) (rest : Str) :
    matchDigitsAt x (ds ++ x :: rest) = some ds := by
  obtain ⟨h1, h2⟩ := takeWhile_digit_run ds hds x hx rest
  unfold matchDigitsAt
  simp [h1, h2, hne]

theorem matchDigitsAt_other (ds : Str) (hds : ∀ c ∈ ds, IsDigitChar c) (c x : Char)
    (hx : isAsciiDigit x = false) (hxc : x ≠ c) (rest : Str) :
    matchDigitsAt c (ds ++ x :: rest) = none := by
  obtain ⟨h1, h2⟩ := takeWhile_digit_run ds hds x hx rest
  unfold matchDigitsAt
  simp [h1, h2, hxc]

theorem matchDigitsBefore_run (ds : Str) (hds : ∀ c ∈ ds, IsDigitChar c) (hne : ds ≠ [])
    (x : Char) (hx : isAsciiDigit x = false) (rest : Str) :
    matchDigitsBefore x (ds ++ x :: rest) = some ds := by
  obtain ⟨d, ds1, rfl⟩ := List.exists_cons_of_ne_nil hne
  have := matchDigitsAt_run (d :: ds1) hds hne x hx rest
  rw [List.cons_append] at this ⊢
  rw [matchDigitsBefore, this]

theorem matchDigitsBefore_skip (ds : Str) (hds : ∀ c ∈ ds, IsDigitChar c) (c x : Char)
    (hx : isAsciiDigit x = false) (hxc : x ≠ c) (rest : Str) :
    matchDigitsBefore c (ds ++ x :: rest) = matchDigitsBefore c rest := by
  induction ds with
  | nil =>
    have := matchDigitsAt_other [] (by simp) c x hx hxc rest
    rw [List.nil_append] at this ⊢
    rw [matchDigitsBefore, this]
  | cons d ds ih =>
    have := matchDigitsAt_other (d :: ds) hds c x hx hxc rest
    rw [List.cons_append] at this ⊢
    rw [matchDigitsBefore, this]
    exact ih (fun c hc => hds c (List.mem_cons_of_mem _ hc))

/-- The text of a count that is not negative and below `10 ^ 21` is a run of
digits, from which `parseInt` reads the count back. -/
theorem numberToString_count (m : Int) (hd : toDouble m = m) (h0 : 0 ≤ m) (h1 : m < 10 ^ 21) :
    (∀ c ∈ numberToString m, IsDigitChar c) ∧ numberToString m ≠ [] ∧
    parseIntNumber (numberToString m) = some m := by
  have hr : roundNat m.natAbs = m.natAbs := by
    rw [toDouble_nonneg m h0] at hd
    omega
  have hlt : m.natAbs < 10 ^ 21 := by
    have e : ((10 ^ 21 : Nat) : Int) = 10 ^ 21 := by norm_num
    omega
  have e : numberToString m = natNumberText m.natAbs := by
    unfold numberToString
    have : ¬ m < 0 := by omega
    rw [if_neg this]
  obtain ⟨p1, p2, p3⟩ := parseIntNumber_natNumberText m.natAbs hr hlt
  rw [e]
  refine ⟨p1, p2, ?_⟩
  rw [p3]
  congr 1
  omega

/-- C15, as amended. For every pair of counts that are not negative and below
`10 ^ 21`, the fallback parse of `openEditModal`, applied to the text
`sex_distribution` that `handleLambingSubmit` writes for them, returns the same
male and female counts. -/
theorem fallbackCounts_sex_distribution (form : Form)
    (hm : 0 ≤ orZero (parseIntNumber form.lambingMale))
    (hm1 : orZero (parseIntNumber form.lambingMale) < 10 ^ 21)
    (hf : 0 ≤ orZero (parseIntNumber form.lambingFemale))
    (hf1 : orZero (parseIntNumber form.lambingFemale) < 10 ^ 21) :
    fallbackCounts (formData form).sex_distribution =
      (some (formData form).male_lambs, some (formData form).female_lambs) := by
  have hmd := toDouble_orZero_parseIntNumber form.lambingMale
  have hfd := toDouble_orZero_parseIntNumber form.lambingFemale
  obtain ⟨m, hmdef⟩ : ∃ m, m = orZero (parseIntNumber form.lambingMale) := ⟨_, rfl⟩
  obtain ⟨f, hfdef⟩ : ∃ f, f = orZero (parseIntNumber form.lambingFemale) := ⟨_, rfl⟩
  rw [← hmdef] at hm hm1 hmd
  rw [← hfdef] at hf hf1 hfd
  have e1 : (formData form).sex_distribution =
      numberToString m ++ ('M' :: ' ' :: (numberToString f ++ ['F'])) := by
    rw [hmdef, hfdef]
    show (numberToString _ ++ 'M' :: ' ' :: numberToString _) ++ ['F'] = _
    simp
  have e2 : (formData form).male_lambs = m := by rw [hmdef]; rfl
  have e3 : (formData form).female_lambs = f := by rw [hfdef]; rfl
  obtain ⟨m1, m2, m3⟩ := numberToString_count m hmd hm hm1
  obtain ⟨f1, f2, f3⟩ := numberToString_count f hfd hf hf1
  have hM : matchDigitsBefore 'M' (numberToString m ++ ('M' :: ' ' :: (numberToString f ++ ['F']))) =
      some (numberToString m) :=
    matchDigitsBefore_run _ m1 m2 'M' (by decide) _
  have hF : matchDigitsBefore 'F' (numberToString m ++ ('M' :: ' ' :: (numberToString f ++ ['F']))) =
      some (numberToString f) := by
    rw [matchDigitsBefore_skip _ m1 'F' 'M' (by decide) (by decide)]
    have hsp := matchDigitsBefore_skip [] (by simp) 'F' ' ' (by decide) (by decide)
      (numberToString f ++ ['F'])
    rw [List.nil_append] at hsp
    rw [hsp]
    exact matchDigitsBefore_run _ f1 f2 'F' (by decide) []
  have hne : numberToString m ++ ('M' :: ' ' :: (numberToString f ++ ['F'])) ≠ [] := by simp
  rw [e1, e2, e3]
  unfold fallbackCounts
  simp only [hne, if_false, hM, hF, m3, f3]

/-- Witness for C15: the counts of the sample form, 2 males and 1 female. -/
theorem fallbackCounts_sex_distribution_witness :
    0 ≤ orZero (parseIntNumber sampleForm.lambingMale) ∧
    orZero (parseIntNumber sampleForm.lambingMale) < 10 ^ 21 ∧
    0 ≤ orZero (parseIntNumber sampleForm.lambingFemale) ∧
    orZero (parseIntNumber sampleForm.lambingFemale) < 10 ^ 21 ∧
    fallbackCounts (formData sampleForm).sex_distribution =
      (some (formData sampleForm).male_lambs, some (formData sampleForm).female_lambs) :=
  ⟨by decide, by decide, by decide, by decide,
    fallbackCounts_sex_distribution sampleForm (by decide) (by decide) (by decide) (by decide)⟩

/-- C15 fails as stated. With `-2` typed into the male count, `handleLambingSubmit`
stores the male count -2 and the text `-2M 1F`, from which the fallback parse
reads the male count 2: the pattern `(\d+)M` does not take the sign. And with
`1000000000000000000000` (that is `10 ^ 21`) typed into the male count, the
template string writes the count with an exponent, `1e+21M 1F`, from which the
fallback parse reads the male count 21. -/
theorem fallbackCounts_not_read_back :
    (formData negativeMaleForm).male_lambs = -2 ∧
    (formData negativeMaleForm).sex_distribution = "-2M 1F".toList ∧
    fallbackCounts (formData negativeMaleForm).sex_distribution = (some 2, some 1) ∧
    (formData exponentMaleForm).male_lambs = 1000000000000000000000 ∧
    (formData exponentMaleForm).sex_distribution = "1e+21M 1F".toList ∧
    fallbackCounts (formData exponentMaleForm).sex_distribution = (some 21, some 1) := by
  refine ⟨by decide, by decide, by decide, by decide, by decide, by decide⟩


/-! ## Rebuilding the lamb rows (C13) -/

/-- C13, the code at the failing input. The list holds one male row with the id
`7"b` and the weight `3.5`; when the male count changes to 2, the rebuilt first
row carries the id `7`, not `7"b`: the id is interpolated into the attribute
`value="..."`, which ends at the double quote. -/
theorem updateLambFields_quote_truncated :
    getLambDataFromUI quotedIdForm.lambRows =
      [{ id := quotedId, weight := "3.5".toList, sex := "M".toList }] ∧
    (updateLambFields quotedIdForm none).lambRows =
      [{ idValue := "7".toList, weightValue := "3.5".toList, sex := "M".toList,
         label := "Male 1 ID".toList, idDefault := "7".toList, weightDefault := "3.5".toList },
       { idValue := [], weightValue := [], sex := "M".toList,
         label := "Male 2 ID".toList, idDefault := [], weightDefault := [] }] := by
  refine ⟨by decide, by decide⟩

theorem attrValue_of_no_quote (s : Str) (h : dquote ∉ s) : attrValue s = s := by
  unfold attrValue
  rw [List.takeWhile_eq_self_iff]
  intro c hc
  have : c ≠ dquote := fun e => h (e ▸ hc)
  simpa using this

theorem textInputValue_of_no_break (s : Str) (h1 : newline ∉ s) (h2 : Char.ofNat 13 ∉ s) :
    textInputValue s = s := by
  unfold textInputValue
  rw [List.filter_eq_self]
  intro c hc
  have a1 : c ≠ newline := fun e => h1 (e ▸ hc)
  have a2 : c ≠ Char.ofNat 13 := fun e => h2 (e ▸ hc)
  simp [a1, a2]

theorem addLambRow_safe (container : List LambRow) (sex : Str) (index : Int)
    (data : Option LambEntry) (h : ∀ e, data = some e → SafeEntry e) :
    addLambRow container sex index data = container ++ [rowFor sex index data] := by
  unfold addLambRow rowFor
  cases data with
  | none =>
    have e1 : textInputValue (attrValue []) = [] := by decide
    have e2 : numberInputValue (attrValue []) = [] := by decide
    simp only [e1, e2]
  | some d =>
    obtain ⟨h1, h2, h3, h4, h5⟩ := h d rfl
    have e1 : textInputValue (attrValue d.id) = d.id := by
      rw [attrValue_of_no_quote _ h1, textInputValue_of_no_break _ h2 h3]
    have e2 : numberInputValue (attrValue d.weight) = d.weight := by
      rw [attrValue_of_no_quote _ h4]
      unfold numberInputValue
      rcases h5 with h5 | h5
      · rw [h5]; decide
      · simp [h5]
    simp only [e1, e2]

theorem foldl_range_append {α : Type} (g : Nat → α) (n : Nat) (acc : List α) :
    (List.range n).foldl (fun l i => l ++ [g i]) acc = acc ++ (List.range n).map g := by
  induction n with
  | zero => simp
  | succ n ih => simp [List.range_succ, List.foldl_append, ih]

theorem lambLoop_safe (sex : Str) (count : Int) (lambIndex : Nat) (supplied : List LambEntry)
    (hsafe : ∀ e ∈ supplied, SafeEntry e) (list : List LambRow) :
    lambLoop sex count lambIndex supplied list =
      list ++ (List.range count.toNat).map
        (fun (i : Nat) => rowFor sex ((i : Int) + 1) supplied[lambIndex + i]?) := by
  unfold lambLoop
  have e : (fun (acc : List LambRow) (i : Nat) =>
        addLambRow acc sex ((i : Int) + 1) supplied[lambIndex + i]?) =
      (fun (acc : List LambRow) (i : Nat) =>
        acc ++ [rowFor sex ((i : Int) + 1) supplied[lambIndex + i]?]) := by
    funext acc i
    apply addLambRow_safe
    intro en hen
    exact hsafe en (List.getElem?_mem hen)
  rw [e]
  exact foldl_range_append _ _ _

/-- The part of C13 that holds. When the supplied entries (`existingData` when
given, otherwise the rows present before the call) pass unchanged through the
markup of a row, `updateLambFields` rebuilds the rows as `m` rows of sex M
labelled 1 to `m` followed by `f` rows of sex F labelled 1 to `f`, row `i`
carrying the id and weight of the supplied entry `i` and blank when there is
none; when `m + f = 0` the list is empty. -/
theorem updateLambFields_rows (form : Form) (existingData : Option (List LambEntry))
    (hsafe : ∀ e ∈ existingData.getD (getLambDataFromUI form.lambRows), SafeEntry e) :
    (orZero (parseIntNumber form.lambingMale) + orZero (parseIntNumber form.lambingFemale) = 0 →
      (updateLambFields form existingData).lambRows = []) ∧
    (orZero (parseIntNumber form.lambingMale) + orZero (parseIntNumber form.lambingFemale) ≠ 0 →
      (updateLambFields form existingData).lambRows =
        (List.range (orZero (parseIntNumber form.lambingMale)).toNat).map
          (fun (i : Nat) => rowFor "M".toList ((i : Int) + 1)
            (existingData.getD (getLambDataFromUI form.lambRows))[i]?) ++
        (List.range (orZero (parseIntNumber form.lambingFemale)).toNat).map
          (fun (i : Nat) => rowFor "F".toList ((i : Int) + 1)
            (existingData.getD (getLambDataFromUI form.lambRows))[
              (orZero (parseIntNumber form.lambingMale)).toNat + i]?)) := by
  have hdef : updateLambFields form existingData =
      if addNum (orZero (parseIntNumber form.lambingMale))
          (orZero (parseIntNumber form.lambingFemale)) = 0 then
        { form with lambRows := [] }
      else
        { form with lambRows :=
            (lambLoop "F".toList (orZero (parseIntNumber form.lambingFemale))
              (orZero (parseIntNumber form.lambingMale)).toNat
              (existingData.getD (getLambDataFromUI form.lambRows))
              (lambLoop "M".toList (orZero (parseIntNumber form.lambingMale)) 0
                (existingData.getD (getLambDataFromUI form.lambRows)) [])) } := by
    unfold updateLambFields
    cases existingData <;> rfl
  rw [hdef]
  constructor
  · intro h0
    rw [if_pos ((addNum_eq_zero _ _).mpr h0)]
  · intro h0
    rw [if_neg (fun h => h0 ((addNum_eq_zero _ _).mp h))]
    rw [lambLoop_safe _ _ _ _ hsafe, lambLoop_safe _ _ _ _ hsafe]
    simp


/-! ## The lamb rows of a saved record (C14) -/

/-- C14, the code at the failing input. After a record with two male lambs was
saved, the modal is hidden and the form reset: the counts return to 0, but the
two lamb rows stay in the list. The next record, saved with the counts 0 and 0,
has a `lamb_ids` list of two entries. -/
theorem stale_lamb_rows_saved :
    (App.run sampleDefaults sampleToday (App.initial sampleDefaults sampleToday emptyDB)
        staleRowsEvents).db.lambing_records.rows.map
      (fun r => (r.id, r.ewe_id, r.male_lambs, r.female_lambs, r.lamb_ids.length)) =
    [(some 1, "E1".toList, 2, 0, 2), (some 2, "E2".toList, 0, 0, 2)] := by
  decide

theorem addLambRow_sexes (container : List LambRow) (sex : Str) (index : Int)
    (data : Option LambEntry) :
    (addLambRow container sex index data).map LambRow.sex = container.map LambRow.sex ++ [sex] := by
  simp [addLambRow]

theorem foldl_addLambRow_sexes (sex : Str) (lambIndex : Nat) (supplied : List LambEntry) (n : Nat)
    (list : List LambRow) :
    ((List.range n).foldl
      (fun acc (i : Nat) => addLambRow acc sex ((i : Int) + 1) supplied[lambIndex + i]?)
      list).map LambRow.sex = list.map LambRow.sex ++ List.replicate n sex := by
  induction n with
  | zero => simp
  | succ n ih =>
    rw [List.range_succ, List.foldl_append, List.foldl_cons, List.foldl_nil, addLambRow_sexes, ih,
      List.replicate_succ', List.append_assoc]

theorem lambLoop_sexes (sex : Str) (count : Int) (lambIndex : Nat) (supplied : List LambEntry)
    (list : List LambRow) :
    (lambLoop sex count lambIndex supplied list).map LambRow.sex =
      list.map LambRow.sex ++ List.replicate count.toNat sex :=
  foldl_addLambRow_sexes sex lambIndex supplied count.toNat list

/-- The part of C14 that holds. Right after `updateLambFields` has run on counts
that are not negative (a count field was typed in, or the edit modal was opened),
the list has `male + female` rows, the males first, and so has the `lamb_ids` of
the record that the form then gives. -/
theorem updateLambFields_sexes (form : Form) (existingData : Option (List LambEntry))
    (hm : 0 ≤ orZero (parseIntNumber form.lambingMale))
    (hf : 0 ≤ orZero (parseIntNumber form.lambingFemale)) :
    (updateLambFields form existingData).lambRows.map LambRow.sex =
      List.replicate (orZero (parseIntNumber form.lambingMale)).toNat "M".toList ++
        List.replicate (orZero (parseIntNumber form.lambingFemale)).toNat "F".toList ∧
    (formData (updateLambFields form existingData)).lamb_ids.map LambEntry.sex =
      List.replicate (formData (updateLambFields form existingData)).male_lambs.toNat "M".toList ++
        List.replicate (formData (updateLambFields form existingData)).female_lambs.toNat
          "F".toList := by
  have hrows : (updateLambFields form existingData).lambRows.map LambRow.sex =
      List.replicate (orZero (parseIntNumber form.lambingMale)).toNat "M".toList ++
        List.replicate (orZero (parseIntNumber form.lambingFemale)).toNat "F".toList := by
    unfold updateLambFields
    simp only
    split_ifs with h0
    · rw [addNum_eq_zero] at h0
      have hm0 : orZero (parseIntNumber form.lambingMale) = 0 := by omega
      have hf0 : orZero (parseIntNumber form.lambingFemale) = 0 := by omega
      simp [hm0, hf0]
    · simp only [lambLoop_sexes]
      simp
  have hmale : (updateLambFields form existingData).lambingMale = form.lambingMale := by
    unfold updateLambFields; simp only; split_ifs <;> rfl
  have hfemale : (updateLambFields form existingData).lambingFemale = form.lambingFemale := by
    unfold updateLambFields; simp only; split_ifs <;> rfl
  refine ⟨hrows, ?_⟩
  have e1 : (formData (updateLambFields form existingData)).lamb_ids.map LambEntry.sex =
      (updateLambFields form existingData).lambRows.map LambRow.sex := by
    simp [formData, getLambDataFromUI, List.map_map, Function.comp_def]
  have e2 : (formData (updateLambFields form existingData)).male_lambs =
      orZero (parseIntNumber form.lambingMale) := by
    show orZero (parseIntNumber (updateLambFields form existingData).lambingMale) = _
    rw [hmale]
  have e3 : (formData (updateLambFields form existingData)).female_lambs =
      orZero (parseIntNumber form.lambingFemale) := by
    show orZero (parseIntNumber (updateLambFields form existingData).lambingFemale) = _
    rw [hfemale]
  rw [e1, e2, e3, hrows]


/-! ## The edit modal puts the form in edit mode -/

theorem updateLambFields_editId (form : Form) (existingData : Option (List LambEntry)) :
    (updateLambFields form existingData).editId = form.editId := by
  unfold updateLambFields
  simp only
  split_ifs <;> rfl

/-- Opening the edit modal on a loaded record with id `k` writes the text of `k`
into the edit id of the form, which is the edit mode that C9 speaks of. -/
theorem openEditModal_editId (lambingRecordsData : List LambingRecord) (k : Int) (form : Form)
    (record : LambingRecord)
    (h : lambingRecordsData.find? (fun r => decide (r.id = some k)) = some record) :
    (openEditModal lambingRecordsData k form).editId = some (numToString k) := by
  unfold openEditModal
  rw [h]
  simp only
  rw [updateLambFields_editId]
  rfl


end LambTrak
